import Mathlib

/-!
The slice2cs code generator (`cpp/src/slice2cs/Gen.cpp`).

A shallow embedding of the member-ordering, bit-sequence and slicing logic of the
C# back end of the Slice compiler, of its proxy and dispatch emitters, and of its
helpers for enumerations, dictionaries, doc comments, deprecation reasons and
namespaces.  The generator appends text to an output
stream; here the appended text is kept as a list of `Item`s, one per emitted
fragment, where a call of one of the per-type emitters of `CsUtil.cpp`
(`writeMarshalCode`, `writeUnmarshalCode`, `writeTaggedMarshalCode`,
`writeTaggedUnmarshalCode`) is recorded together with the member it was called
for and the bit-sequence cursor or tag it was given.

`assert` failures and `front()` on an empty list are explicit errors.
The C++ `int` cursor is an `Int`; member lists are far below `2^31` entries, so
no wrap-around is modelled there.  The `int64_t` span of an enumeration is wrapped
explicitly (`wrapInt64`).
-/

namespace Slice

/-! ## Type model (`Slice/Parser.h`, not part of the translated sources) -/

/-- Modelled from the spec: the closed set of type kinds of section 3 (`Parser.h` is
not among the sources).  `optional u b` carries `encodedUsingBitSequence = b`. -/
inductive SliceType where
  | builtin (kind : Nat)
  | enumeration (name : String)
  | struct (name : String)
  | sequence (element : SliceType)
  | dictionary (key value : SliceType)
  | optional (underlying : SliceType) (encodedUsingBitSequence : Bool)
  | interface (name : String)
  | classType (name : String)
deriving DecidableEq

/-- The test `auto optional = OptionalPtr::dynamicCast(type); optional &&
optional->encodedUsingBitSequence()`. -/
def SliceType.isBitSequenceOptional : SliceType → Bool
  | .optional _ b => b
  | _ => false

/-- Modelled from the spec: `Member` of section 3, with the fields the generator reads
(`name()`, `type()`, `tagged()`, `tag()`). -/
structure Member where
  name : String
  type : SliceType
  tag : Option Nat
deriving DecidableEq

/-- The call `member->tagged()`. -/
def Member.tagged (m : Member) : Bool := m.tag.isSome

/-- The call `member->tag()` as a C++ `int`; `-1` when the member has no tag. -/
def Member.tagInt (m : Member) : Int :=
  match m.tag with
  | some t => (t : Int)
  | none => -1

/-- Operation mode of `Operation::mode()`. -/
inductive Mode where
  | Normal
  | Nonmutating
  | Idempotent
deriving DecidableEq

/-- Wire format of `Operation::format()`. -/
inductive FormatType where
  | DefaultFormat
  | CompactFormat
  | SlicedFormat
deriving DecidableEq

/-- Modelled from the spec: `Operation` of section 3.  `hasReturnAndOut` is a field
because `Operation::hasReturnAndOut()` is defined in `Parser.cpp`, outside the
sources; the generator only reads it. -/
structure Operation where
  name : String
  parameters : List Member
  returnValues : List Member
  hasReturnAndOut : Bool
  mode : Mode
  format : FormatType
  metaData : List String
deriving DecidableEq

/-- Modelled from the spec: `getBitSequenceSize` (section 4.1): the count of required
members whose type is an `Optional` encoded via bit sequence. -/
def getBitSequenceSize (members : List Member) : Nat :=
  members.countP (fun m => !m.tagged && m.type.isBitSequenceOptional)

/-- Modelled from the spec: `Operation::paramsBitSequenceSize()`, the bit-sequence size
of section 4.1 for the parameter list. -/
def Operation.paramsBitSequenceSize (op : Operation) : Nat :=
  getBitSequenceSize op.parameters

/-- Modelled from the spec: `Operation::returnBitSequenceSize()`, the bit-sequence size
of section 4.1 for the return-value list. -/
def Operation.returnBitSequenceSize (op : Operation) : Nat :=
  getBitSequenceSize op.returnValues

/-- Modelled from the spec: `getSortedMembers` (section 4.1): `required` keeps the
declaration order of the untagged members, `tagged` holds the tagged members sorted
ascending by tag (a stable sort, as `std::list::sort` is). -/
def getSortedMembers (members : List Member) : List Member × List Member :=
  (members.filter (fun m => !m.tagged),
   (members.filter (fun m => m.tagged)).insertionSort (fun a b => a.tagInt ≤ b.tagInt))

/-- Modelled from the spec: the effect of `writeMarshalCode` on its `int& bitSequenceIndex`
argument (section 4.3): one bit is consumed for an `Optional` encoded via bit sequence,
none for any other type. -/
def writeMarshalCode (type : SliceType) (bitSequenceIndex : Int) : Int :=
  if type.isBitSequenceOptional then bitSequenceIndex + 1 else bitSequenceIndex

/-- Modelled from the spec: the effect of `writeUnmarshalCode` on its `int& bitSequenceIndex`
argument (section 4.3), the mirror image of `writeMarshalCode`. -/
def writeUnmarshalCode (type : SliceType) (bitSequenceIndex : Int) : Int :=
  if type.isBitSequenceOptional then bitSequenceIndex + 1 else bitSequenceIndex

/-! ## Emitted text -/

/-- One fragment appended to `_out`. -/
inductive Item where
  /-- The line `var bitSequence = ostr.WriteBitSequence(n);` -/
  | writeBitSequence (size : Nat)
  /-- The line `var bitSequence = istr.ReadBitSequence(n);` -/
  | readBitSequence (size : Nat)
  /-- The line `if (<stream>.Encoding != ZeroC.Ice.Encoding.V1_1)` followed by `sb` -/
  | ifNotV1_1
  /-- The sequence `eb`, `nl`, `else`, `sb` -/
  | elseBlock
  /-- The closing `eb` -/
  | endBlock
  /-- A call `writeMarshalCode(_out, member->type(), bitSequenceIndex, ...)`, with the
  value of the cursor on entry -/
  | marshalCode (member : Member) (bitSequenceIndex : Int)
  /-- A call `writeTaggedMarshalCode(..., member->tag(), ...)` -/
  | taggedMarshalCode (member : Member) (tag : Int)
  /-- The declaration of the local, `nl << paramTypeStr(member, false) << " "` -/
  | paramTypeStr (member : Member)
  /-- The `_out << nl` before a data member is read -/
  | newline
  /-- A call `writeUnmarshalCode(_out, member->type(), bitSequenceIndex, ...)`, with the
  value of the cursor on entry -/
  | unmarshalCode (member : Member) (bitSequenceIndex : Int)
  /-- A call `writeTaggedUnmarshalCode(..., member->tag(), ...)` -/
  | taggedUnmarshalCode (member : Member) (tag : Int)
  /-- The line `return iceP_x;` -/
  | returnOne (member : Member)
  /-- The line `return (iceP_a, iceP_b, ...);` from `getNames(members, "iceP_")` -/
  | returnTuple (members : List Member)
deriving DecidableEq

/-- Ways the generator itself can go wrong. -/
inductive GenError where
  /-- The check `assert(static_cast<size_t>(bitSequenceIndex) == bitSequenceSize)` failed -/
  | assertBitSequence
  /-- The check `assert(member->tag() > currentTag)` failed -/
  | assertTagOrder
  /-- The check `assert(currentTag == -1)` failed -/
  | assertCurrentTag
  /-- A call of `front()` on an empty list -/
  | frontOfEmpty
deriving DecidableEq

/-! ## `CsVisitor::writeMarshal` -/

/-- The loop `for (const auto& member : requiredMembers) writeMarshalCode(...)`: the
emitted items and the cursor after the last member. -/
def marshalRequired : List Member → Int → List Item × Int
  | [], bitSequenceIndex => ([], bitSequenceIndex)
  | member :: rest, bitSequenceIndex =>
    let r := marshalRequired rest (writeMarshalCode member.type bitSequenceIndex)
    (Item.marshalCode member bitSequenceIndex :: r.1, r.2)

/-- The loop `for (const auto& member : taggedMembers) writeTaggedMarshalCode(...)`. -/
def marshalTagged (taggedMembers : List Member) : List Item :=
  taggedMembers.map (fun member => Item.taggedMarshalCode member member.tagInt)

/-- One iteration of the loop `for (int i = 0; i < (write11ReturnLast ? 2 : 1); i++)` of
`writeMarshal`, up to and including the tagged members: the emitted items and the cursor
left in `bitSequenceIndex`. -/
def marshalPass (bitSequenceSize : Nat) (bitSequenceIndex : Int)
    (requiredMembers taggedMembers : List Member) : Except GenError (List Item × Int) :=
  let start : Int := if bitSequenceSize > 0 then 0 else bitSequenceIndex
  let r := marshalRequired requiredMembers start
  if bitSequenceSize > 0 ∧ r.2 ≠ (bitSequenceSize : Int) then
    .error .assertBitSequence
  else
    .ok (r.1 ++ marshalTagged taggedMembers, r.2)

/-- The statements `requiredMembers.push_back(requiredMembers.front());
requiredMembers.pop_front();`. -/
def rotateFront : List Member → Except GenError (List Member)
  | [] => .error .frontOfEmpty
  | first :: rest => .ok (rest ++ [first])

/-- The condition `returnType && operation->hasReturnAndOut() && !members.front()->tagged()
&& requiredMembers.size() > 1` of `writeMarshal`, evaluated left to right. -/
def write11ReturnLast (op : Operation) (returnType : Bool) (members requiredMembers : List Member) :
    Except GenError Bool :=
  if returnType && op.hasReturnAndOut then
    match members with
    | [] => .error .frontOfEmpty
    | front :: _ => .ok (!front.tagged && decide (requiredMembers.length > 1))
  else
    .ok false

/-- The generator function `CsVisitor::writeMarshal(operation, returnType)`. -/
def writeMarshal (op : Operation) (returnType : Bool) : Except GenError (List Item) :=
  let members := if returnType then op.returnValues else op.parameters
  let requiredMembers := (getSortedMembers members).1
  let taggedMembers := (getSortedMembers members).2
  let bitSequenceIndex : Int := -1
  let bitSequenceSize := if returnType then op.returnBitSequenceSize else op.paramsBitSequenceSize
  let header := if bitSequenceSize > 0 then [Item.writeBitSequence bitSequenceSize] else []
  match write11ReturnLast op returnType members requiredMembers with
  | .error e => .error e
  | .ok false =>
    match marshalPass bitSequenceSize bitSequenceIndex requiredMembers taggedMembers with
    | .error e => .error e
    | .ok p => .ok (header ++ p.1)
  | .ok true =>
    match marshalPass bitSequenceSize bitSequenceIndex requiredMembers taggedMembers with
    | .error e => .error e
    | .ok p1 =>
      match rotateFront requiredMembers with
      | .error e => .error e
      | .ok rotated =>
        match marshalPass bitSequenceSize p1.2 rotated taggedMembers with
        | .error e => .error e
        | .ok p2 =>
          .ok (header ++ [Item.ifNotV1_1] ++ p1.1 ++ [Item.elseBlock] ++ p2.1 ++ [Item.endBlock])

/-! ## `CsVisitor::writeUnmarshal` -/

/-- The loop over `requiredMembers` of `writeUnmarshal`: each member is declared
(`paramTypeStr`) and read (`writeUnmarshalCode`). -/
def unmarshalRequired : List Member → Int → List Item × Int
  | [], bitSequenceIndex => ([], bitSequenceIndex)
  | member :: rest, bitSequenceIndex =>
    let r := unmarshalRequired rest (writeUnmarshalCode member.type bitSequenceIndex)
    (Item.paramTypeStr member :: Item.unmarshalCode member bitSequenceIndex :: r.1, r.2)

/-- The loop over `taggedMembers` of `writeUnmarshal`. -/
def unmarshalTagged : List Member → List Item
  | [] => []
  | member :: rest =>
    Item.paramTypeStr member :: Item.taggedUnmarshalCode member member.tagInt :: unmarshalTagged rest

/-- The `return` statement closing each pass of `writeUnmarshal`. -/
def returnStatement : List Member → Item
  | [front] => Item.returnOne front
  | members => Item.returnTuple members

/-- One iteration of the loop of `writeUnmarshal`, up to and including the `return`. -/
def unmarshalPass (bitSequenceSize : Nat) (bitSequenceIndex : Int)
    (members requiredMembers taggedMembers : List Member) : Except GenError (List Item × Int) :=
  let start : Int := if bitSequenceSize > 0 then 0 else bitSequenceIndex
  let r := unmarshalRequired requiredMembers start
  if bitSequenceSize > 0 ∧ r.2 ≠ (bitSequenceSize : Int) then
    .error .assertBitSequence
  else
    .ok (r.1 ++ unmarshalTagged taggedMembers ++ [returnStatement members], r.2)

/-- The condition `returnType && operation->hasReturnAndOut() && requiredMembers.size() > 1
&& !members.front()->tagged()` of `writeUnmarshal`, evaluated left to right. -/
def read11ReturnLast (op : Operation) (returnType : Bool) (members requiredMembers : List Member) :
    Except GenError Bool :=
  if returnType && op.hasReturnAndOut && decide (requiredMembers.length > 1) then
    match members with
    | [] => .error .frontOfEmpty
    | front :: _ => .ok (!front.tagged)
  else
    .ok false

/-- The generator function `CsVisitor::writeUnmarshal(operation, returnType)`. -/
def writeUnmarshal (op : Operation) (returnType : Bool) : Except GenError (List Item) :=
  let members := if returnType then op.returnValues else op.parameters
  let requiredMembers := (getSortedMembers members).1
  let taggedMembers := (getSortedMembers members).2
  let bitSequenceIndex : Int := -1
  let bitSequenceSize := if returnType then op.returnBitSequenceSize else op.paramsBitSequenceSize
  let header := if bitSequenceSize > 0 then [Item.readBitSequence bitSequenceSize] else []
  match read11ReturnLast op returnType members requiredMembers with
  | .error e => .error e
  | .ok false =>
    match unmarshalPass bitSequenceSize bitSequenceIndex members requiredMembers taggedMembers with
    | .error e => .error e
    | .ok p => .ok (header ++ p.1)
  | .ok true =>
    match unmarshalPass bitSequenceSize bitSequenceIndex members requiredMembers taggedMembers with
    | .error e => .error e
    | .ok p1 =>
      match rotateFront requiredMembers with
      | .error e => .error e
      | .ok rotated =>
        match unmarshalPass bitSequenceSize p1.2 members rotated taggedMembers with
        | .error e => .error e
        | .ok p2 =>
          .ok (header ++ [Item.ifNotV1_1] ++ p1.1 ++ [Item.elseBlock] ++ p2.1 ++ [Item.endBlock])

/-! ## `CsVisitor::writeMarshalDataMembers` and `writeUnmarshalDataMembers` -/

/-- The loop over `taggedMembers` of `writeMarshalDataMembers` with its debug check
`assert(member->tag() > currentTag); currentTag = member->tag();`. -/
def marshalTaggedChecked : List Member → Int → Except GenError (List Item)
  | [], _ => .ok []
  | member :: rest, currentTag =>
    if member.tagInt > currentTag then
      match marshalTaggedChecked rest member.tagInt with
      | .error e => .error e
      | .ok items => .ok (Item.taggedMarshalCode member member.tagInt :: items)
    else
      .error .assertTagOrder

/-- The loop over `requiredMembers` of `writeMarshalDataMembers` with its debug check
`assert(currentTag == -1)`: the emitted items and the cursor after the last member. -/
def marshalRequiredChecked : List Member → Int → Int → Except GenError (List Item × Int)
  | [], _, bitSequenceIndex => .ok ([], bitSequenceIndex)
  | member :: rest, currentTag, bitSequenceIndex =>
    if currentTag = -1 then
      match marshalRequiredChecked rest currentTag (writeMarshalCode member.type bitSequenceIndex) with
      | .error e => .error e
      | .ok r => .ok (Item.marshalCode member bitSequenceIndex :: r.1, r.2)
    else
      .error .assertCurrentTag

/-- The generator function `CsVisitor::writeMarshalDataMembers(p, ns, baseTypes)`, with the
debug checks compiled in. -/
def writeMarshalDataMembers (p : List Member) : Except GenError (List Item) :=
  let currentTag : Int := -1
  let requiredMembers := (getSortedMembers p).1
  let taggedMembers := (getSortedMembers p).2
  let bitSequenceSize := getBitSequenceSize requiredMembers
  let header := if bitSequenceSize > 0 then [Item.writeBitSequence bitSequenceSize] else []
  let bitSequenceIndex : Int := if bitSequenceSize > 0 then 0 else -1
  match marshalRequiredChecked requiredMembers currentTag bitSequenceIndex with
  | .error e => .error e
  | .ok r =>
    match marshalTaggedChecked taggedMembers currentTag with
    | .error e => .error e
    | .ok tagged =>
      if bitSequenceSize > 0 ∧ r.2 ≠ (bitSequenceSize : Int) then
        .error .assertBitSequence
      else
        .ok (header ++ r.1 ++ tagged)

/-- The loop over `requiredMembers` of `writeUnmarshalDataMembers`. -/
def unmarshalRequiredData : List Member → Int → List Item × Int
  | [], bitSequenceIndex => ([], bitSequenceIndex)
  | member :: rest, bitSequenceIndex =>
    let r := unmarshalRequiredData rest (writeUnmarshalCode member.type bitSequenceIndex)
    (Item.newline :: Item.unmarshalCode member bitSequenceIndex :: r.1, r.2)

/-- The loop over `taggedMembers` of `writeUnmarshalDataMembers`. -/
def unmarshalTaggedData : List Member → List Item
  | [] => []
  | member :: rest =>
    Item.newline :: Item.taggedUnmarshalCode member member.tagInt :: unmarshalTaggedData rest

/-- The generator function `CsVisitor::writeUnmarshalDataMembers(p, ns, baseTypes)`. -/
def writeUnmarshalDataMembers (p : List Member) : Except GenError (List Item) :=
  let requiredMembers := (getSortedMembers p).1
  let taggedMembers := (getSortedMembers p).2
  let bitSequenceSize := getBitSequenceSize requiredMembers
  let header := if bitSequenceSize > 0 then [Item.readBitSequence bitSequenceSize] else []
  let bitSequenceIndex : Int := if bitSequenceSize > 0 then 0 else -1
  let r := unmarshalRequiredData requiredMembers bitSequenceIndex
  if bitSequenceSize > 0 ∧ r.2 ≠ (bitSequenceSize : Int) then
    .error .assertBitSequence
  else
    .ok (header ++ r.1 ++ unmarshalTaggedData taggedMembers)

/-! ## Projections of the emitted text -/

/-- The members handed to `writeMarshalCode` or `writeUnmarshalCode`, in emission order, each
with the bit-sequence cursor it was given. -/
def requiredPairs : List Item → List (Member × Int)
  | [] => []
  | Item.marshalCode m i :: rest => (m, i) :: requiredPairs rest
  | Item.unmarshalCode m i :: rest => (m, i) :: requiredPairs rest
  | _ :: rest => requiredPairs rest

/-- The members handed to `writeTaggedMarshalCode` or `writeTaggedUnmarshalCode`, in emission
order, each with the tag it was given. -/
def taggedPairs : List Item → List (Member × Int)
  | [] => []
  | Item.taggedMarshalCode m t :: rest => (m, t) :: taggedPairs rest
  | Item.taggedUnmarshalCode m t :: rest => (m, t) :: taggedPairs rest
  | _ :: rest => taggedPairs rest

/-- The members declared as locals (`paramTypeStr`), in emission order. -/
def declaredMembers : List Item → List Member
  | [] => []
  | Item.paramTypeStr m :: rest => m :: declaredMembers rest
  | _ :: rest => declaredMembers rest

/-- The `return` statements of the emitted text, in emission order. -/
def returnItems : List Item → List Item
  | [] => []
  | Item.returnOne m :: rest => Item.returnOne m :: returnItems rest
  | Item.returnTuple ms :: rest => Item.returnTuple ms :: returnItems rest
  | _ :: rest => returnItems rest

/-- Number of bit-sequence indices consumed by a run of emitted items: one for each call of
`writeMarshalCode` or `writeUnmarshalCode` on an `Optional` encoded via bit sequence. -/
def bitsConsumed (items : List Item) : Nat :=
  (requiredPairs items).countP (fun p => p.1.type.isBitSequenceOptional)

/-- Pairs a member list with the cursor each member is given when the members are emitted in
list order starting from `start`. -/
def withCursor : List Member → Int → List (Member × Int)
  | [], _ => []
  | m :: rest, start => (m, start) :: withCursor rest (writeMarshalCode m.type start)

/-- The member list `returnType ? operation->returnValues() : operation->parameters()`. -/
def sideMembers (op : Operation) (returnType : Bool) : List Member :=
  if returnType then op.returnValues else op.parameters

/-- The size `returnType ? operation->returnBitSequenceSize() : operation->paramsBitSequenceSize()`. -/
def sideBitSequenceSize (op : Operation) (returnType : Bool) : Nat :=
  if returnType then op.returnBitSequenceSize else op.paramsBitSequenceSize

/-- Value of `bitSequenceIndex` when the loop over the required members starts: `0` when a bit
sequence was opened, the initial `-1` otherwise. -/
def startCursor (bitSequenceSize : Nat) : Int :=
  if bitSequenceSize > 0 then 0 else -1

/-- The trigger of section 4.2 in the spec's words: return side, `hasReturnAndOut`, the first
return member is not tagged, at least two required members. -/
def twoBranches (op : Operation) (returnType : Bool) : Bool :=
  returnType && op.hasReturnAndOut &&
    (match sideMembers op returnType with
     | [] => false
     | front :: _ => !front.tagged) &&
    decide (2 ≤ (getSortedMembers (sideMembers op returnType)).1.length)

/-- Every operation with `hasReturnAndOut` has a return value. -/
def Operation.WellFormed (op : Operation) : Prop :=
  op.hasReturnAndOut = true → op.returnValues ≠ []

instance (op : Operation) : Decidable op.WellFormed := by
  unfold Operation.WellFormed
  exact inferInstance

/-! ## Closed forms and projections used to state the properties -/

/-- The bit-sequence declaration that opens the text of `writeMarshal` and
`writeMarshalDataMembers`. -/
def marshalHeader (bitSequenceSize : Nat) : List Item :=
  if bitSequenceSize > 0 then [Item.writeBitSequence bitSequenceSize] else []

/-- The bit-sequence declaration that opens the text of `writeUnmarshal` and
`writeUnmarshalDataMembers`. -/
def unmarshalHeader (bitSequenceSize : Nat) : List Item :=
  if bitSequenceSize > 0 then [Item.readBitSequence bitSequenceSize] else []

/-- Text of one pass of `writeMarshal` over the given required and tagged members. -/
def marshalBranch (bitSequenceSize : Nat) (req tagged : List Member) : List Item :=
  (marshalRequired req (startCursor bitSequenceSize)).1 ++ marshalTagged tagged

/-- Text of one pass of `writeUnmarshal` over the given required and tagged members. -/
def unmarshalBranch (bitSequenceSize : Nat) (members req tagged : List Member) : List Item :=
  (unmarshalRequired req (startCursor bitSequenceSize)).1 ++ unmarshalTagged tagged ++
    [returnStatement members]

/-- The tags of a member list are pairwise distinct (the invariant of section 3). -/
def TagsDistinct (p : List Member) : Prop :=
  (p.filterMap (fun m => m.tag)).Nodup

instance (p : List Member) : Decidable (TagsDistinct p) := by
  unfold TagsDistinct
  exact inferInstance

instance tagLe_total : IsTotal Member (fun a b => a.tagInt ≤ b.tagInt) :=
  ⟨fun a b => le_total a.tagInt b.tagInt⟩

instance tagLe_trans : IsTrans Member (fun a b => a.tagInt ≤ b.tagInt) :=
  ⟨fun _ _ _ h1 h2 => le_trans h1 h2⟩

/-- Text of `writeMarshalDataMembers` when no check fails. -/
def marshalDataText (p : List Member) : List Item :=
  marshalHeader (getBitSequenceSize p) ++
    (marshalRequired (getSortedMembers p).1 (startCursor (getBitSequenceSize p))).1 ++
    marshalTagged (getSortedMembers p).2

/-- Text of `writeUnmarshalDataMembers`. -/
def unmarshalDataText (p : List Member) : List Item :=
  unmarshalHeader (getBitSequenceSize p) ++
    (unmarshalRequiredData (getSortedMembers p).1 (startCursor (getBitSequenceSize p))).1 ++
    unmarshalTaggedData (getSortedMembers p).2

/-- What the emitted text fixes of the wire layout: the bit-sequence declaration, the
version check and its branches, each required member with its bit index (when its type
is an `Optional` encoded via bit sequence) and each tagged member with its tag. -/
inductive Wire where
  | bitSequence (size : Nat)
  | versionCheck
  | otherwise
  | close
  | required (member : Member) (bitIndex : Option Int)
  | tagged (member : Member) (tag : Int)
deriving DecidableEq

/-- Wire entry of a required member emitted with the given cursor. -/
def Wire.ofRequired (p : Member × Int) : Wire :=
  Wire.required p.1 (if p.1.type.isBitSequenceOptional then some p.2 else none)

/-- Wire entry of a tagged member emitted with the given tag. -/
def Wire.ofTagged (p : Member × Int) : Wire :=
  Wire.tagged p.1 p.2

/-- The wire entry an emitted item stands for, if any. -/
def Item.wire : Item → Option Wire
  | .writeBitSequence n => some (.bitSequence n)
  | .readBitSequence n => some (.bitSequence n)
  | .ifNotV1_1 => some .versionCheck
  | .elseBlock => some .otherwise
  | .endBlock => some .close
  | .marshalCode m i => some (Wire.ofRequired (m, i))
  | .unmarshalCode m i => some (Wire.ofRequired (m, i))
  | .taggedMarshalCode m t => some (Wire.ofTagged (m, t))
  | .taggedUnmarshalCode m t => some (Wire.ofTagged (m, t))
  | .paramTypeStr _ => none
  | .newline => none
  | .returnOne _ => none
  | .returnTuple _ => none

/-- The wire layout fixed by an emitted text. -/
def wireLayout (items : List Item) : List Wire :=
  items.filterMap Item.wire

/-- The emitted text cut at each `else`: one entry per pass of the member loop. -/
def passes : List Item → List (List Item)
  | [] => [[]]
  | Item.elseBlock :: rest => [] :: passes rest
  | x :: rest => (x :: (passes rest).headD []) :: (passes rest).tail

/-- The members read by a run of emitted items: required members, then tagged members. -/
def emittedMembers (items : List Item) : List Member :=
  (requiredPairs items ++ taggedPairs items).map Prod.fst

/-- In a pass, the bit index given to each required member whose type is an `Optional` encoded
via bit sequence is the number of such members emitted before it in that pass. -/
def BitsInEmissionOrder (pass : List Item) : Prop :=
  ∀ (k : Nat) (m : Member) (i : Int), (requiredPairs pass)[k]? = some (m, i) →
    m.type.isBitSequenceOptional = true →
    i = ((((requiredPairs pass).take k).map Prod.fst).countP
          (fun x => x.type.isBitSequenceOptional) : Nat)

/-- The pairs `(member, member->tag())` of a tagged-member list. -/
def withTag (tagged : List Member) : List (Member × Int) :=
  tagged.map (fun m => (m, m.tagInt))

/-- The reading of "bit order follows member declaration order" for one pass: the bit index
given to a required member whose type is an `Optional` encoded via bit sequence is the number
of such members that precede it in the declaration-ordered list `required`. -/
def BitsInDeclarationOrder (required : List Member) (pass : List Item) : Prop :=
  ∀ (m : Member) (i : Int), (m, i) ∈ requiredPairs pass →
    m.type.isBitSequenceOptional = true →
    ∃ k : Nat, required[k]? = some m ∧
      i = ((required.take k).countP (fun x => x.type.isBitSequenceOptional) : Nat)

/-- A primary return value of type `int?`. -/
def legacyFirst : Member := ⟨"r1", .optional (.builtin 4) true, none⟩

/-- An out-parameter of type `int?`. -/
def legacySecond : Member := ⟨"r2", .optional (.builtin 4) true, none⟩

/-- The operation `int? op(out int? r2)`. -/
def legacyOp : Operation :=
  ⟨"op", [], [legacyFirst, legacySecond], true, .Normal, .DefaultFormat, []⟩

/-! ## Classes and exceptions: `TypesVisitor::writeMarshaling`, `visitExceptionEnd` -/

/-- Modelled from the spec: what the generator reads of one class definition (`ClassDef` of
`Parser.h`): its name, `compactId()` (negative when the class has none), whether it carries
the `preserve-slice` metadata itself, and its own data members. -/
structure ClassInfo where
  name : String
  compactId : Int
  preserveSlice : Bool
  dataMembers : List Member
deriving DecidableEq

/-- Modelled from the spec: a class with its base chain (section 3: singly linked, never
cyclic, the root has no base). -/
inductive ClassDef where
  | root (info : ClassInfo)
  | derived (info : ClassInfo) (base : ClassDef)
deriving DecidableEq

/-- The class's own description. -/
def ClassDef.info : ClassDef → ClassInfo
  | .root info => info
  | .derived info _ => info

/-- The call `p->base()`. -/
def ClassDef.base : ClassDef → Option ClassDef
  | .root _ => none
  | .derived _ base => some base

/-- The call `p->allBases()`: the bases, nearest first. -/
def ClassDef.allBases : ClassDef → List ClassDef
  | .root _ => []
  | .derived _ base => base :: base.allBases

/-- The call `p->hasMetaData("preserve-slice")`. -/
def ClassDef.hasPreserveSlice (p : ClassDef) : Bool := p.info.preserveSlice

/-- Modelled from the spec: `p->inheritsMetaData("preserve-slice")`, true when a base class
carries the metadata. -/
def ClassDef.inheritsPreserveSlice (p : ClassDef) : Bool :=
  p.allBases.any (fun b => b.info.preserveSlice)

/-- The call `p->allDataMembers()`: the data members of the bases, root first, then the
class's own. -/
def ClassDef.allDataMembers : ClassDef → List Member
  | .root info => info.dataMembers
  | .derived info base => base.allDataMembers ++ info.dataMembers

/-- Modelled from the spec: what the generator can read of one exception definition: its
name, its own data members and its metadata (free-form strings, section 6). -/
structure ExceptionInfo where
  name : String
  dataMembers : List Member
  metaData : List String
deriving DecidableEq

/-- Modelled from the spec: an exception with its base chain. -/
inductive Exception where
  | root (info : ExceptionInfo)
  | derived (info : ExceptionInfo) (base : Exception)
deriving DecidableEq

/-- The exception's own description. -/
def Exception.info : Exception → ExceptionInfo
  | .root info => info
  | .derived info _ => info

/-- The call `p->base()`. -/
def Exception.base : Exception → Option Exception
  | .root _ => none
  | .derived _ base => some base

/-- The bases of an exception, nearest first. -/
def Exception.allBases : Exception → List Exception
  | .root _ => []
  | .derived _ base => base :: base.allBases

/-- A call on the stream in the generated C# code. -/
inductive Call where
  /-- The call `ostr.IceStartFirstSlice(_iceAllTypeIds[, IceSlicedData][, compactId: n]
  [, errorMessage: Message]);` -/
  | writeStartFirstSlice (slicedData : Bool) (compactId : Option Int) (errorMessage : Bool)
  /-- The call `ostr.IceStartNextSlice(<typeId>);` -/
  | writeStartNextSlice (typeId : String)
  /-- The call `ostr.IceEndSlice(<lastSlice>);` -/
  | writeEndSlice (lastSlice : Bool)
  /-- The statement `IceSlicedData = istr.IceStartFirstSlice();`, or `_ = ...` when the
  result is dropped -/
  | readStartFirstSlice (keepSlicedData : Bool)
  /-- The statement `ConvertToUnhandled = true;` -/
  | convertToUnhandled
  /-- The call `istr.IceStartNextSlice();` -/
  | readStartNextSlice
  /-- The call `istr.IceEndSlice();` -/
  | readEndSlice
deriving DecidableEq

/-- A statement of a generated `IceWrite` or `IceRead` method. -/
inductive Stmt where
  /-- The statement `if (firstSlice) { ... } else { ... }` -/
  | ifFirstSlice (thenCalls elseCalls : List Call)
  /-- A stream call outside the `if` -/
  | call (c : Call)
  /-- The text of `writeMarshalDataMembers(members, ...)` -/
  | marshalDataMembers (members : List Member)
  /-- The text of `writeUnmarshalDataMembers(members, ...)` -/
  | unmarshalDataMembers (members : List Member)
  /-- The statement `base.IceWrite(ostr, <firstSlice>);` or `base.IceRead(istr, <firstSlice>);` -/
  | baseCall (firstSlice : Bool)
  /-- The statement `Initialize();` -/
  | initCall
deriving DecidableEq

/-- The helper `hasDataMemberWithName(dataMembers, name)` of `Gen.cpp`. -/
def hasDataMemberWithName (dataMembers : List Member) (name : String) : Bool :=
  dataMembers.any (fun m => m.name == name)

/-- Body of the `IceWrite` method emitted by `TypesVisitor::writeMarshaling(p)`. -/
def writeMarshalingIceWrite (p : ClassDef) : List Stmt :=
  let preserved := p.hasPreserveSlice
  let basePreserved := p.inheritsPreserveSlice
  [Stmt.ifFirstSlice
      [Call.writeStartFirstSlice (preserved || basePreserved)
        (if p.info.compactId ≥ 0 then some p.info.compactId else none) false]
      [Call.writeStartNextSlice "IceTypeId"],
    Stmt.marshalDataMembers p.info.dataMembers] ++
  (match p.base with
   | some _ => [Stmt.call (Call.writeEndSlice false), Stmt.baseCall false]
   | none => [Stmt.call (Call.writeEndSlice true)])

/-- Body of the `IceRead` method emitted by `TypesVisitor::writeMarshaling(p)`. -/
def writeMarshalingIceRead (p : ClassDef) : List Stmt :=
  let preserved := p.hasPreserveSlice
  let basePreserved := p.inheritsPreserveSlice
  [Stmt.ifFirstSlice
      [Call.readStartFirstSlice (preserved || basePreserved)]
      [Call.readStartNextSlice],
    Stmt.unmarshalDataMembers p.info.dataMembers,
    Stmt.call Call.readEndSlice] ++
  (match p.base with
   | some _ => [Stmt.baseCall false]
   | none => []) ++
  (if !hasDataMemberWithName p.allDataMembers "Initialize" then [Stmt.initCall] else [])

/-- Body of the `IceRead` method emitted by `TypesVisitor::visitExceptionEnd(p)`. -/
def visitExceptionEndIceRead (p : Exception) : List Stmt :=
  [Stmt.ifFirstSlice
      [Call.readStartFirstSlice true, Call.convertToUnhandled]
      [Call.readStartNextSlice],
    Stmt.unmarshalDataMembers p.info.dataMembers,
    Stmt.call Call.readEndSlice] ++
  (match p.base with
   | some _ => [Stmt.baseCall false]
   | none => [])

/-- Body of the `IceWrite` method emitted by `TypesVisitor::visitExceptionEnd(p)`. -/
def visitExceptionEndIceWrite (p : Exception) : List Stmt :=
  [Stmt.ifFirstSlice
      [Call.writeStartFirstSlice true none true]
      [Call.writeStartNextSlice "_iceAllTypeIds[0]"],
    Stmt.marshalDataMembers p.info.dataMembers] ++
  (match p.base with
   | some _ => [Stmt.call (Call.writeEndSlice false), Stmt.baseCall false]
   | none => [Stmt.call (Call.writeEndSlice true)])

/-- What running a generated method does, in order: stream calls, the marshaling or
unmarshaling of a slice's data members, `Initialize()`; each with the type whose method
did it. -/
inductive Event where
  | call (owner : String) (c : Call)
  | dataMembers (owner : String) (members : List Member)
  | initCall (owner : String)
deriving DecidableEq

/-- Runs the statements of one generated method of type `owner`; `base` runs the same
method of the base type. -/
def execBody (owner : String) (firstSlice : Bool) (base : Bool → List Event) :
    List Stmt → List Event
  | [] => []
  | Stmt.ifFirstSlice thenCalls elseCalls :: rest =>
    (if firstSlice then thenCalls else elseCalls).map (Event.call owner) ++
      execBody owner firstSlice base rest
  | Stmt.call c :: rest => Event.call owner c :: execBody owner firstSlice base rest
  | Stmt.marshalDataMembers ms :: rest =>
    Event.dataMembers owner ms :: execBody owner firstSlice base rest
  | Stmt.unmarshalDataMembers ms :: rest =>
    Event.dataMembers owner ms :: execBody owner firstSlice base rest
  | Stmt.baseCall b :: rest => base b ++ execBody owner firstSlice base rest
  | Stmt.initCall :: rest => Event.initCall owner :: execBody owner firstSlice base rest

/-- Runs a generated method on an instance whose type chain, most-derived first, has the
given method bodies: `base.IceWrite` and `base.IceRead` resolve to the next body. -/
def runMethod : List (String × List Stmt) → Bool → List Event
  | [], _ => []
  | (owner, body) :: bases, firstSlice => execBody owner firstSlice (runMethod bases) body

/-- The generated `IceWrite` methods along the base chain of a class, most-derived first. -/
def classIceWrite (p : ClassDef) : List (String × List Stmt) :=
  (p :: p.allBases).map (fun c => (c.info.name, writeMarshalingIceWrite c))

/-- The generated `IceRead` methods along the base chain of a class, most-derived first. -/
def classIceRead (p : ClassDef) : List (String × List Stmt) :=
  (p :: p.allBases).map (fun c => (c.info.name, writeMarshalingIceRead c))

/-- The generated `IceWrite` methods along the base chain of an exception. -/
def exceptionIceWrite (p : Exception) : List (String × List Stmt) :=
  (p :: p.allBases).map (fun c => (c.info.name, visitExceptionEndIceWrite c))

/-- The generated `IceRead` methods along the base chain of an exception. -/
def exceptionIceRead (p : Exception) : List (String × List Stmt) :=
  (p :: p.allBases).map (fun c => (c.info.name, visitExceptionEndIceRead c))

/-- The slice-start calls of a run, in order, each with the type that made it. -/
def sliceStarts : List Event → List (String × Call)
  | [] => []
  | Event.call owner (Call.writeStartFirstSlice s c e) :: rest =>
    (owner, Call.writeStartFirstSlice s c e) :: sliceStarts rest
  | Event.call owner (Call.writeStartNextSlice t) :: rest =>
    (owner, Call.writeStartNextSlice t) :: sliceStarts rest
  | Event.call owner (Call.readStartFirstSlice k) :: rest =>
    (owner, Call.readStartFirstSlice k) :: sliceStarts rest
  | Event.call owner Call.readStartNextSlice :: rest =>
    (owner, Call.readStartNextSlice) :: sliceStarts rest
  | _ :: rest => sliceStarts rest

/-- The slice-end calls of a run, in order, each with the type that made it. -/
def sliceEnds : List Event → List (String × Call)
  | [] => []
  | Event.call owner (Call.writeEndSlice l) :: rest => (owner, Call.writeEndSlice l) :: sliceEnds rest
  | Event.call owner Call.readEndSlice :: rest => (owner, Call.readEndSlice) :: sliceEnds rest
  | _ :: rest => sliceEnds rest

/-- The types whose slice is started or ended, one entry per start or end call, in order. -/
def sliceOwners : List Event → List String
  | [] => []
  | Event.call _ Call.convertToUnhandled :: rest => sliceOwners rest
  | Event.call owner _ :: rest => owner :: sliceOwners rest
  | _ :: rest => sliceOwners rest

/-- Each name twice: a slice is started and then ended before the next one starts. -/
def startEndOrder : List String → List String
  | [] => []
  | n :: rest => n :: n :: startEndOrder rest

/-- The stream calls a statement holds, in text order; for `if (firstSlice)` the calls of
both branches. -/
def Stmt.calls : Stmt → List Call
  | .ifFirstSlice thenCalls elseCalls => thenCalls ++ elseCalls
  | .call c => [c]
  | .marshalDataMembers _ => []
  | .unmarshalDataMembers _ => []
  | .baseCall _ => []
  | .initCall => []

/-- Whether a call is `ostr.IceEndSlice(...)`. -/
def Call.isWriteEndSlice : Call → Bool
  | .writeEndSlice _ => true
  | _ => false

/-- Whether a call is `IceStartFirstSlice`, on either stream. -/
def Call.isStartFirstSlice : Call → Bool
  | .writeStartFirstSlice _ _ _ => true
  | .readStartFirstSlice _ => true
  | _ => false

/-- Whether a call hands sliced data to the stream or keeps the sliced data it returns, or
passes an error message. -/
def Call.carriesSlicedDataOrMessage : Call → Bool
  | .writeStartFirstSlice slicedData _ errorMessage => slicedData || errorMessage
  | .readStartFirstSlice keepSlicedData => keepSlicedData
  | _ => false

/-- A three-level hierarchy: `Leaf` (compact id 7) derives from `Mid`, which derives from `Root`. -/
def leafMidRoot : ClassDef :=
  .derived ⟨"Leaf", 7, false, []⟩ (.derived ⟨"Mid", 3, false, []⟩ (.root ⟨"Root", 1, false, []⟩))

/-- The first slice-start call of the generated `IceWrite` of a class. -/
def classWriteStart (p : ClassDef) (firstSlice : Bool) : Call :=
  if firstSlice then
    Call.writeStartFirstSlice (p.hasPreserveSlice || p.inheritsPreserveSlice)
      (if p.info.compactId ≥ 0 then some p.info.compactId else none) false
  else Call.writeStartNextSlice "IceTypeId"

/-! ## Sample operations -/

/-- A required parameter of type `int`. -/
def sampleParam : Member := ⟨"x", .builtin 4, none⟩

/-- A tagged member `tag(2) int?`. -/
def sampleTagged : Member := ⟨"t", .optional (.builtin 4) true, some 2⟩

/-- A tagged member `tag(1) string?`. -/
def sampleTaggedLow : Member := ⟨"u", .optional (.builtin 14) true, some 1⟩

/-- An operation with a required and a tagged parameter, a primary return value, two tagged
return values and an out-parameter. -/
def sampleOp : Operation :=
  ⟨"opSample", [sampleParam, sampleTagged],
    [legacyFirst, sampleTagged, legacySecond, sampleTaggedLow], true, .Normal, .DefaultFormat, []⟩

/-- The text `writeMarshal` emits for the return values of `legacyOp`. -/
def legacyMarshalText : List Item :=
  [Item.writeBitSequence 2, Item.ifNotV1_1,
   Item.marshalCode legacyFirst 0, Item.marshalCode legacySecond 1,
   Item.elseBlock,
   Item.marshalCode legacySecond 0, Item.marshalCode legacyFirst 1,
   Item.endBlock]

/-- The text `writeUnmarshal` emits for the return values of `legacyOp`. -/
def legacyUnmarshalText : List Item :=
  [Item.readBitSequence 2, Item.ifNotV1_1,
   Item.paramTypeStr legacyFirst, Item.unmarshalCode legacyFirst 0,
   Item.paramTypeStr legacySecond, Item.unmarshalCode legacySecond 1,
   Item.returnTuple [legacyFirst, legacySecond],
   Item.elseBlock,
   Item.paramTypeStr legacySecond, Item.unmarshalCode legacySecond 0,
   Item.paramTypeStr legacyFirst, Item.unmarshalCode legacyFirst 1,
   Item.returnTuple [legacyFirst, legacySecond],
   Item.endBlock]

/-- The text `writeMarshal` emits for the return values of `sampleOp`. -/
def sampleMarshalText : List Item :=
  [Item.writeBitSequence 2, Item.ifNotV1_1,
   Item.marshalCode legacyFirst 0, Item.marshalCode legacySecond 1,
   Item.taggedMarshalCode sampleTaggedLow 1, Item.taggedMarshalCode sampleTagged 2,
   Item.elseBlock,
   Item.marshalCode legacySecond 0, Item.marshalCode legacyFirst 1,
   Item.taggedMarshalCode sampleTaggedLow 1, Item.taggedMarshalCode sampleTagged 2,
   Item.endBlock]

/-- The text `writeUnmarshal` emits for the return values of `sampleOp`. -/
def sampleUnmarshalText : List Item :=
  [Item.readBitSequence 2, Item.ifNotV1_1,
   Item.paramTypeStr legacyFirst, Item.unmarshalCode legacyFirst 0,
   Item.paramTypeStr legacySecond, Item.unmarshalCode legacySecond 1,
   Item.paramTypeStr sampleTaggedLow, Item.taggedUnmarshalCode sampleTaggedLow 1,
   Item.paramTypeStr sampleTagged, Item.taggedUnmarshalCode sampleTagged 2,
   Item.returnTuple [legacyFirst, sampleTagged, legacySecond, sampleTaggedLow],
   Item.elseBlock,
   Item.paramTypeStr legacySecond, Item.unmarshalCode legacySecond 0,
   Item.paramTypeStr legacyFirst, Item.unmarshalCode legacyFirst 1,
   Item.paramTypeStr sampleTaggedLow, Item.taggedUnmarshalCode sampleTaggedLow 1,
   Item.paramTypeStr sampleTagged, Item.taggedUnmarshalCode sampleTagged 2,
   Item.returnTuple [legacyFirst, sampleTagged, legacySecond, sampleTaggedLow],
   Item.endBlock]

/-! ## Proxy and dispatch emission: `ProxyVisitor`, `DispatcherVisitor` -/

/-- Modelled from the spec: `Contained::hasMetaData(meta)`: metadata are free-form strings
(section 6) and the call holds when `meta` is one of them. -/
def hasMetaData (metaData : List String) (meta : String) : Bool :=
  metaData.contains meta

/-- The test `StructPtr::dynamicCast(type)`. -/
def SliceType.isStruct : SliceType → Bool
  | .struct _ => true
  | _ => false

/-- Modelled from the spec: what `ProxyVisitor` and `DispatcherVisitor` read of an operation
besides the `Operation` of section 3: the C# name `operationName(operation)`, the source
location `file()` and `line()`, `hasMarshaledResult()` (section 4.5), the compression hints
`opCompressParams` and `opCompressReturn`, the metadata of the interface that holds the
operation, and the files for which `operation->unit()` has a definition context. -/
structure OperationDecl where
  operation : Operation
  opName : String
  file : String
  line : Nat
  hasMarshaledResult : Bool
  compressParams : Bool
  compressReturn : Bool
  interfaceMetaData : List String
  unitFiles : List String
deriving DecidableEq

/-- The function `isIdempotent(operation)` of `Gen.cpp`. -/
def isIdempotent (operation : Operation) : Bool :=
  operation.mode != Mode.Normal

/-- The function `opFormatTypeToString(op)` of `Gen.cpp`. -/
def opFormatTypeToString (op : Operation) : String :=
  match op.format with
  | .DefaultFormat => "default"
  | .CompactFormat => "default"
  | .SlicedFormat => "ZeroC.Ice.FormatType.Sliced"

/-- The function `getEscapedParamName(p, name)` of `Gen.cpp`, for an operation. -/
def getEscapedParamName (p : Operation) (name : String) : String :=
  if p.parameters.any (fun param => param.name == name) then name ++ "_" else name

/-- The class named by `requestType(params, returnValues)`; `hasReturn` says whether the
tuple type of the return values is among its type arguments. -/
inductive RequestType where
  | withEmptyParamList (hasReturn : Bool)
  | withParam (hasReturn : Bool)
  | withStructParam (hasReturn : Bool)
deriving DecidableEq

/-- The function `requestType(params, returnValues)` of `Gen.cpp`. -/
def requestType (params returnValues : List Member) : RequestType :=
  match params with
  | [] => .withEmptyParamList (decide (returnValues.length > 0))
  | [front] =>
    if !front.type.isStruct || front.tagged then
      .withParam (decide (returnValues.length > 0))
    else
      .withStructParam (decide (returnValues.length > 0))
  | _ :: _ :: _ => .withStructParam (decide (returnValues.length > 0))

/-- An error reported against a source location. -/
structure Diagnostic where
  file : String
  line : Nat
  message : String
deriving DecidableEq

/-- How a visit of one operation ends. -/
inductive Ending where
  /-- The visit ran to its last statement -/
  | completed
  /-- The visit stopped in `dc->error(...)` -/
  | error (d : Diagnostic)
  /-- The check `assert(dc)` failed -/
  | assertDefinitionContext
  /-- An emitter called by the visit failed -/
  | generator (e : GenError)
deriving DecidableEq

/-- Modelled from the spec: `DefinitionContext::error(file, line, message)` (section 7:
generation-time errors are fatal, reported against the source model location, and
generation aborts for that unit): the visit ends here with the diagnostic. -/
def DefinitionContext.error (file : String) (line : Nat) (message : String) : Ending :=
  Ending.error ⟨file, line, message⟩

/-- The condition `defaultWriter` of `ProxyVisitor::writeOutgoingRequestWriter`:
`params.size() == 1 && operation->paramsBitSequenceSize() == 0 && !params.front()->tagged()`. -/
def ProxyVisitor.defaultWriter (operation : Operation) : Bool :=
  decide (operation.parameters.length = 1) && decide (operation.paramsBitSequenceSize = 0) &&
    (match operation.parameters with
     | front :: _ => !front.tagged
     | [] => false)

/-- The condition `defaultReader` of `ProxyVisitor::writeOutgoingRequestReader`:
`returnValues.size() == 1 && operation->returnBitSequenceSize() == 0 &&
!returnValues.front()->tagged()`. -/
def ProxyVisitor.defaultReader (operation : Operation) : Bool :=
  decide (operation.returnValues.length = 1) && decide (operation.returnBitSequenceSize = 0) &&
    (match operation.returnValues with
     | front :: _ => !front.tagged
     | [] => false)

/-- The condition `defaultWriter` of `DispatcherVisitor::visitOperation`:
`returnValues.size() == 1 && operation->returnBitSequenceSize() == 0 &&
!returnValues.front()->tagged()`. -/
def DispatcherVisitor.defaultWriter (operation : Operation) : Bool :=
  decide (operation.returnValues.length = 1) && decide (operation.returnBitSequenceSize = 0) &&
    (match operation.returnValues with
     | front :: _ => !front.tagged
     | [] => false)

/-- The condition `defaultReader` of `DispatcherVisitor::visitOperation`:
`params.size() == 1 && operation->paramsBitSequenceSize() == 0 && !params.front()->tagged()`. -/
def DispatcherVisitor.defaultReader (operation : Operation) : Bool :=
  decide (operation.parameters.length = 1) && decide (operation.paramsBitSequenceSize = 0) &&
    (match operation.parameters with
     | front :: _ => !front.tagged
     | [] => false)

/-- The text `writeOutgoingRequestWriter` emits after `writer: `. -/
inductive RequestWriter where
  /-- The direct writer `outputStreamWriter(params.front()->type(), ns, false)` -/
  | direct (type : SliceType)
  /-- The lambda `(ZeroC.Ice.OutputStream ostr, in <tuple> value) => { ... }` around the
  text of `writeMarshal(operation, false)` -/
  | tupleLambda (body : List Item)
  /-- The lambda `(ZeroC.Ice.OutputStream ostr, <type> value) => { ... }` around the text
  of `writeMarshal(operation, false)` -/
  | singleLambda (param : Member) (body : List Item)
deriving DecidableEq

/-- The function `ProxyVisitor::writeOutgoingRequestWriter(operation)`. -/
def ProxyVisitor.writeOutgoingRequestWriter (operation : Operation) :
    Except GenError RequestWriter :=
  let params := operation.parameters
  if ProxyVisitor.defaultWriter operation then
    match params with
    | front :: _ => .ok (RequestWriter.direct front.type)
    | [] => .error .frontOfEmpty
  else if params.length > 1 then
    match writeMarshal operation false with
    | .error e => .error e
    | .ok body => .ok (RequestWriter.tupleLambda body)
  else
    match params with
    | [] => .error .frontOfEmpty
    | p :: _ =>
      match writeMarshal operation false with
      | .error e => .error e
      | .ok body => .ok (RequestWriter.singleLambda p body)

/-- The text `writeOutgoingRequestReader` emits after `reader: `. -/
inductive RequestReader where
  /-- The direct reader `inputStreamReader(returnValues.front()->type(), ns)` -/
  | direct (type : SliceType)
  /-- The lambda `istr => { ... }` around the text of `writeUnmarshal(operation, true)` -/
  | lambda (body : List Item)
deriving DecidableEq

/-- The function `ProxyVisitor::writeOutgoingRequestReader(operation)`; `none` when it emits
nothing. -/
def ProxyVisitor.writeOutgoingRequestReader (operation : Operation) :
    Except GenError (Option RequestReader) :=
  let returnValues := operation.returnValues
  if ProxyVisitor.defaultReader operation then
    match returnValues with
    | front :: _ => .ok (some (RequestReader.direct front.type))
    | [] => .error .frontOfEmpty
  else if returnValues.length > 0 then
    match writeUnmarshal operation true with
    | .error e => .error e
    | .ok body => .ok (some (RequestReader.lambda body))
  else
    .ok none

/-- One fragment of the text of `ProxyVisitor::visitOperation`. -/
inductive ProxyItem where
  /-- The synchronous method: `<requestProperty>.Invoke(this, [<params>, ]<context>,
  <cancel>);` -/
  | syncMethod (requestProperty : String) (passesParams : Bool) (context cancel : String)
  /-- The asynchronous method: `<requestProperty>.InvokeAsync(this, [<params>, ]<context>,
  <progress>, <cancel>);` -/
  | asyncMethod (requestProperty : String) (passesParams : Bool)
      (context progress cancel : String)
  /-- The field `private static <requestT>? <requestObject>;` -/
  | requestField (requestT : RequestType) (requestObject : String)
  /-- The opening of the property: `private static <requestT> <requestProperty> =>
  <requestObject> ??= new <requestT>(operationName: "<name>", idempotent: <b>` -/
  | requestPropertyOpen (requestT : RequestType) (requestProperty requestObject : String)
      (operationName : String) (idempotent : Bool)
  /-- The argument `oneway: <b>` -/
  | onewayArg (oneway : Bool)
  /-- The arguments `compress: <b>, format: <f>,` and the label `writer: ` -/
  | compressFormatArgs (compress : Bool) (format : String)
  /-- The text of `writeOutgoingRequestWriter(operation)` -/
  | writerArg (writer : RequestWriter)
  /-- The label `reader: ` and the text of `writeOutgoingRequestReader(operation)` -/
  | readerArg (reader : Option RequestReader)
  /-- The closing `);` of the property -/
  | requestPropertyClose
deriving DecidableEq

/-- Whether an item belongs to the request descriptor: the static field `_iceI_<op>Request`
or the property `IceI_<op>Request`. -/
def ProxyItem.isDescriptor : ProxyItem → Bool
  | .syncMethod _ _ _ _ => false
  | .asyncMethod _ _ _ _ _ => false
  | _ => true

/-- The function `ProxyVisitor::visitOperation(operation)`: the emitted text and how the
visit ends. -/
def ProxyVisitor.visitOperation (od : OperationDecl) : List ProxyItem × Ending :=
  let operation := od.operation
  let returnValues := operation.returnValues
  let params := operation.parameters
  let opName := od.opName
  let oneway := hasMetaData operation.metaData "oneway"
  let context := getEscapedParamName operation "context"
  let cancel := getEscapedParamName operation "cancel"
  let progress := getEscapedParamName operation "progress"
  let requestProperty := "IceI_" ++ opName ++ "Request"
  let requestObject := "_iceI_" ++ opName ++ "Request"
  let methods :=
    [ProxyItem.syncMethod requestProperty (decide (params.length > 0)) context cancel,
     ProxyItem.asyncMethod requestProperty (decide (params.length > 0)) context progress cancel]
  let requestT := requestType params returnValues
  if oneway && decide (returnValues.length > 0) then
    if od.unitFiles.contains od.file then
      (methods, DefinitionContext.error od.file od.line "only void operations can be marked oneway")
    else
      (methods, Ending.assertDefinitionContext)
  else
    let opened := methods ++
      [ProxyItem.requestField requestT requestObject,
       ProxyItem.requestPropertyOpen requestT requestProperty requestObject operation.name
         (isIdempotent operation)] ++
      (if returnValues.length = 0 then [ProxyItem.onewayArg oneway] else [])
    let withWriter : List ProxyItem × Option GenError :=
      if params.length > 0 then
        match ProxyVisitor.writeOutgoingRequestWriter operation with
        | .error e =>
          (opened ++ [ProxyItem.compressFormatArgs od.compressParams
            (opFormatTypeToString operation)], some e)
        | .ok w =>
          (opened ++ [ProxyItem.compressFormatArgs od.compressParams
            (opFormatTypeToString operation), ProxyItem.writerArg w], none)
      else (opened, none)
    match withWriter with
    | (out, some e) => (out, Ending.generator e)
    | (out, none) =>
      if returnValues.length > 0 then
        match ProxyVisitor.writeOutgoingRequestReader operation with
        | .error e => (out, Ending.generator e)
        | .ok r => (out ++ [ProxyItem.readerArg r, ProxyItem.requestPropertyClose], Ending.completed)
      else (out ++ [ProxyItem.requestPropertyClose], Ending.completed)

/-- An argument of the servant call emitted by `DispatcherVisitor::visitOperation`. -/
inductive Arg where
  /-- The field `paramList.<fieldName(param)>` -/
  | paramListField (param : Member)
  /-- The variable `paramName(param, "iceP_")` -/
  | paramVariable (param : Member)
  /-- The argument `current` -/
  | current
deriving DecidableEq

/-- The reader handed to `request.ReadParamList`. -/
inductive ReaderRef where
  /-- The direct reader `inputStreamReader(params.front()->type(), ns)` -/
  | direct (type : SliceType)
  /-- The generated reader `_iceD_<opName>Reader` -/
  | named (name : String)
deriving DecidableEq

/-- The writer handed to `OutgoingResponseFrame.WithReturnValue`. -/
inductive WriterRef where
  /-- The direct writer `outputStreamWriter(returnValues.front()->type(), ns, false)` -/
  | direct (type : SliceType)
  /-- The generated writer `_iceD_<opName>Writer` -/
  | named (name : String)
deriving DecidableEq

/-- The declared type of a generated writer. -/
inductive WriterShape where
  /-- The type `OutputStreamValueWriter<tuple>` with `(OutputStream ostr, in <tuple> value)` -/
  | tupleValueWriter
  /-- The type `OutputStreamWriter<T>` with `(ostr, value) => { ... }` -/
  | blockWriter
  /-- The type `OutputStreamValueWriter<T>` with `(OutputStream ostr, in T value) =>` -/
  | structValueWriter
  /-- The type `OutputStreamWriter<T>` with `(ostr, value) =>` -/
  | plainWriter
deriving DecidableEq

/-- One fragment of the text of `DispatcherVisitor::visitOperation`. -/
inductive DispatchItem where
  /-- The header `protected [async ]ValueTask<OutgoingResponseFrame> <internalName>(
  IncomingRequestFrame request, Current current)` and the opening brace -/
  | handlerOpen (async : Bool) (internalName : String)
  /-- The statement `IceCheckNonIdempotent(current);` -/
  | checkNonIdempotent
  /-- The statement `request.ReadEmptyParamList();` -/
  | readEmptyParamList
  /-- The statement `var <iceP_param> = request.ReadParamList(current.Communicator, <reader>);` -/
  | readParam (param : Member) (reader : ReaderRef)
  /-- The statement `var paramList = request.ReadParamList(current.Communicator, <reader>);` -/
  | readParamList (reader : ReaderRef)
  /-- The call of the servant method for an operation with a marshaled result, returning
  `result.Response`; `method` is the argument of `fixId` -/
  | callMarshaled (awaited : Bool) (method : String) (args : List Arg)
  /-- The call `[var result = ][await ]this.<method>(<args>)[.ConfigureAwait(false)];`;
  `method` is the argument of `fixId` -/
  | callServant (bindsResult : Bool) (awaited : Bool) (method : String) (args : List Arg)
  /-- The statement `return OutgoingResponseFrame.WithVoidReturnValue(current);`, wrapped in
  a `ValueTask` when the handler is not `async` -/
  | returnVoid (wrapped : Bool)
  /-- The statements `var response = OutgoingResponseFrame.WithReturnValue(current,
  compress: <b>, format: <f>, result, <writer>);` and `return response;`, wrapped in a
  `ValueTask` when the handler is not `async` -/
  | returnValue (compress : Bool) (format : String) (writer : WriterRef) (wrapped : Bool)
  /-- The closing brace of the handler -/
  | handlerClose
  /-- The definition `private static readonly ... <writer> = ...` around the text of
  `writeMarshal(operation, true)` -/
  | writerDef (writer : WriterRef) (shape : WriterShape) (body : List Item)
  /-- The definition `private static readonly InputStreamReader<...> <reader> = istr => { ... }`
  around the text of `writeUnmarshal(operation, false)` -/
  | readerDef (reader : ReaderRef) (body : List Item)
deriving DecidableEq

/-- The flag `amd` of `DispatcherVisitor`:
`_generateAllAsync || interface->hasMetaData("amd") || operation->hasMetaData("amd")`. -/
def DispatcherVisitor.amd (generateAllAsync : Bool) (od : OperationDecl) : Bool :=
  generateAllAsync || hasMetaData od.interfaceMetaData "amd" ||
    hasMetaData od.operation.metaData "amd"

/-- The name `internalName` of `DispatcherVisitor::visitOperation`. -/
def DispatcherVisitor.internalName (operation : Operation) : String :=
  "IceD_" ++ operation.name ++ "Async"

/-- The `writer` of `DispatcherVisitor::visitOperation`. -/
def DispatcherVisitor.writer (od : OperationDecl) : WriterRef :=
  if DispatcherVisitor.defaultWriter od.operation then
    match od.operation.returnValues with
    | front :: _ => WriterRef.direct front.type
    | [] => WriterRef.named ("_iceD_" ++ od.opName ++ "Writer")
  else WriterRef.named ("_iceD_" ++ od.opName ++ "Writer")

/-- The `reader` of `DispatcherVisitor::visitOperation`. -/
def DispatcherVisitor.reader (od : OperationDecl) : ReaderRef :=
  if DispatcherVisitor.defaultReader od.operation then
    match od.operation.parameters with
    | front :: _ => ReaderRef.direct front.type
    | [] => ReaderRef.named ("_iceD_" ++ od.opName ++ "Reader")
  else ReaderRef.named ("_iceD_" ++ od.opName ++ "Reader")

/-- The arguments between `spar` and `epar` of the servant call: the decoded parameters, then
`current`. -/
def DispatcherVisitor.callArgs (params : List Member) : List Arg :=
  (match params with
   | [] => []
   | [front] => [Arg.paramVariable front]
   | _ :: _ :: _ => params.map Arg.paramListField) ++ [Arg.current]

/-- The handler method emitted by `DispatcherVisitor::visitOperation`, from its header to its
closing brace. -/
def DispatcherVisitor.handler (generateAllAsync : Bool) (od : OperationDecl) : List DispatchItem :=
  let operation := od.operation
  let amd := DispatcherVisitor.amd generateAllAsync od
  let name := od.opName ++ (if amd then "Async" else "")
  let params := operation.parameters
  let returnValues := operation.returnValues
  let writer := DispatcherVisitor.writer od
  let reader := DispatcherVisitor.reader od
  [DispatchItem.handlerOpen amd (DispatcherVisitor.internalName operation)] ++
  (if !isIdempotent operation then [DispatchItem.checkNonIdempotent] else []) ++
  (match params with
   | [] => [DispatchItem.readEmptyParamList]
   | [front] => [DispatchItem.readParam front reader]
   | _ :: _ :: _ => [DispatchItem.readParamList reader]) ++
  (if od.hasMarshaledResult then
    [DispatchItem.callMarshaled amd name (DispatcherVisitor.callArgs params),
     DispatchItem.handlerClose]
   else
    [DispatchItem.callServant (decide (returnValues.length ≥ 1)) amd name
      (DispatcherVisitor.callArgs params)] ++
    (if returnValues.length = 0 then [DispatchItem.returnVoid (!amd)]
     else [DispatchItem.returnValue od.compressReturn (opFormatTypeToString operation) writer
            (!amd)]) ++
    [DispatchItem.handlerClose])

/-- The writer definition emitted after the handler by `DispatcherVisitor::visitOperation`. -/
def DispatcherVisitor.writerDefs (od : OperationDecl) : Except GenError (List DispatchItem) :=
  let operation := od.operation
  let returnValues := operation.returnValues
  let writer := DispatcherVisitor.writer od
  if !od.hasMarshaledResult then
    if returnValues.length > 1 then
      match writeMarshal operation true with
      | .error e => .error e
      | .ok body => .ok [DispatchItem.writerDef writer WriterShape.tupleValueWriter body]
    else if returnValues.length = 1 ∧ DispatcherVisitor.defaultWriter operation = false then
      match returnValues with
      | [] => .error .frontOfEmpty
      | param :: _ =>
        let shape :=
          if operation.returnBitSequenceSize > 0 then WriterShape.blockWriter
          else if !param.tagged && param.type.isStruct then WriterShape.structValueWriter
          else WriterShape.plainWriter
        match writeMarshal operation true with
        | .error e => .error e
        | .ok body => .ok [DispatchItem.writerDef writer shape body]
    else .ok []
  else .ok []

/-- The reader definition emitted last by `DispatcherVisitor::visitOperation`. -/
def DispatcherVisitor.readerDefs (od : OperationDecl) : Except GenError (List DispatchItem) :=
  let operation := od.operation
  let params := operation.parameters
  let reader := DispatcherVisitor.reader od
  if params.length > 1 ∨ (params.length = 1 ∧ DispatcherVisitor.defaultReader operation = false) then
    match writeUnmarshal operation false with
    | .error e => .error e
    | .ok body => .ok [DispatchItem.readerDef reader body]
  else .ok []

/-- The function `DispatcherVisitor::visitOperation(operation)`: the emitted text and how the
visit ends. -/
def DispatcherVisitor.visitOperation (generateAllAsync : Bool) (od : OperationDecl) :
    List DispatchItem × Ending :=
  let handler := DispatcherVisitor.handler generateAllAsync od
  match DispatcherVisitor.writerDefs od with
  | .error e => (handler, Ending.generator e)
  | .ok w =>
    match DispatcherVisitor.readerDefs od with
    | .error e => (handler ++ w, Ending.generator e)
    | .ok r => (handler ++ w ++ r, Ending.completed)

/-- The struct `<OpName>MarshaledReturnValue` emitted by
`DispatcherVisitor::writeReturnValueStruct`: its constructor builds the response with
`OutgoingResponseFrame.WithReturnValue(current, compress: <b>, format: <f>, <tuple>,
<lambda>)`, where the lambda takes `in <tuple> value` when `tupleLambda` holds and
`(ostr, value)` otherwise, around the text of `writeMarshal(operation, true)`. -/
structure MarshaledReturnValue where
  compress : Bool
  format : String
  tupleLambda : Bool
  body : List Item
deriving DecidableEq

/-- The function `DispatcherVisitor::writeReturnValueStruct(operation)`; `none` when it emits
nothing. -/
def DispatcherVisitor.writeReturnValueStruct (od : OperationDecl) :
    Except GenError (Option MarshaledReturnValue) :=
  if od.hasMarshaledResult then
    match writeMarshal od.operation true with
    | .error e => .error e
    | .ok body =>
      .ok (some ⟨od.compressReturn, opFormatTypeToString od.operation,
        decide (od.operation.returnValues.length > 1), body⟩)
  else .ok none

/-- Modelled from the spec: what `DispatcherVisitor::visitInterfaceDefStart` reads of an
interface for its dispatch table: `allOperations()`, the operations of the interface and of
its bases, in the order the parser lists them. -/
structure InterfaceDef where
  name : String
  metaData : List String
  allOperations : List Operation
deriving DecidableEq

/-- An arm of the `current.Operation switch` expression. -/
inductive SwitchArm where
  /-- The arm `"<opName>" => servant.<handler>(request, current),` -/
  | named (opName : String) (handler : String)
  /-- The arm `_ => throw new ZeroC.Ice.OperationNotExistException(<args>)` -/
  | operationNotExist (args : List String)
deriving DecidableEq

/-- The list `allOpNames` of `DispatcherVisitor::visitInterfaceDefStart`. -/
def DispatcherVisitor.allOpNames (p : InterfaceDef) : List String :=
  p.allOperations.map (fun op => op.name) ++ ["ice_id", "ice_ids", "ice_isA", "ice_ping"]

/-- The arms of the switch expression emitted by `DispatcherVisitor::visitInterfaceDefStart`. -/
def DispatcherVisitor.dispatchSwitch (p : InterfaceDef) : List SwitchArm :=
  (DispatcherVisitor.allOpNames p).map
      (fun opName => SwitchArm.named opName ("IceD_" ++ opName ++ "Async")) ++
    [SwitchArm.operationNotExist ["current.Identity", "current.Facet", "current.Operation"]]

/-- What evaluating the switch expression on an operation name does: the handler it calls,
or `none` when it throws `OperationNotExistException`. -/
def SwitchArm.select : List SwitchArm → String → Option String
  | [], _ => none
  | SwitchArm.named opName handler :: rest, operation =>
    if opName = operation then some handler else SwitchArm.select rest operation
  | SwitchArm.operationNotExist _ :: _, _ => none

/-- The operation `["oneway"] int ping()` declared at `Test.ice:12`. -/
def onewayDecl : OperationDecl :=
  ⟨⟨"ping", [], [⟨"ReturnValue", .builtin 4, none⟩], false, .Normal, .DefaultFormat, ["oneway"]⟩,
    "Ping", "Test.ice", 12, false, false, false, [], ["Test.ice"]⟩

/-- The operation `void opStruct(Structure p1)`. -/
def structOp : Operation :=
  ⟨"opStruct", [⟨"p1", .struct "Structure", none⟩], [], false, .Normal, .DefaultFormat, []⟩

/-- The operation `["marshaled-result"] IntS opIntS()`, whose return value is a sequence. -/
def marshaledDecl : OperationDecl :=
  ⟨⟨"opIntS", [], [⟨"ReturnValue", .sequence (.builtin 4), none⟩], false, .Normal,
      .DefaultFormat, ["marshaled-result"]⟩,
    "OpIntS", "Test.ice", 30, true, false, false, [], ["Test.ice"]⟩

/-- The operation `void shutdown()`. -/
def shutdownDecl : OperationDecl :=
  ⟨⟨"shutdown", [], [], false, .Normal, .DefaultFormat, []⟩,
    "Shutdown", "Test.ice", 20, false, false, false, [], ["Test.ice"]⟩

/-- The text emitted before the `oneway` check of `ProxyVisitor::visitOperation`. -/
def ProxyVisitor.methods (od : OperationDecl) : List ProxyItem :=
  [ProxyItem.syncMethod ("IceI_" ++ od.opName ++ "Request")
      (decide (od.operation.parameters.length > 0))
      (getEscapedParamName od.operation "context") (getEscapedParamName od.operation "cancel"),
   ProxyItem.asyncMethod ("IceI_" ++ od.opName ++ "Request")
      (decide (od.operation.parameters.length > 0))
      (getEscapedParamName od.operation "context") (getEscapedParamName od.operation "progress")
      (getEscapedParamName od.operation "cancel")]

/-! ## Projections and samples for the idempotence flag and the escaped names -/

/-- The value after `idempotent: ` in the opening of a request property; `none` for every
other fragment. -/
def ProxyItem.idempotentArg : ProxyItem → Option Bool
  | .requestPropertyOpen _ _ _ _ idempotent => some idempotent
  | _ => none

/-- Whether a name ends in an underscore.  Slice identifiers never do: the parser rejects a
trailing underscore before the generator runs. -/
def endsInUnderscore (name : String) : Bool :=
  name.data.getLast? == some '_'

/-- An operation `void send(string context, string cancel)`. -/
def contextOp : Operation :=
  { name := "send",
    parameters := [⟨"context", SliceType.builtin 14, none⟩, ⟨"cancel", SliceType.builtin 14, none⟩],
    returnValues := [], hasReturnAndOut := false, mode := Mode.Normal,
    format := FormatType.DefaultFormat, metaData := [] }

/-- The operation `sampleOp`, declared at line 40 of `Test.ice`. -/
def sampleDecl : OperationDecl :=
  ⟨sampleOp, "OpSample", "Test.ice", 40, false, false, false, [], ["Test.ice"]⟩

/-! ## Deprecation reasons: `getDeprecateReason` -/

/-- The test `s.find(pre) == 0` on `std::string`: `s` starts with `pre`. -/
def startsWith (s pre : String) : Bool :=
  pre.data.isPrefixOf s.data

/-- The call `s.substr(pos)`: the characters of `s` from index `pos` on. -/
def substrFrom (s : String) (pos : Nat) : String :=
  ⟨s.data.drop pos⟩

/-- Modelled from the spec: `Contained::findMetaData(prefix, meta)`.  The deprecation reason is
one of the free-form metadata strings of a definition (consumed model contract, section 6); the
call yields the first of them that starts with `prefix`, and `none` when it returns `false`
and leaves `meta` untouched. -/
def findMetaData (metaData : List String) (pre : String) : Option String :=
  metaData.find? (fun m => startsWith m pre)

/-- The variable `deprecateMetadata` of `getDeprecateReason` after the condition
`p1->findMetaData("deprecate", deprecateMetadata) || (p2 != 0 &&
p2->findMetaData("deprecate", deprecateMetadata))`; `none` when the condition is false.  The
arguments are the metadata of `p1` and, when `p2` is not null, of `p2`. -/
def deprecateMetadata (p1 : List String) (p2 : Option (List String)) : Option String :=
  match findMetaData p1 "deprecate" with
  | some m => some m
  | none =>
    match p2 with
    | none => none
    | some c => findMetaData c "deprecate"

/-- The function `getDeprecateReason(p1, p2, type)` of `Gen.cpp`. -/
def getDeprecateReason (p1 : List String) (p2 : Option (List String)) (type : String) : String :=
  match deprecateMetadata p1 p2 with
  | none => ""
  | some deprecateMetadata =>
    let deprecateReason := "This " ++ type ++ " has been deprecated."
    let pre := "deprecate:"
    if startsWith deprecateMetadata pre && decide (deprecateMetadata.length > pre.length) then
      substrFrom deprecateMetadata pre.length
    else
      deprecateReason

/-- The reason the specification gives for the metadata `m`: the text after `deprecate:` when
`m` starts with `deprecate:` and is longer than it, the generic sentence otherwise. -/
def specDeprecateReason (m type : String) : String :=
  if startsWith m "deprecate:" ∧ "deprecate:".length < m.length then substrFrom m 10
  else "This " ++ type ++ " has been deprecated."

/-! ## Dictionaries: `TypesVisitor::visitDictionary` -/

/-- One argument of the calls `ostr.WriteDictionary(...)` and `istr.Read[Sorted]Dictionary(...)`
emitted by `visitDictionary`. -/
inductive DictArg where
  /-- The argument `dictionary` -/
  | dictionary
  /-- The argument `withBitSequence: true` -/
  | withBitSequence
  /-- The argument `outputStreamWriter(type, ns, true)` -/
  | writer (type : SliceType)
  /-- The argument `minKeySize: <key->minWireSize()>` -/
  | minKeySize (key : SliceType)
  /-- The argument `minValueSize: <value->minWireSize()>` -/
  | minValueSize (value : SliceType)
  /-- The argument `inputStreamReader(type, ns)` -/
  | reader (type : SliceType)
deriving DecidableEq

/-- The helper class emitted by `visitDictionary`: the arguments of the call in `Write`, the
method called in `Read` and its arguments. -/
structure DictionaryHelper where
  writeArgs : List DictArg
  readSorted : Bool
  readArgs : List DictArg
deriving DecidableEq

/-- The function `TypesVisitor::visitDictionary(p)`, for a dictionary with the given key type,
value type and `cs:generic:` metadata.  The helper `isReferenceType` of `CsUtil` is an
argument. -/
def visitDictionary (isReferenceType : SliceType → Bool) (keyType valueType : SliceType)
    (generic : String) : DictionaryHelper :=
  let key := keyType
  let unwrapped : Bool × SliceType :=
    match valueType with
    | .optional underlying true => (true, underlying)
    | _ => (false, valueType)
  let withBitSequence := unwrapped.1
  let value := unwrapped.2
  { writeArgs :=
      [DictArg.dictionary] ++
      (if withBitSequence && isReferenceType value then [DictArg.withBitSequence] else []) ++
      (if !key.isStruct then [DictArg.writer key] else []) ++
      (if !value.isStruct then [DictArg.writer value] else []),
    readSorted := decide (generic = "SortedDictionary"),
    readArgs :=
      [DictArg.minKeySize key] ++
      (if !withBitSequence then [DictArg.minValueSize value] else []) ++
      (if withBitSequence && isReferenceType value then [DictArg.withBitSequence] else []) ++
      [DictArg.reader key, DictArg.reader value] }

/-- Whether a `Read` argument is `minValueSize: ...`. -/
def DictArg.isMinValueSize : DictArg → Bool
  | .minValueSize _ => true
  | _ => false

/-! ## Enumerations: `TypesVisitor::visitEnum` -/

/-- An enumerator: `name()` and `value()`. -/
structure Enumerator where
  name : String
  value : Int
deriving DecidableEq

/-- What `visitEnum` reads of an enumeration: `fixId(scoped())`, `enumerators()`,
`isUnchecked()`, `minValue()` and `maxValue()`. -/
structure Enum where
  scopedName : String
  enumerators : List Enumerator
  isUnchecked : Bool
  minValue : Int
  maxValue : Int
deriving DecidableEq

/-- The values `en->value()` of the enumerators, in declaration order. -/
def Enum.values (p : Enum) : List Int :=
  p.enumerators.map (fun en => en.value)

/-- The value of an `int64_t` expression whose exact result is `x`. -/
def wrapInt64 (x : Int) : Int :=
  (x + 2 ^ 63) % 2 ^ 64 - 2 ^ 63

/-- The flag `useSet` of `visitEnum`: `!p->isUnchecked() &&
static_cast<int64_t>(enumerators.size()) < p->maxValue() - p->minValue() + 1`. -/
def useSet (p : Enum) : Bool :=
  !p.isUnchecked &&
    decide ((p.enumerators.length : Int) < wrapInt64 (wrapInt64 (p.maxValue - p.minValue) + 1))

/-- The test emitted in `As<Enum>` for a checked enumeration. -/
inductive EnumTest where
  /-- The test `EnumeratorValues.Contains(value)` -/
  | contains
  /-- The test `<minValue> <= value && value <= <maxValue>` -/
  | range (minValue maxValue : Int)
deriving DecidableEq

/-- The body of the method `As<Enum>(this <underlying> value)`. -/
inductive AsBody where
  /-- The cast `(<name>)value;` -/
  | cast
  /-- The expression `<test> ? (<name>)value : throw new ZeroC.Ice.InvalidDataException(
  $"invalid enumerator value <value> for <scoped>");` -/
  | checked (test : EnumTest) (scopedName : String)
deriving DecidableEq

/-- The part of the helper class emitted by `visitEnum` that validates a value: the elements of
the hash set `EnumeratorValues` when it is emitted, and the body of `As<Enum>`. -/
structure EnumHelper where
  enumeratorValues : Option (List Int)
  asBody : AsBody
deriving DecidableEq

/-- The function `TypesVisitor::visitEnum(p)`, for the validation it emits. -/
def visitEnum (p : Enum) : EnumHelper :=
  { enumeratorValues := if useSet p then some (p.enumerators.map (fun en => en.value)) else none,
    asBody :=
      if p.isUnchecked then AsBody.cast
      else
        AsBody.checked (if useSet p then EnumTest.contains
          else EnumTest.range p.minValue p.maxValue) p.scopedName }

/-- The exception thrown by the emitted `As<Enum>`: its message names the value and the scoped
name of the enumeration. -/
structure InvalidDataException where
  value : Int
  scopedName : String
deriving DecidableEq

/-- The emitted method `As<Enum>` applied to `value`. -/
def EnumHelper.asValue (h : EnumHelper) (value : Int) : Except InvalidDataException Int :=
  match h.asBody with
  | .cast => .ok value
  | .checked test scopedName =>
    let accepted : Bool :=
      match test with
      | .contains => decide (value ∈ h.enumeratorValues.getD [])
      | .range minValue maxValue => decide (minValue ≤ value ∧ value ≤ maxValue)
    if accepted then .ok value else .error ⟨value, scopedName⟩

/-- The fields `minValue` and `maxValue` are the least and the greatest enumerator value. -/
def Enum.ExactBounds (p : Enum) : Prop :=
  p.minValue ∈ p.values ∧ p.maxValue ∈ p.values ∧
    ∀ v ∈ p.values, p.minValue ≤ v ∧ v ≤ p.maxValue

instance (p : Enum) : Decidable p.ExactBounds := by
  unfold Enum.ExactBounds
  exact inferInstance

/-- The values are those of a contiguous integer range. -/
def Contiguous (values : List Int) : Prop :=
  ∃ a b : Int, ∀ v, v ∈ values ↔ a ≤ v ∧ v ≤ b

/-- The enumeration `enum E { A = 3, B = 2, C = 1 }`. -/
def reversedEnum : Enum :=
  { scopedName := "E", enumerators := [⟨"A", 3⟩, ⟨"B", 2⟩, ⟨"C", 1⟩], isUnchecked := false,
    minValue := 1, maxValue := 3 }

/-- The enumeration `enum Sparse { Low = 1, High = 10 }`. -/
def sparseEnum : Enum :=
  { scopedName := "Sparse", enumerators := [⟨"Low", 1⟩, ⟨"High", 10⟩], isUnchecked := false,
    minValue := 1, maxValue := 10 }

/-! ## Doc comments: the markup loops of `processComment` -/

/-- The search of `std::string::find` in the characters that follow index `i - 1`: the first
index at which `pattern` starts, `none` for `npos`. -/
def findFrom (pattern : List Char) : List Char → Nat → Option Nat
  | [], i => if pattern.isPrefixOf [] then some i else none
  | c :: cs, i => if pattern.isPrefixOf (c :: cs) then some i else findFrom pattern cs (i + 1)

/-- The call `data.find(pattern, pos)`. -/
def stdFind (data pattern : List Char) (pos : Nat) : Option Nat :=
  if pos ≤ data.length then findFrom pattern (data.drop pos) pos else none

/-- The call `data.erase(pos, len)`. -/
def stdErase (data : List Char) (pos len : Nat) : List Char :=
  data.take pos ++ data.drop (pos + len)

/-- The call `data.insert(pos, text)`. -/
def stdInsert (data : List Char) (pos : Nat) (text : List Char) : List Char :=
  data.take pos ++ text ++ data.drop pos

/-- The call `data.substr(pos, len)`. -/
def stdSubstr (data : List Char) (pos len : Nat) : List Char :=
  (data.drop pos).take len

/-- The first loop of `processComment`, which erases the text from a `<` to the next `>`.
The state is `data` and `pos`; the result is `data` when the loop ends, `none` when it is
still running after `fuel` iterations. -/
def stripTags : Nat → List Char → Option Nat → Option (List Char)
  | _, data, none => some data
  | 0, _, some _ => none
  | fuel + 1, data, some pos =>
    match stdFind data ['>'] pos with
    | none => some data
    | some endpos =>
      let erased := stdErase data pos (endpos - pos + 1)
      stripTags fuel erased (stdFind erased ['<'] pos)

/-- The second loop of `processComment`, for the tag `{@link `; `csharpIdentifier` stands for
`csharpIdentifier(contained, ident)`. -/
def replaceLinks (csharpIdentifier : List Char → List Char) :
    Nat → List Char → Option Nat → Option (List Char)
  | _, data, none => some data
  | 0, _, some _ => none
  | fuel + 1, data, some pos =>
    let link := "\x7b@link ".data
    let erased := stdErase data pos link.length
    let next :=
      match stdFind erased ['\x7d'] pos with
      | some endpos =>
        let ident := stdSubstr erased pos (endpos - pos)
        stdInsert (stdErase erased pos (endpos - pos + 1)) pos (csharpIdentifier ident)
      | none => erased
    replaceLinks csharpIdentifier fuel next (stdFind next link pos)

/-- The third loop of `processComment`, for the tag `{@see `. -/
def replaceSees (csharpIdentifier : List Char → List Char) :
    Nat → List Char → Option Nat → Option (List Char)
  | _, data, none => some data
  | 0, _, some _ => none
  | fuel + 1, data, some pos =>
    let see := "\x7b@see ".data
    let next :=
      match stdFind data ['\x7d'] pos with
      | some endpos =>
        let ident := stdSubstr data (pos + see.length) (endpos - pos - see.length)
        stdInsert (stdErase data pos (endpos - pos + 1)) pos
          ("<see cref=\"".data ++ csharpIdentifier ident ++ "\"/>".data)
      | none => data
    replaceSees csharpIdentifier fuel next (stdFind next see pos)

/-- The function `processComment(contained, deprecateReason)` up to the end of its three markup
loops: the string `data` after them, `none` when one of the loops is still running after
`fuel` iterations. -/
def processComment (csharpIdentifier : List Char → List Char) (fuel : Nat) (comment : String) :
    Option String :=
  match stripTags fuel comment.data (stdFind comment.data ['<'] 0) with
  | none => none
  | some stripped =>
    match replaceLinks csharpIdentifier fuel stripped (stdFind stripped "\x7b@link ".data 0) with
    | none => none
    | some linked =>
      match replaceSees csharpIdentifier fuel linked (stdFind linked "\x7b@see ".data 0) with
      | none => none
      | some data => some ⟨data⟩

/-! ## Namespaces: `CsVisitor::openNamespace` and `closeNamespace` -/

/-- What `openNamespace` reads of a module: `fixId(p->name())`, `p->hasOnlySubModules()` and
`getNamespacePrefix(p)`. -/
structure Module where
  name : String
  hasOnlySubModules : Bool
  namespacePrefix : String
deriving DecidableEq

/-- One fragment of the text of `openNamespace` and `closeNamespace`. -/
inductive NamespaceItem where
  /-- The line `namespace <name>` followed by `sb` -/
  | opening (name : String)
  /-- The closing `eb` -/
  | closing
deriving DecidableEq

/-- The state of a `CsVisitor` that the two functions touch: `_namespaceStack` (top first) and
the text appended to `_out`. -/
structure CsVisitor where
  namespaceStack : List String
  out : List NamespaceItem
deriving DecidableEq

/-- The local `prefix` of `openNamespace` before the test `p->hasOnlySubModules()`. -/
def CsVisitor.namespacePrefix (v : CsVisitor) (p : Module) (pre : String) : String :=
  let chosen :=
    if pre = "" then
      match v.namespaceStack with
      | [] => p.namespacePrefix
      | top :: _ => top
    else pre
  if chosen ≠ "" then chosen ++ "." else chosen

/-- The function `CsVisitor::openNamespace(p, prefix)`. -/
def CsVisitor.openNamespace (v : CsVisitor) (p : Module) (pre : String) : CsVisitor :=
  let full := v.namespacePrefix p pre
  if p.hasOnlySubModules then
    { v with namespaceStack := (full ++ p.name) :: v.namespaceStack }
  else
    { namespaceStack := "" :: v.namespaceStack,
      out := v.out ++ [NamespaceItem.opening (full ++ p.name)] }

/-- The function `CsVisitor::closeNamespace()`; `none` when `top()` is taken on an empty
stack. -/
def CsVisitor.closeNamespace (v : CsVisitor) : Option CsVisitor :=
  match v.namespaceStack with
  | [] => none
  | top :: rest =>
    some { namespaceStack := rest,
           out := if top = "" then v.out ++ [NamespaceItem.closing] else v.out }

/-- A call of one of the two functions. -/
inductive NamespaceCall where
  | openNamespace (p : Module) (pre : String)
  | closeNamespace
deriving DecidableEq

/-- A sequence of calls, run from the state `v`. -/
def CsVisitor.run : List NamespaceCall → CsVisitor → Option CsVisitor
  | [], v => some v
  | .openNamespace p pre :: calls, v => CsVisitor.run calls (v.openNamespace p pre)
  | .closeNamespace :: calls, v =>
    match v.closeNamespace with
    | none => none
    | some next => CsVisitor.run calls next

/-- Properly nested sequences of calls: every `closeNamespace` matches the `openNamespace`
that starts its block. -/
inductive ProperlyNested : List NamespaceCall → Prop where
  | nil : ProperlyNested []
  | block (p : Module) (pre : String) (inner rest : List NamespaceCall) :
      ProperlyNested inner → ProperlyNested rest →
      ProperlyNested (NamespaceCall.openNamespace p pre :: inner ++ NamespaceCall.closeNamespace :: rest)

/-- Whether the module of an `openNamespace` call has a name. -/
def NamespaceCall.named : NamespaceCall → Bool
  | .openNamespace p _ => decide (p.name ≠ "")
  | .closeNamespace => true

/-- The text of a properly nested sequence of calls in which each pair of matching calls
emits either nothing or an opening and its closing brace, according to
`hasOnlySubModules`. -/
inductive PairedText : List NamespaceCall → List NamespaceItem → Prop where
  | nil : PairedText [] []
  | silent (p : Module) (pre : String) (inner rest : List NamespaceCall)
      (innerText restText : List NamespaceItem) :
      p.hasOnlySubModules = true → PairedText inner innerText → PairedText rest restText →
      PairedText (NamespaceCall.openNamespace p pre :: inner ++ NamespaceCall.closeNamespace :: rest)
        (innerText ++ restText)
  | braces (p : Module) (pre name : String) (inner rest : List NamespaceCall)
      (innerText restText : List NamespaceItem) :
      p.hasOnlySubModules = false → PairedText inner innerText → PairedText rest restText →
      PairedText (NamespaceCall.openNamespace p pre :: inner ++ NamespaceCall.closeNamespace :: rest)
        (NamespaceItem.opening name :: innerText ++ NamespaceItem.closing :: restText)

/-- Text in which the openings and the closing braces are properly nested. -/
inductive Balanced : List NamespaceItem → Prop where
  | nil : Balanced []
  | block (name : String) (inner rest : List NamespaceItem) :
      Balanced inner → Balanced rest →
      Balanced (NamespaceItem.opening name :: inner ++ NamespaceItem.closing :: rest)

/-- Whether a fragment is a namespace opening. -/
def NamespaceItem.isOpening : NamespaceItem → Bool
  | .opening _ => true
  | .closing => false

/-- The modules `module Outer { module Inner { ... } }`, where `Outer` has only sub-modules. -/
def outerModule : Module := ⟨"Outer", true, ""⟩

/-- The module `Inner` of `outerModule`. -/
def innerModule : Module := ⟨"Inner", false, ""⟩

/-! ## Lemmas on the operation emitters -/

theorem requiredPairs_append (a b : List Item) :
    requiredPairs (a ++ b) = requiredPairs a ++ requiredPairs b := by
  induction a with
  | nil => rfl
  | cons x xs ih => cases x <;> simp [requiredPairs, ih]

theorem taggedPairs_append (a b : List Item) :
    taggedPairs (a ++ b) = taggedPairs a ++ taggedPairs b := by
  induction a with
  | nil => rfl
  | cons x xs ih => cases x <;> simp [taggedPairs, ih]

theorem declaredMembers_append (a b : List Item) :
    declaredMembers (a ++ b) = declaredMembers a ++ declaredMembers b := by
  induction a with
  | nil => rfl
  | cons x xs ih => cases x <;> simp [declaredMembers, ih]

theorem returnItems_append (a b : List Item) :
    returnItems (a ++ b) = returnItems a ++ returnItems b := by
  induction a with
  | nil => rfl
  | cons x xs ih => cases x <;> simp [returnItems, ih]

theorem marshalRequired_snd (ms : List Member) (i : Int) :
    (marshalRequired ms i).2 = i + (ms.countP (fun m => m.type.isBitSequenceOptional) : Nat) := by
  induction ms generalizing i with
  | nil => simp [marshalRequired]
  | cons m rest ih =>
    simp only [marshalRequired, ih, writeMarshalCode, List.countP_cons]
    by_cases h : m.type.isBitSequenceOptional = true <;> simp [h]
    omega

theorem unmarshalRequired_snd (ms : List Member) (i : Int) :
    (unmarshalRequired ms i).2 = i + (ms.countP (fun m => m.type.isBitSequenceOptional) : Nat) := by
  induction ms generalizing i with
  | nil => simp [unmarshalRequired]
  | cons m rest ih =>
    simp only [unmarshalRequired, ih, writeUnmarshalCode, List.countP_cons]
    by_cases h : m.type.isBitSequenceOptional = true <;> simp [h]
    omega

theorem unmarshalRequiredData_snd (ms : List Member) (i : Int) :
    (unmarshalRequiredData ms i).2 = i + (ms.countP (fun m => m.type.isBitSequenceOptional) : Nat) := by
  induction ms generalizing i with
  | nil => simp [unmarshalRequiredData]
  | cons m rest ih =>
    simp only [unmarshalRequiredData, ih, writeUnmarshalCode, List.countP_cons]
    by_cases h : m.type.isBitSequenceOptional = true <;> simp [h]
    omega

theorem requiredPairs_marshalRequired (ms : List Member) (i : Int) :
    requiredPairs (marshalRequired ms i).1 = withCursor ms i := by
  induction ms generalizing i with
  | nil => rfl
  | cons m rest ih => simp [marshalRequired, requiredPairs, withCursor, ih]

theorem requiredPairs_unmarshalRequired (ms : List Member) (i : Int) :
    requiredPairs (unmarshalRequired ms i).1 = withCursor ms i := by
  induction ms generalizing i with
  | nil => rfl
  | cons m rest ih =>
    simp [unmarshalRequired, requiredPairs, withCursor, ih, writeMarshalCode, writeUnmarshalCode]

theorem requiredPairs_unmarshalRequiredData (ms : List Member) (i : Int) :
    requiredPairs (unmarshalRequiredData ms i).1 = withCursor ms i := by
  induction ms generalizing i with
  | nil => rfl
  | cons m rest ih =>
    simp [unmarshalRequiredData, requiredPairs, withCursor, ih, writeMarshalCode, writeUnmarshalCode]

theorem withCursor_map_fst (ms : List Member) (i : Int) : (withCursor ms i).map Prod.fst = ms := by
  induction ms generalizing i with
  | nil => rfl
  | cons m rest ih => simp [withCursor, ih]

/-- The members of `getSortedMembers(members).first` are untagged. -/
theorem required_untagged (members : List Member) :
    ∀ m ∈ (getSortedMembers members).1, m.tagged = false := by
  intro m hm
  simp [getSortedMembers] at hm
  simpa using hm.2

theorem getBitSequenceSize_eq (members : List Member) :
    getBitSequenceSize members =
      (getSortedMembers members).1.countP (fun m => m.type.isBitSequenceOptional) := by
  simp only [getBitSequenceSize, getSortedMembers, List.countP_filter]
  congr 1
  funext m
  simp [Bool.and_comm]

theorem getBitSequenceSize_required (members : List Member) :
    getBitSequenceSize (getSortedMembers members).1 = getBitSequenceSize members := by
  rw [getBitSequenceSize_eq members]
  simp only [getBitSequenceSize]
  apply List.countP_congr
  intro m hm
  simp [required_untagged members m hm]

theorem sideBitSequenceSize_eq (op : Operation) (returnType : Bool) :
    sideBitSequenceSize op returnType =
      (getSortedMembers (sideMembers op returnType)).1.countP
        (fun m => m.type.isBitSequenceOptional) := by
  cases returnType <;>
    simp [sideBitSequenceSize, sideMembers, Operation.returnBitSequenceSize,
      Operation.paramsBitSequenceSize, getBitSequenceSize_eq]

theorem marshalPass_ok (size : Nat) (idx : Int) (req tagged : List Member)
    (hsize : size = req.countP (fun m => m.type.isBitSequenceOptional))
    (hidx : size = 0 → idx = -1) :
    marshalPass size idx req tagged =
      .ok ((marshalRequired req (startCursor size)).1 ++ marshalTagged tagged,
           startCursor size + size) := by
  unfold marshalPass startCursor
  by_cases h : size > 0
  · simp only [h, if_true, marshalRequired_snd, ← hsize]
    simp
  · have h0 : size = 0 := by omega
    simp only [h, if_false, hidx h0, marshalRequired_snd, ← hsize]
    simp

theorem unmarshalPass_ok (size : Nat) (idx : Int) (members req tagged : List Member)
    (hsize : size = req.countP (fun m => m.type.isBitSequenceOptional))
    (hidx : size = 0 → idx = -1) :
    unmarshalPass size idx members req tagged =
      .ok ((unmarshalRequired req (startCursor size)).1 ++ unmarshalTagged tagged ++
             [returnStatement members],
           startCursor size + size) := by
  unfold unmarshalPass startCursor
  by_cases h : size > 0
  · simp only [h, if_true, unmarshalRequired_snd, ← hsize]
    simp
  · have h0 : size = 0 := by omega
    simp only [h, if_false, hidx h0, unmarshalRequired_snd, ← hsize]
    simp

theorem startCursor_after (size : Nat) : size = 0 → startCursor size + (size : Int) = -1 := by
  intro h
  simp [h, startCursor]

theorem rotateFront_countP (q : Member → Bool) (first : Member) (rest : List Member) :
    (rest ++ [first]).countP q = (first :: rest).countP q := by
  simp [List.countP_append, List.countP_cons, Nat.add_comm]

/-- When the first member is untagged it is the first required member. -/
theorem required_of_front (front : Member) (ms : List Member) (h : front.tagged = false) :
    (getSortedMembers (front :: ms)).1 = front :: (getSortedMembers ms).1 := by
  simp [getSortedMembers, h]

theorem twoBranches_spec (op : Operation) (returnType : Bool) (h : twoBranches op returnType = true) :
    returnType = true ∧ op.hasReturnAndOut = true ∧
      ∃ r1 ms rest, op.returnValues = r1 :: ms ∧ r1.tagged = false ∧ rest ≠ [] ∧
        (getSortedMembers op.returnValues).1 = r1 :: rest := by
  unfold twoBranches at h
  simp only [Bool.and_eq_true, decide_eq_true_eq] at h
  obtain ⟨⟨⟨hrt, hro⟩, hfront⟩, hlen⟩ := h
  subst hrt
  refine ⟨rfl, hro, ?_⟩
  simp only [sideMembers, if_true] at hfront hlen
  cases hm : op.returnValues with
  | nil => simp [hm] at hfront
  | cons r1 ms =>
    simp only [hm, Bool.not_eq_true'] at hfront
    refine ⟨r1, ms, (getSortedMembers ms).1, rfl, hfront, ?_, required_of_front r1 ms hfront⟩
    rw [hm, required_of_front r1 ms hfront] at hlen
    intro hnil
    simp [hnil] at hlen

theorem write11ReturnLast_eq (op : Operation) (returnType : Bool)
    (hwf : returnType = true → op.WellFormed) :
    write11ReturnLast op returnType (sideMembers op returnType)
        (getSortedMembers (sideMembers op returnType)).1 = .ok (twoBranches op returnType) := by
  unfold write11ReturnLast twoBranches
  cases returnType with
  | false => simp
  | true =>
    cases hro : op.hasReturnAndOut with
    | false => simp
    | true =>
      have hne := hwf rfl hro
      simp only [sideMembers, if_true, Bool.and_self]
      cases hm : op.returnValues with
      | nil => exact absurd hm hne
      | cons f ms => simp [Nat.lt_iff_add_one_le]

theorem read11ReturnLast_eq (op : Operation) (returnType : Bool) :
    read11ReturnLast op returnType (sideMembers op returnType)
        (getSortedMembers (sideMembers op returnType)).1 = .ok (twoBranches op returnType) := by
  unfold read11ReturnLast twoBranches
  cases returnType with
  | false => simp
  | true =>
    cases hro : op.hasReturnAndOut with
    | false => simp
    | true =>
      simp only [sideMembers, if_true, Bool.and_self, Bool.true_and]
      cases hm : op.returnValues with
      | nil => simp [getSortedMembers]
      | cons f ms =>
        by_cases hlen : 1 < (getSortedMembers (f :: ms)).1.length
        · have h2 : 2 ≤ (getSortedMembers (f :: ms)).1.length := hlen
          simp [hlen, h2]
        · have h2 : ¬ 2 ≤ (getSortedMembers (f :: ms)).1.length := hlen
          simp [hlen, h2]

theorem writeMarshal_one (op : Operation) (returnType : Bool)
    (hwf : returnType = true → op.WellFormed)
    (h : twoBranches op returnType = false) :
    writeMarshal op returnType =
      .ok (marshalHeader (sideBitSequenceSize op returnType) ++
            marshalBranch (sideBitSequenceSize op returnType)
              (getSortedMembers (sideMembers op returnType)).1
              (getSortedMembers (sideMembers op returnType)).2) := by
  have h1 := write11ReturnLast_eq op returnType hwf
  have h2 := marshalPass_ok (sideBitSequenceSize op returnType) (-1)
    (getSortedMembers (sideMembers op returnType)).1 (getSortedMembers (sideMembers op returnType)).2
    (sideBitSequenceSize_eq op returnType) (fun _ => rfl)
  rw [h] at h1
  simp only [sideMembers, sideBitSequenceSize] at h1 h2
  simp only [writeMarshal, h1, h2, marshalHeader, marshalBranch, sideMembers, sideBitSequenceSize]

theorem writeMarshal_two (op : Operation) (returnType : Bool)
    (hwf : returnType = true → op.WellFormed)
    (h : twoBranches op returnType = true) (r1 : Member) (rest : List Member)
    (hreq : (getSortedMembers (sideMembers op returnType)).1 = r1 :: rest) :
    writeMarshal op returnType =
      .ok (marshalHeader (sideBitSequenceSize op returnType) ++ [Item.ifNotV1_1] ++
            marshalBranch (sideBitSequenceSize op returnType) (r1 :: rest)
              (getSortedMembers (sideMembers op returnType)).2 ++ [Item.elseBlock] ++
            marshalBranch (sideBitSequenceSize op returnType) (rest ++ [r1])
              (getSortedMembers (sideMembers op returnType)).2 ++ [Item.endBlock]) := by
  have h1 := write11ReturnLast_eq op returnType hwf
  have hsz := sideBitSequenceSize_eq op returnType
  rw [hreq] at hsz
  have h2 := marshalPass_ok (sideBitSequenceSize op returnType) (-1)
    (r1 :: rest) (getSortedMembers (sideMembers op returnType)).2 hsz (fun _ => rfl)
  have h3 := marshalPass_ok (sideBitSequenceSize op returnType)
    (startCursor (sideBitSequenceSize op returnType) + (sideBitSequenceSize op returnType : Int))
    (rest ++ [r1]) (getSortedMembers (sideMembers op returnType)).2
    (by rw [rotateFront_countP]; exact hsz) (startCursor_after _)
  rw [h, hreq] at h1
  simp only [sideMembers, sideBitSequenceSize] at h1 h2 h3 hreq
  simp only [writeMarshal, hreq, h1, h2, h3, rotateFront, marshalHeader, marshalBranch, sideMembers,
    sideBitSequenceSize]

theorem writeUnmarshal_one (op : Operation) (returnType : Bool)
    (h : twoBranches op returnType = false) :
    writeUnmarshal op returnType =
      .ok (unmarshalHeader (sideBitSequenceSize op returnType) ++
            unmarshalBranch (sideBitSequenceSize op returnType) (sideMembers op returnType)
              (getSortedMembers (sideMembers op returnType)).1
              (getSortedMembers (sideMembers op returnType)).2) := by
  have h1 := read11ReturnLast_eq op returnType
  have h2 := unmarshalPass_ok (sideBitSequenceSize op returnType) (-1) (sideMembers op returnType)
    (getSortedMembers (sideMembers op returnType)).1 (getSortedMembers (sideMembers op returnType)).2
    (sideBitSequenceSize_eq op returnType) (fun _ => rfl)
  rw [h] at h1
  simp only [sideMembers, sideBitSequenceSize] at h1 h2
  simp only [writeUnmarshal, h1, h2, unmarshalHeader, unmarshalBranch, sideMembers,
    sideBitSequenceSize]

theorem writeUnmarshal_two (op : Operation) (returnType : Bool)
    (h : twoBranches op returnType = true) (r1 : Member) (rest : List Member)
    (hreq : (getSortedMembers (sideMembers op returnType)).1 = r1 :: rest) :
    writeUnmarshal op returnType =
      .ok (unmarshalHeader (sideBitSequenceSize op returnType) ++ [Item.ifNotV1_1] ++
            unmarshalBranch (sideBitSequenceSize op returnType) (sideMembers op returnType)
              (r1 :: rest) (getSortedMembers (sideMembers op returnType)).2 ++ [Item.elseBlock] ++
            unmarshalBranch (sideBitSequenceSize op returnType) (sideMembers op returnType)
              (rest ++ [r1]) (getSortedMembers (sideMembers op returnType)).2 ++
            [Item.endBlock]) := by
  have h1 := read11ReturnLast_eq op returnType
  have hsz := sideBitSequenceSize_eq op returnType
  rw [hreq] at hsz
  have h2 := unmarshalPass_ok (sideBitSequenceSize op returnType) (-1) (sideMembers op returnType)
    (r1 :: rest) (getSortedMembers (sideMembers op returnType)).2 hsz (fun _ => rfl)
  have h3 := unmarshalPass_ok (sideBitSequenceSize op returnType)
    (startCursor (sideBitSequenceSize op returnType) + (sideBitSequenceSize op returnType : Int))
    (sideMembers op returnType)
    (rest ++ [r1]) (getSortedMembers (sideMembers op returnType)).2
    (by rw [rotateFront_countP]; exact hsz) (startCursor_after _)
  rw [h, hreq] at h1
  simp only [sideMembers, sideBitSequenceSize] at h1 h2 h3 hreq
  simp only [writeUnmarshal, hreq, h1, h2, h3, rotateFront, unmarshalHeader, unmarshalBranch,
    sideMembers, sideBitSequenceSize]

theorem tagged_perm (p : List Member) :
    (getSortedMembers p).2.Perm (p.filter (fun m => m.tagged)) := by
  simp only [getSortedMembers]
  exact List.perm_insertionSort _ _

theorem tagged_sorted (p : List Member) :
    (getSortedMembers p).2.Pairwise (fun a b => a.tagInt ≤ b.tagInt) := by
  simp only [getSortedMembers]
  exact List.sorted_insertionSort _ _

theorem tagged_mem (p : List Member) (m : Member) (hm : m ∈ (getSortedMembers p).2) :
    m ∈ p ∧ m.tagged = true := by
  have h := (tagged_perm p).mem_iff.mp hm
  simpa using h

theorem tagInt_nonneg (m : Member) (h : m.tagged = true) : -1 < m.tagInt := by
  unfold Member.tagged at h
  unfold Member.tagInt
  cases ht : m.tag with
  | none => simp [ht] at h
  | some t => simp only; omega

theorem filter_tagged_tagInt (p : List Member) :
    (p.filter (fun m => m.tagged)).map Member.tagInt =
      (p.filterMap (fun m => m.tag)).map (fun t : Nat => (t : Int)) := by
  induction p with
  | nil => rfl
  | cons m rest ih =>
    cases ht : m.tag with
    | none =>
      have hm : m.tagged = false := by simp [Member.tagged, ht]
      rw [List.filter_cons_of_neg (by simp [hm]), List.filterMap_cons_none ht]
      exact ih
    | some t =>
      have hm : m.tagged = true := by simp [Member.tagged, ht]
      have hi : m.tagInt = (t : Int) := by simp [Member.tagInt, ht]
      simp only [List.filter_cons, List.filterMap_cons, hm, ht, if_true, List.map_cons, ih, hi]

theorem tagged_strict (p : List Member) (hd : TagsDistinct p) :
    (getSortedMembers p).2.Pairwise (fun a b => a.tagInt < b.tagInt) := by
  have hnd : ((p.filter (fun m => m.tagged)).map Member.tagInt).Nodup := by
    rw [filter_tagged_tagInt]
    exact hd.map (fun a b h => by exact_mod_cast h)
  have hnd2 : ((getSortedMembers p).2.map Member.tagInt).Nodup :=
    ((tagged_perm p).map Member.tagInt).nodup_iff.mpr hnd
  have hne : (getSortedMembers p).2.Pairwise (fun a b => a.tagInt ≠ b.tagInt) := by
    have := hnd2
    unfold List.Nodup at this
    rwa [List.pairwise_map] at this
  exact ((tagged_sorted p).and hne).imp (fun h => lt_of_le_of_ne h.1 h.2)

theorem marshalTaggedChecked_ok (tagged : List Member) (currentTag : Int)
    (hlow : ∀ m ∈ tagged, currentTag < m.tagInt)
    (hs : tagged.Pairwise (fun a b => a.tagInt < b.tagInt)) :
    marshalTaggedChecked tagged currentTag = .ok (marshalTagged tagged) := by
  induction tagged generalizing currentTag with
  | nil => rfl
  | cons m rest ih =>
    have h1 : m.tagInt > currentTag := hlow m (List.mem_cons_self _ _)
    rw [List.pairwise_cons] at hs
    simp only [marshalTaggedChecked, h1, if_true, ih m.tagInt hs.1 hs.2, marshalTagged,
      List.map_cons]

theorem marshalTaggedChecked_cases (tagged : List Member) (currentTag : Int) :
    marshalTaggedChecked tagged currentTag = .ok (marshalTagged tagged) ∨
      marshalTaggedChecked tagged currentTag = .error .assertTagOrder := by
  induction tagged generalizing currentTag with
  | nil => left; rfl
  | cons m rest ih =>
    by_cases h1 : m.tagInt > currentTag
    · rcases ih m.tagInt with h | h
      · left; simp [marshalTaggedChecked, h1, h, marshalTagged]
      · right; simp [marshalTaggedChecked, h1, h]
    · right; simp [marshalTaggedChecked, h1]

theorem marshalRequiredChecked_eq (ms : List Member) (i : Int) :
    marshalRequiredChecked ms (-1) i = .ok (marshalRequired ms i) := by
  induction ms generalizing i with
  | nil => rfl
  | cons m rest ih => simp [marshalRequiredChecked, marshalRequired, ih]

theorem bitAssert_holds (size : Nat) : ¬ (size > 0 ∧ startCursor size + (size : Int) ≠ (size : Int)) := by
  intro h
  have h1 := h.1
  apply h.2
  simp [startCursor, h1]

theorem writeMarshalDataMembers_of_tags (p : List Member)
    (ht : marshalTaggedChecked (getSortedMembers p).2 (-1) = .ok (marshalTagged (getSortedMembers p).2)) :
    writeMarshalDataMembers p = .ok (marshalDataText p) := by
  have hb := bitAssert_holds (getBitSequenceSize p)
  have hc := getBitSequenceSize_eq p
  simp only [writeMarshalDataMembers, getBitSequenceSize_required, ht, marshalRequiredChecked_eq,
    marshalRequired_snd, marshalDataText, marshalHeader, startCursor] at hb ⊢
  rw [← hc]
  rw [if_neg hb]

theorem writeMarshalDataMembers_cases (p : List Member) :
    writeMarshalDataMembers p = .ok (marshalDataText p) ∨
      writeMarshalDataMembers p = .error .assertTagOrder := by
  rcases marshalTaggedChecked_cases (getSortedMembers p).2 (-1) with h | h
  · left; exact writeMarshalDataMembers_of_tags p h
  · right; simp only [writeMarshalDataMembers, marshalRequiredChecked_eq, h]

theorem writeUnmarshalDataMembers_eq (p : List Member) :
    writeUnmarshalDataMembers p = .ok (unmarshalDataText p) := by
  have hb := bitAssert_holds (getBitSequenceSize p)
  have hc := getBitSequenceSize_eq p
  simp only [writeUnmarshalDataMembers, getBitSequenceSize_required, unmarshalRequiredData_snd,
    unmarshalDataText, unmarshalHeader, startCursor] at hb ⊢
  rw [← hc]
  rw [if_neg hb]

theorem wireLayout_append (a b : List Item) : wireLayout (a ++ b) = wireLayout a ++ wireLayout b := by
  simp [wireLayout, List.filterMap_append]

theorem passes_of_not_mem (a : List Item) (h : Item.elseBlock ∉ a) : passes a = [a] := by
  induction a with
  | nil => rfl
  | cons x xs ih =>
    have hx : x ≠ Item.elseBlock := fun e => h (e ▸ List.mem_cons_self _ _)
    have hxs : Item.elseBlock ∉ xs := fun e => h (List.mem_cons_of_mem _ e)
    cases x <;> first | exact absurd rfl hx | simp [passes, ih hxs]

theorem passes_append_else (a b : List Item) (h : Item.elseBlock ∉ a) :
    passes (a ++ Item.elseBlock :: b) = a :: passes b := by
  induction a with
  | nil => rfl
  | cons x xs ih =>
    have hx : x ≠ Item.elseBlock := fun e => h (e ▸ List.mem_cons_self _ _)
    have hxs : Item.elseBlock ∉ xs := fun e => h (List.mem_cons_of_mem _ e)
    cases x <;> first | exact absurd rfl hx | simp [passes, ih hxs]

theorem marshalRequired_items (ms : List Member) (i : Int) :
    ∀ x ∈ (marshalRequired ms i).1, ∃ m j, x = Item.marshalCode m j := by
  induction ms generalizing i with
  | nil => simp [marshalRequired]
  | cons m rest ih =>
    intro x hx
    simp only [marshalRequired, List.mem_cons] at hx
    rcases hx with h | h
    · exact ⟨m, i, h⟩
    · exact ih _ x h

theorem unmarshalRequired_items (ms : List Member) (i : Int) :
    ∀ x ∈ (unmarshalRequired ms i).1, (∃ m j, x = Item.unmarshalCode m j) ∨
      ∃ m, x = Item.paramTypeStr m := by
  induction ms generalizing i with
  | nil => simp [unmarshalRequired]
  | cons m rest ih =>
    intro x hx
    simp only [unmarshalRequired, List.mem_cons] at hx
    rcases hx with h | h | h
    · exact Or.inr ⟨m, h⟩
    · exact Or.inl ⟨m, i, h⟩
    · exact ih _ x h

theorem unmarshalTagged_items (ms : List Member) :
    ∀ x ∈ unmarshalTagged ms, (∃ m j, x = Item.taggedUnmarshalCode m j) ∨
      ∃ m, x = Item.paramTypeStr m := by
  induction ms with
  | nil => simp [unmarshalTagged]
  | cons m rest ih =>
    intro x hx
    simp only [unmarshalTagged, List.mem_cons] at hx
    rcases hx with h | h | h
    · exact Or.inr ⟨m, h⟩
    · exact Or.inl ⟨m, _, h⟩
    · exact ih x h

theorem marshalBranch_control (size : Nat) (req tagged : List Member) (c : Item)
    (hc : c = Item.elseBlock ∨ c = Item.ifNotV1_1) : c ∉ marshalBranch size req tagged := by
  intro h
  simp only [marshalBranch, List.mem_append, marshalTagged, List.mem_map] at h
  rcases h with h | ⟨m, _, h⟩
  · obtain ⟨m, j, e⟩ := marshalRequired_items _ _ c h
    rcases hc with hc | hc <;> simp [hc] at e
  · rcases hc with hc | hc <;> simp [hc] at h

theorem returnStatement_control (members : List Member) (c : Item)
    (hc : c = Item.elseBlock ∨ c = Item.ifNotV1_1) : c ≠ returnStatement members := by
  unfold returnStatement
  split <;> rcases hc with hc | hc <;> simp [hc]

theorem unmarshalBranch_control (size : Nat) (members req tagged : List Member) (c : Item)
    (hc : c = Item.elseBlock ∨ c = Item.ifNotV1_1) : c ∉ unmarshalBranch size members req tagged := by
  intro h
  simp only [unmarshalBranch, List.mem_append, List.mem_singleton] at h
  rcases h with (h | h) | h
  · rcases unmarshalRequired_items _ _ c h with ⟨m, j, e⟩ | ⟨m, e⟩ <;>
      rcases hc with hc | hc <;> simp [hc] at e
  · rcases unmarshalTagged_items _ c h with ⟨m, j, e⟩ | ⟨m, e⟩ <;>
      rcases hc with hc | hc <;> simp [hc] at e
  · exact returnStatement_control members c hc h

theorem marshalHeader_control (size : Nat) (c : Item)
    (hc : c = Item.elseBlock ∨ c = Item.ifNotV1_1) : c ∉ marshalHeader size := by
  unfold marshalHeader
  split <;> rcases hc with hc | hc <;> simp [hc]

theorem unmarshalHeader_control (size : Nat) (c : Item)
    (hc : c = Item.elseBlock ∨ c = Item.ifNotV1_1) : c ∉ unmarshalHeader size := by
  unfold unmarshalHeader
  split <;> rcases hc with hc | hc <;> simp [hc]

@[simp]
theorem requiredPairs_marshalTagged (t : List Member) : requiredPairs (marshalTagged t) = [] := by
  induction t with
  | nil => rfl
  | cons m rest ih => simpa [marshalTagged, requiredPairs] using ih

@[simp]
theorem taggedPairs_marshalTagged (t : List Member) :
    taggedPairs (marshalTagged t) = withTag t := by
  induction t with
  | nil => rfl
  | cons m rest ih => simpa [marshalTagged, taggedPairs, withTag] using ih

@[simp]
theorem taggedPairs_marshalRequired (ms : List Member) (i : Int) :
    taggedPairs (marshalRequired ms i).1 = [] := by
  induction ms generalizing i with
  | nil => rfl
  | cons m rest ih => simp [marshalRequired, taggedPairs, ih]

@[simp]
theorem requiredPairs_unmarshalTagged (t : List Member) :
    requiredPairs (unmarshalTagged t) = [] := by
  induction t with
  | nil => rfl
  | cons m rest ih => simp [unmarshalTagged, requiredPairs, ih]

@[simp]
theorem taggedPairs_unmarshalTagged (t : List Member) :
    taggedPairs (unmarshalTagged t) = withTag t := by
  induction t with
  | nil => rfl
  | cons m rest ih =>
    simp only [unmarshalTagged, taggedPairs, ih]
    simp [withTag]

@[simp]
theorem taggedPairs_unmarshalRequired (ms : List Member) (i : Int) :
    taggedPairs (unmarshalRequired ms i).1 = [] := by
  induction ms generalizing i with
  | nil => rfl
  | cons m rest ih => simp [unmarshalRequired, taggedPairs, ih]

@[simp]
theorem declaredMembers_unmarshalRequired (ms : List Member) (i : Int) :
    declaredMembers (unmarshalRequired ms i).1 = ms := by
  induction ms generalizing i with
  | nil => rfl
  | cons m rest ih => simp [unmarshalRequired, declaredMembers, ih]

@[simp]
theorem declaredMembers_unmarshalTagged (t : List Member) :
    declaredMembers (unmarshalTagged t) = t := by
  induction t with
  | nil => rfl
  | cons m rest ih => simp [unmarshalTagged, declaredMembers, ih]

@[simp]
theorem returnItems_unmarshalRequired (ms : List Member) (i : Int) :
    returnItems (unmarshalRequired ms i).1 = [] := by
  induction ms generalizing i with
  | nil => rfl
  | cons m rest ih => simp [unmarshalRequired, returnItems, ih]

@[simp]
theorem returnItems_unmarshalTagged (t : List Member) :
    returnItems (unmarshalTagged t) = [] := by
  induction t with
  | nil => rfl
  | cons m rest ih => simp [unmarshalTagged, returnItems, ih]

@[simp]
theorem returnItems_returnStatement (ms : List Member) :
    returnItems [returnStatement ms] = [returnStatement ms] := by
  unfold returnStatement
  split <;> rfl

@[simp]
theorem requiredPairs_returnStatement (ms : List Member) :
    requiredPairs [returnStatement ms] = [] := by
  unfold returnStatement
  split <;> rfl

@[simp]
theorem taggedPairs_returnStatement (ms : List Member) :
    taggedPairs [returnStatement ms] = [] := by
  unfold returnStatement
  split <;> rfl

@[simp]
theorem declaredMembers_returnStatement (ms : List Member) :
    declaredMembers [returnStatement ms] = [] := by
  unfold returnStatement
  split <;> rfl

@[simp]
theorem wireLayout_returnStatement (ms : List Member) :
    wireLayout [returnStatement ms] = [] := by
  unfold returnStatement
  split <;> rfl

@[simp]
theorem requiredPairs_marshalHeader (s : Nat) : requiredPairs (marshalHeader s) = [] := by
  unfold marshalHeader
  split <;> rfl

@[simp]
theorem taggedPairs_marshalHeader (s : Nat) : taggedPairs (marshalHeader s) = [] := by
  unfold marshalHeader
  split <;> rfl

@[simp]
theorem requiredPairs_unmarshalHeader (s : Nat) : requiredPairs (unmarshalHeader s) = [] := by
  unfold unmarshalHeader
  split <;> rfl

@[simp]
theorem taggedPairs_unmarshalHeader (s : Nat) : taggedPairs (unmarshalHeader s) = [] := by
  unfold unmarshalHeader
  split <;> rfl

@[simp]
theorem declaredMembers_unmarshalHeader (s : Nat) :
    declaredMembers (unmarshalHeader s) = [] := by
  unfold unmarshalHeader
  split <;> rfl

@[simp]
theorem returnItems_unmarshalHeader (s : Nat) : returnItems (unmarshalHeader s) = [] := by
  unfold unmarshalHeader
  split <;> rfl

theorem wireLayout_headers (s : Nat) :
    wireLayout (marshalHeader s) = wireLayout (unmarshalHeader s) := by
  unfold marshalHeader unmarshalHeader
  split <;> rfl

theorem wireLayout_marshalRequired (ms : List Member) (i : Int) :
    wireLayout (marshalRequired ms i).1 = (withCursor ms i).map Wire.ofRequired := by
  induction ms generalizing i with
  | nil => rfl
  | cons m rest ih =>
    have := ih (writeMarshalCode m.type i)
    simp only [wireLayout] at this
    simp [marshalRequired, wireLayout, withCursor, Item.wire, this]

theorem wireLayout_unmarshalRequired (ms : List Member) (i : Int) :
    wireLayout (unmarshalRequired ms i).1 = (withCursor ms i).map Wire.ofRequired := by
  induction ms generalizing i with
  | nil => rfl
  | cons m rest ih =>
    have := ih (writeMarshalCode m.type i)
    simp only [wireLayout] at this
    simp [unmarshalRequired, wireLayout, withCursor, Item.wire, this, writeUnmarshalCode,
      writeMarshalCode] at this ⊢

theorem wireLayout_unmarshalRequiredData (ms : List Member) (i : Int) :
    wireLayout (unmarshalRequiredData ms i).1 = (withCursor ms i).map Wire.ofRequired := by
  induction ms generalizing i with
  | nil => rfl
  | cons m rest ih =>
    have := ih (writeMarshalCode m.type i)
    simp only [wireLayout] at this
    simp [unmarshalRequiredData, wireLayout, withCursor, Item.wire, this, writeUnmarshalCode,
      writeMarshalCode] at this ⊢

theorem wireLayout_marshalTagged (t : List Member) :
    wireLayout (marshalTagged t) = (withTag t).map Wire.ofTagged := by
  induction t with
  | nil => rfl
  | cons m rest ih =>
    simp only [wireLayout, marshalTagged, withTag] at ih
    simp [marshalTagged, wireLayout, withTag, Item.wire, ih]

theorem wireLayout_unmarshalTagged (t : List Member) :
    wireLayout (unmarshalTagged t) = (withTag t).map Wire.ofTagged := by
  induction t with
  | nil => rfl
  | cons m rest ih =>
    simp only [wireLayout, withTag] at ih
    simp [unmarshalTagged, wireLayout, withTag, Item.wire, ih]

theorem wireLayout_unmarshalTaggedData (t : List Member) :
    wireLayout (unmarshalTaggedData t) = (withTag t).map Wire.ofTagged := by
  induction t with
  | nil => rfl
  | cons m rest ih =>
    simp only [wireLayout, withTag] at ih
    simp [unmarshalTaggedData, wireLayout, withTag, Item.wire, ih]

theorem wireLayout_branches (s : Nat) (members req t : List Member) :
    wireLayout (marshalBranch s req t) = wireLayout (unmarshalBranch s members req t) := by
  simp only [marshalBranch, unmarshalBranch, wireLayout_append, wireLayout_marshalRequired,
    wireLayout_unmarshalRequired, wireLayout_marshalTagged, wireLayout_unmarshalTagged,
    wireLayout_returnStatement, List.append_nil]

@[simp]
theorem requiredPairs_marshalBranch (s : Nat) (req t : List Member) :
    requiredPairs (marshalBranch s req t) = withCursor req (startCursor s) := by
  simp [marshalBranch, requiredPairs_append, requiredPairs_marshalRequired]

@[simp]
theorem taggedPairs_marshalBranch (s : Nat) (req t : List Member) :
    taggedPairs (marshalBranch s req t) = withTag t := by
  simp [marshalBranch, taggedPairs_append]

@[simp]
theorem requiredPairs_unmarshalBranch (s : Nat) (members req t : List Member) :
    requiredPairs (unmarshalBranch s members req t) = withCursor req (startCursor s) := by
  simp [unmarshalBranch, requiredPairs_append, requiredPairs_unmarshalRequired]

@[simp]
theorem taggedPairs_unmarshalBranch (s : Nat) (members req t : List Member) :
    taggedPairs (unmarshalBranch s members req t) = withTag t := by
  simp [unmarshalBranch, taggedPairs_append]

@[simp]
theorem declaredMembers_unmarshalBranch (s : Nat) (members req t : List Member) :
    declaredMembers (unmarshalBranch s members req t) = req ++ t := by
  simp [unmarshalBranch, declaredMembers_append]

@[simp]
theorem returnItems_unmarshalBranch (s : Nat) (members req t : List Member) :
    returnItems (unmarshalBranch s members req t) = [returnStatement members] := by
  simp [unmarshalBranch, returnItems_append]

theorem withTag_map_fst (t : List Member) : (withTag t).map Prod.fst = t := by
  simp [withTag, Function.comp_def]

theorem passes_two (h b1 b2 : List Item) (h1 : Item.elseBlock ∉ h ++ [Item.ifNotV1_1] ++ b1)
    (h2 : Item.elseBlock ∉ b2) :
    passes (h ++ [Item.ifNotV1_1] ++ b1 ++ [Item.elseBlock] ++ b2 ++ [Item.endBlock]) =
      [h ++ [Item.ifNotV1_1] ++ b1, b2 ++ [Item.endBlock]] := by
  have e : h ++ [Item.ifNotV1_1] ++ b1 ++ [Item.elseBlock] ++ b2 ++ [Item.endBlock] =
      (h ++ [Item.ifNotV1_1] ++ b1) ++ Item.elseBlock :: (b2 ++ [Item.endBlock]) := by simp
  rw [e, passes_append_else _ _ h1, passes_of_not_mem]
  simpa using h2

@[simp]
theorem requiredPairs_unmarshalTaggedData (t : List Member) :
    requiredPairs (unmarshalTaggedData t) = [] := by
  induction t with
  | nil => rfl
  | cons m rest ih => simp [unmarshalTaggedData, requiredPairs, ih]

@[simp]
theorem taggedPairs_unmarshalTaggedData (t : List Member) :
    taggedPairs (unmarshalTaggedData t) = withTag t := by
  induction t with
  | nil => rfl
  | cons m rest ih =>
    simp only [unmarshalTaggedData, taggedPairs, ih]
    simp [withTag]

@[simp]
theorem taggedPairs_unmarshalRequiredData (ms : List Member) (i : Int) :
    taggedPairs (unmarshalRequiredData ms i).1 = [] := by
  induction ms generalizing i with
  | nil => rfl
  | cons m rest ih => simp [unmarshalRequiredData, taggedPairs, ih]

@[simp]
theorem requiredPairs_ifNot (l : List Item) : requiredPairs (Item.ifNotV1_1 :: l) = requiredPairs l := rfl

@[simp]
theorem requiredPairs_endBlock : requiredPairs [Item.endBlock] = [] := rfl

@[simp]
theorem taggedPairs_ifNot (l : List Item) : taggedPairs (Item.ifNotV1_1 :: l) = taggedPairs l := rfl

@[simp]
theorem taggedPairs_endBlock : taggedPairs [Item.endBlock] = [] := rfl

@[simp]
theorem declaredMembers_ifNot (l : List Item) : declaredMembers (Item.ifNotV1_1 :: l) = declaredMembers l := rfl

@[simp]
theorem declaredMembers_endBlock : declaredMembers [Item.endBlock] = [] := rfl

@[simp]
theorem returnItems_ifNot (l : List Item) : returnItems (Item.ifNotV1_1 :: l) = returnItems l := rfl

@[simp]
theorem returnItems_endBlock : returnItems [Item.endBlock] = [] := rfl

@[simp]
theorem requiredPairs_nil : requiredPairs [] = [] := rfl

@[simp]
theorem taggedPairs_nil : taggedPairs [] = [] := rfl

@[simp]
theorem declaredMembers_nil : declaredMembers [] = [] := rfl

@[simp]
theorem returnItems_nil : returnItems [] = [] := rfl

theorem wellFormed_of_ok (op : Operation) (returnType : Bool) (out : List Item)
    (h : writeMarshal op returnType = .ok out) : returnType = true → op.WellFormed := by
  intro hrt hro hnil
  subst hrt
  simp [writeMarshal, write11ReturnLast, hro, hnil] at h

theorem twoBranches_required (op : Operation) (returnType : Bool)
    (h : twoBranches op returnType = true) :
    ∃ r1 ms rest, sideMembers op returnType = r1 :: ms ∧ r1.tagged = false ∧ rest ≠ [] ∧
      (getSortedMembers (sideMembers op returnType)).1 = r1 :: rest := by
  obtain ⟨hrt, _, r1, ms, rest, h1, h2, h3, h4⟩ := twoBranches_spec op returnType h
  subst hrt
  exact ⟨r1, ms, rest, by simpa [sideMembers] using h1, h2, h3, by simpa [sideMembers] using h4⟩

theorem sorted_perm (ms : List Member) :
    ((getSortedMembers ms).1 ++ (getSortedMembers ms).2).Perm ms := by
  have h1 : (getSortedMembers ms).1 = ms.filter (fun m => !m.tagged) := rfl
  have h2 := tagged_perm ms
  rw [h1]
  refine (List.Perm.append_left _ h2).trans ?_
  refine List.perm_append_comm.trans ?_
  exact List.filter_append_perm (fun m => m.tagged) ms

theorem rotate_perm (first : Member) (rest : List Member) :
    (rest ++ [first]).Perm (first :: rest) := by
  exact List.perm_append_comm

theorem withCursor_getElem? (ms : List Member) (start : Int) (k : Nat) (m : Member) (i : Int)
    (h : (withCursor ms start)[k]? = some (m, i)) :
    ms[k]? = some m ∧
      i = start + ((ms.take k).countP (fun x => x.type.isBitSequenceOptional) : Nat) := by
  induction ms generalizing start k with
  | nil => simp [withCursor] at h
  | cons x rest ih =>
    cases k with
    | zero =>
      simp only [withCursor, List.getElem?_cons_zero, Option.some.injEq, Prod.mk.injEq] at h
      simp [h.1, h.2]
    | succ k =>
      simp only [withCursor, List.getElem?_cons_succ] at h
      obtain ⟨h1, h2⟩ := ih _ k h
      refine ⟨by simpa using h1, ?_⟩
      rw [h2]
      simp only [writeMarshalCode, List.take_succ_cons, List.countP_cons]
      by_cases hx : x.type.isBitSequenceOptional = true <;> simp [hx]
      omega

theorem withCursor_countP (ms : List Member) (start : Int) :
    (withCursor ms start).countP (fun p => p.1.type.isBitSequenceOptional) =
      ms.countP (fun m => m.type.isBitSequenceOptional) := by
  induction ms generalizing start with
  | nil => rfl
  | cons x rest ih => simp [withCursor, List.countP_cons, ih]

theorem bitsInEmissionOrder_of (pass : List Item) (size : Nat) (req : List Member)
    (hp : requiredPairs pass = withCursor req (startCursor size))
    (hsize : size = req.countP (fun m => m.type.isBitSequenceOptional)) :
    BitsInEmissionOrder pass := by
  intro k m i hk hm
  rw [hp] at hk ⊢
  obtain ⟨h1, h2⟩ := withCursor_getElem? req _ k m i hk
  have hmem : m ∈ req := List.getElem?_mem h1
  have hpos : 0 < size := by
    rw [hsize]
    exact List.countP_pos_iff.mpr ⟨m, hmem, hm⟩
  rw [h2, List.map_take, withCursor_map_fst]
  simp [startCursor, hpos]

theorem bitsConsumed_of (pass : List Item) (size : Nat) (req : List Member)
    (hp : requiredPairs pass = withCursor req (startCursor size))
    (hsize : size = req.countP (fun m => m.type.isBitSequenceOptional)) :
    bitsConsumed pass = size := by
  rw [bitsConsumed, hp, withCursor_countP, hsize]

theorem writeMarshal_no_bitAssert (op : Operation) (returnType : Bool) :
    writeMarshal op returnType ≠ .error .assertBitSequence := by
  by_cases hwf : returnType = true → op.WellFormed
  · cases h : twoBranches op returnType with
    | false => rw [writeMarshal_one op returnType hwf h]; simp
    | true =>
      obtain ⟨r1, ms, rest, _, _, _, h4⟩ := twoBranches_required op returnType h
      rw [writeMarshal_two op returnType hwf h r1 rest h4]; simp
  · simp only [Operation.WellFormed, Classical.not_imp, not_not] at hwf
    obtain ⟨hrt, hro, hnil⟩ := hwf
    subst hrt
    simp [writeMarshal, write11ReturnLast, hro, hnil]

theorem writeUnmarshal_no_bitAssert (op : Operation) (returnType : Bool) :
    writeUnmarshal op returnType ≠ .error .assertBitSequence := by
  cases h : twoBranches op returnType with
  | false => rw [writeUnmarshal_one op returnType h]; simp
  | true =>
    obtain ⟨r1, ms, rest, _, _, _, h4⟩ := twoBranches_required op returnType h
    rw [writeUnmarshal_two op returnType h r1 rest h4]; simp

theorem marshal_out_one_control (op : Operation) (returnType : Bool) (c : Item)
    (hc : c = Item.elseBlock ∨ c = Item.ifNotV1_1) :
    c ∉ marshalHeader (sideBitSequenceSize op returnType) ++
          marshalBranch (sideBitSequenceSize op returnType)
            (getSortedMembers (sideMembers op returnType)).1
            (getSortedMembers (sideMembers op returnType)).2 := by
  simp only [List.mem_append, not_or]
  exact ⟨marshalHeader_control _ c hc, marshalBranch_control _ _ _ c hc⟩

theorem unmarshal_out_one_control (op : Operation) (returnType : Bool) (c : Item)
    (hc : c = Item.elseBlock ∨ c = Item.ifNotV1_1) :
    c ∉ unmarshalHeader (sideBitSequenceSize op returnType) ++
          unmarshalBranch (sideBitSequenceSize op returnType) (sideMembers op returnType)
            (getSortedMembers (sideMembers op returnType)).1
            (getSortedMembers (sideMembers op returnType)).2 := by
  simp only [List.mem_append, not_or]
  exact ⟨unmarshalHeader_control _ c hc, unmarshalBranch_control _ _ _ _ c hc⟩

theorem marshal_passes_two (s : Nat) (req1 req2 t : List Member) :
    passes (marshalHeader s ++ [Item.ifNotV1_1] ++ marshalBranch s req1 t ++ [Item.elseBlock] ++
        marshalBranch s req2 t ++ [Item.endBlock]) =
      [marshalHeader s ++ [Item.ifNotV1_1] ++ marshalBranch s req1 t,
       marshalBranch s req2 t ++ [Item.endBlock]] := by
  apply passes_two
  · simp only [List.mem_append, List.mem_singleton, not_or]
    exact ⟨⟨marshalHeader_control _ _ (Or.inl rfl), by simp⟩,
      marshalBranch_control _ _ _ _ (Or.inl rfl)⟩
  · exact marshalBranch_control _ _ _ _ (Or.inl rfl)

theorem unmarshal_passes_two (s : Nat) (members req1 req2 t : List Member) :
    passes (unmarshalHeader s ++ [Item.ifNotV1_1] ++ unmarshalBranch s members req1 t ++
        [Item.elseBlock] ++ unmarshalBranch s members req2 t ++ [Item.endBlock]) =
      [unmarshalHeader s ++ [Item.ifNotV1_1] ++ unmarshalBranch s members req1 t,
       unmarshalBranch s members req2 t ++ [Item.endBlock]] := by
  apply passes_two
  · simp only [List.mem_append, List.mem_singleton, not_or]
    exact ⟨⟨unmarshalHeader_control _ _ (Or.inl rfl), by simp⟩,
      unmarshalBranch_control _ _ _ _ _ (Or.inl rfl)⟩
  · exact unmarshalBranch_control _ _ _ _ _ (Or.inl rfl)

/-- The text of `writeMarshal` contains the version check exactly when the trigger holds. -/
theorem marshal_check_iff (op : Operation) (returnType : Bool) (out : List Item)
    (h : writeMarshal op returnType = .ok out) :
    Item.ifNotV1_1 ∈ out ↔ twoBranches op returnType = true := by
  have hwf := wellFormed_of_ok op returnType out h
  cases ht : twoBranches op returnType with
  | false =>
    rw [writeMarshal_one op returnType hwf ht] at h
    injection h with h
    subst h
    simpa using marshal_out_one_control op returnType _ (Or.inr rfl)
  | true =>
    obtain ⟨r1, ms, rest, _, _, _, h4⟩ := twoBranches_required op returnType ht
    rw [writeMarshal_two op returnType hwf ht r1 rest h4] at h
    injection h with h
    subst h
    simp

/-- The text of `writeUnmarshal` contains the version check exactly when the trigger holds. -/
theorem unmarshal_check_iff (op : Operation) (returnType : Bool) (out : List Item)
    (h : writeUnmarshal op returnType = .ok out) :
    Item.ifNotV1_1 ∈ out ↔ twoBranches op returnType = true := by
  cases ht : twoBranches op returnType with
  | false =>
    rw [writeUnmarshal_one op returnType ht] at h
    injection h with h
    subst h
    simpa using unmarshal_out_one_control op returnType _ (Or.inr rfl)
  | true =>
    obtain ⟨r1, ms, rest, _, _, _, h4⟩ := twoBranches_required op returnType ht
    rw [writeUnmarshal_two op returnType ht r1 rest h4] at h
    injection h with h
    subst h
    simp

theorem emittedMembers_marshal_pass (h t : List Item) (s : Nat) (req tagged : List Member)
    (hh : requiredPairs h = [] ∧ taggedPairs h = [])
    (ht : requiredPairs t = [] ∧ taggedPairs t = []) :
    emittedMembers (h ++ marshalBranch s req tagged ++ t) = req ++ tagged := by
  simp [emittedMembers, requiredPairs_append, taggedPairs_append, hh.1, hh.2, ht.1, ht.2,
    withCursor_map_fst, withTag_map_fst]

theorem emittedMembers_unmarshal_pass (h t : List Item) (s : Nat) (members req tagged : List Member)
    (hh : requiredPairs h = [] ∧ taggedPairs h = [])
    (ht : requiredPairs t = [] ∧ taggedPairs t = []) :
    emittedMembers (h ++ unmarshalBranch s members req tagged ++ t) = req ++ tagged := by
  simp [emittedMembers, requiredPairs_append, taggedPairs_append, hh.1, hh.2, ht.1, ht.2,
    withCursor_map_fst, withTag_map_fst]

theorem twoBranches_iff (op : Operation) (returnType : Bool) :
    twoBranches op returnType = true ↔
      (returnType = true ∧ op.hasReturnAndOut = true ∧
        (∃ front rest, op.returnValues = front :: rest ∧ front.tagged = false) ∧
        2 ≤ (op.returnValues.filter (fun m => !m.tagged)).length) := by
  unfold twoBranches
  cases returnType with
  | false => simp
  | true =>
    simp only [sideMembers, if_true, Bool.true_and, Bool.and_eq_true, decide_eq_true_eq,
      true_and, getSortedMembers]
    cases hm : op.returnValues with
    | nil => simp
    | cons f ms => simp [and_assoc]

theorem rotated_sorted_perm (ms : List Member) (r1 : Member) (rest : List Member)
    (h : (getSortedMembers ms).1 = r1 :: rest) :
    ((rest ++ [r1]) ++ (getSortedMembers ms).2).Perm ms := by
  have h1 := sorted_perm ms
  rw [h] at h1
  exact (List.Perm.append_right _ (rotate_perm r1 rest)).trans h1

theorem declarationOrder_of_emissionOrder (required : List Member) (pass : List Item)
    (he : BitsInEmissionOrder pass) (hreq : (requiredPairs pass).map Prod.fst = required) :
    BitsInDeclarationOrder required pass := by
  intro m i hmem hm
  obtain ⟨k, hk⟩ := List.mem_iff_getElem?.mp hmem
  refine ⟨k, ?_, ?_⟩
  · rw [← hreq, List.getElem?_map, hk]; rfl
  · rw [he k m i hk hm, List.map_take, hreq]

theorem withTag_pairwise (t : List Member) (h : t.Pairwise (fun a b => a.tagInt < b.tagInt)) :
    (withTag t).Pairwise (fun a b => a.2 < b.2) := by
  unfold withTag
  rw [List.pairwise_map]
  exact h

/-! ## Claims on `writeMarshal`, `writeUnmarshal` and the data-member emitters -/

/-- C1: the checks `bitSequenceIndex == bitSequenceSize` of `writeMarshal`, `writeUnmarshal`,
`writeMarshalDataMembers` and `writeUnmarshalDataMembers` never fail, for every operation,
side and member list.  With each required member whose type is an `Optional` encoded via
bit sequence advancing the cursor by one and no other member advancing it, the cursor after
the last required member is the start value plus `bitSequenceSize`, which is the number of
required members of that kind; it is `bitSequenceSize` itself when a bit sequence is opened
(size above zero) and the untouched `-1` when the size is zero.  The second pass, over the
rotated list, leaves the cursor where the first pass does. -/
theorem bitSequence_exact (op : Operation) (returnType : Bool) (p : List Member) (start : Int) :
    writeMarshal op returnType ≠ .error .assertBitSequence ∧
    writeUnmarshal op returnType ≠ .error .assertBitSequence ∧
    writeMarshalDataMembers p ≠ .error .assertBitSequence ∧
    writeUnmarshalDataMembers p ≠ .error .assertBitSequence ∧
    getBitSequenceSize p =
      ((getSortedMembers p).1.filter (fun m => m.type.isBitSequenceOptional)).length ∧
    (marshalRequired (getSortedMembers p).1 start).2 = start + getBitSequenceSize p ∧
    (unmarshalRequired (getSortedMembers p).1 start).2 = start + getBitSequenceSize p ∧
    (unmarshalRequiredData (getSortedMembers p).1 start).2 = start + getBitSequenceSize p ∧
    (marshalRequired (getSortedMembers p).1 (startCursor (getBitSequenceSize p))).2 =
      (if 0 < getBitSequenceSize p then (getBitSequenceSize p : Int) else -1) ∧
    (unmarshalRequired (getSortedMembers p).1 (startCursor (getBitSequenceSize p))).2 =
      (if 0 < getBitSequenceSize p then (getBitSequenceSize p : Int) else -1) ∧
    (∀ (first : Member) (rest : List Member),
      (marshalRequired (rest ++ [first]) start).2 = (marshalRequired (first :: rest) start).2 ∧
      (unmarshalRequired (rest ++ [first]) start).2 =
        (unmarshalRequired (first :: rest) start).2) := by
  have hsize := getBitSequenceSize_eq p
  refine ⟨writeMarshal_no_bitAssert op returnType, writeUnmarshal_no_bitAssert op returnType,
    ?_, ?_, ?_, ?_, ?_, ?_, ?_, ?_, ?_⟩
  · rcases writeMarshalDataMembers_cases p with h | h <;> rw [h] <;> simp
  · rw [writeUnmarshalDataMembers_eq]; simp
  · rw [hsize, List.countP_eq_length_filter]
  · rw [marshalRequired_snd, hsize]
  · rw [unmarshalRequired_snd, hsize]
  · rw [unmarshalRequiredData_snd, hsize]
  · rw [marshalRequired_snd, ← hsize]
    by_cases h : 0 < getBitSequenceSize p
    · simp [startCursor, h]
    · have h0 : getBitSequenceSize p = 0 := by omega
      simp [startCursor, h0]
  · rw [unmarshalRequired_snd, ← hsize]
    by_cases h : 0 < getBitSequenceSize p
    · simp [startCursor, h]
    · have h0 : getBitSequenceSize p = 0 := by omega
      simp [startCursor, h0]
  · intro first rest
    simp only [marshalRequired_snd, unmarshalRequired_snd, rotateFront_countP, and_self]

/-- C2: for every operation with `hasReturnAndOut` only when it has a return value, and for
either side, `writeMarshal` and `writeUnmarshal` both emit, they emit the version check
together or not at all, they emit the same number of branches, and branch by branch the
required members with their bit-sequence cursors followed by the tagged members with their
tags are the same; the whole wire layout of the two texts coincides. -/
theorem marshal_unmarshal_same_layout (op : Operation) (returnType : Bool)
    (hwf : op.WellFormed) :
    ∃ w r, writeMarshal op returnType = .ok w ∧ writeUnmarshal op returnType = .ok r ∧
      (Item.ifNotV1_1 ∈ w ↔ Item.ifNotV1_1 ∈ r) ∧
      List.Forall₂ (fun a b => requiredPairs a = requiredPairs b ∧ taggedPairs a = taggedPairs b)
        (passes w) (passes r) ∧
      wireLayout w = wireLayout r := by
  cases ht : twoBranches op returnType with
  | false =>
    refine ⟨_, _, writeMarshal_one op returnType (fun _ => hwf) ht,
      writeUnmarshal_one op returnType ht, ?_, ?_, ?_⟩
    · have h1 := marshal_out_one_control op returnType _ (Or.inr rfl)
      have h2 := unmarshal_out_one_control op returnType _ (Or.inr rfl)
      exact ⟨fun h => absurd h h1, fun h => absurd h h2⟩
    · rw [passes_of_not_mem _ (marshal_out_one_control op returnType _ (Or.inl rfl)),
        passes_of_not_mem _ (unmarshal_out_one_control op returnType _ (Or.inl rfl))]
      refine List.Forall₂.cons ?_ List.Forall₂.nil
      simp [requiredPairs_append, taggedPairs_append]
    · simp only [wireLayout_append, wireLayout_headers,
        wireLayout_branches _ (sideMembers op returnType)]
  | true =>
    obtain ⟨r1, ms, rest, _, _, _, h4⟩ := twoBranches_required op returnType ht
    refine ⟨_, _, writeMarshal_two op returnType (fun _ => hwf) ht r1 rest h4,
      writeUnmarshal_two op returnType ht r1 rest h4, ?_, ?_, ?_⟩
    · simp
    · rw [marshal_passes_two, unmarshal_passes_two]
      refine List.Forall₂.cons ?_ (List.Forall₂.cons ?_ List.Forall₂.nil)
      · simp [requiredPairs_append, taggedPairs_append]
      · simp [requiredPairs_append, taggedPairs_append]
    · simp only [wireLayout_append, wireLayout_headers,
        wireLayout_branches _ (sideMembers op returnType)]

/-- C3: for every data-member list, `writeUnmarshalDataMembers` emits the bit-sequence
declaration (when the size is above zero), then the required members in declaration order,
each with the cursor reached so far, then the tagged members in sorted order, each with its
tag; `writeMarshalDataMembers` emits the same wire layout (same size, same members in the
same order, same bit indices, same tags), unless two members share a tag, where its debug
check on the tag order may stop it instead. -/
theorem dataMembers_same_layout (p : List Member) :
    ∃ r, writeUnmarshalDataMembers p = .ok r ∧
      wireLayout r =
        (if 0 < getBitSequenceSize p then [Wire.bitSequence (getBitSequenceSize p)] else []) ++
        (withCursor (p.filter (fun m => !m.tagged)) (startCursor (getBitSequenceSize p))).map
          Wire.ofRequired ++
        (withTag (getSortedMembers p).2).map Wire.ofTagged ∧
      ((∃ w, writeMarshalDataMembers p = .ok w ∧ wireLayout w = wireLayout r ∧
          requiredPairs w = requiredPairs r ∧ taggedPairs w = taggedPairs r) ∨
        (¬ TagsDistinct p ∧ writeMarshalDataMembers p = .error .assertTagOrder)) := by
  have hl : wireLayout (marshalDataText p) = wireLayout (unmarshalDataText p) := by
    simp only [marshalDataText, unmarshalDataText, wireLayout_append, wireLayout_headers,
      wireLayout_marshalRequired, wireLayout_unmarshalRequiredData, wireLayout_marshalTagged,
      wireLayout_unmarshalTaggedData]
  refine ⟨unmarshalDataText p, writeUnmarshalDataMembers_eq p, ?_, ?_⟩
  · simp only [unmarshalDataText, wireLayout_append, wireLayout_unmarshalRequiredData,
      wireLayout_unmarshalTaggedData]
    congr 2
    unfold unmarshalHeader
    split <;> rfl
  · have hpairs : requiredPairs (marshalDataText p) = requiredPairs (unmarshalDataText p) ∧
        taggedPairs (marshalDataText p) = taggedPairs (unmarshalDataText p) := by
      constructor
      · simp [marshalDataText, unmarshalDataText, requiredPairs_append,
          requiredPairs_marshalRequired, requiredPairs_unmarshalRequiredData]
      · simp [marshalDataText, unmarshalDataText, taggedPairs_append]
    rcases writeMarshalDataMembers_cases p with h | h
    · exact Or.inl ⟨_, h, hl, hpairs.1, hpairs.2⟩
    · refine Or.inr ⟨?_, h⟩
      intro hd
      have := writeMarshalDataMembers_of_tags p
        (marshalTaggedChecked_ok _ _ (fun m hm => tagInt_nonneg m (tagged_mem p m hm).2)
          (tagged_strict p hd))
      rw [this] at h
      cases h

/-- C4: for every operation with `hasReturnAndOut` only when it has a return value, and for
either side, `writeMarshal` emits; its text holds the encoding-version check and two passes
exactly when it marshals the return values, `hasReturnAndOut` is true, the first return
member is not tagged and at least two return members are untagged; otherwise it holds no
version check and one pass.  Every pass emits each member of the side once. -/
theorem writeMarshal_two_passes_iff (op : Operation) (returnType : Bool) (hwf : op.WellFormed) :
    ∃ out, writeMarshal op returnType = .ok out ∧
      (((returnType = true ∧ op.hasReturnAndOut = true ∧
            (∃ front rest, op.returnValues = front :: rest ∧ front.tagged = false) ∧
            2 ≤ (op.returnValues.filter (fun m => !m.tagged)).length) ∧
          Item.ifNotV1_1 ∈ out ∧ (passes out).length = 2) ∨
        (¬ (returnType = true ∧ op.hasReturnAndOut = true ∧
            (∃ front rest, op.returnValues = front :: rest ∧ front.tagged = false) ∧
            2 ≤ (op.returnValues.filter (fun m => !m.tagged)).length) ∧
          Item.ifNotV1_1 ∉ out ∧ (passes out).length = 1)) ∧
      ∀ b ∈ passes out, (emittedMembers b).Perm (sideMembers op returnType) := by
  cases ht : twoBranches op returnType with
  | false =>
    have hn := (twoBranches_iff op returnType).not.mp (by simp [ht])
    have hp := passes_of_not_mem _ (marshal_out_one_control op returnType _ (Or.inl rfl))
    refine ⟨_, writeMarshal_one op returnType (fun _ => hwf) ht, Or.inr ⟨hn, ?_, ?_⟩, ?_⟩
    · exact marshal_out_one_control op returnType _ (Or.inr rfl)
    · rw [hp]; rfl
    · intro b hb
      rw [hp, List.mem_singleton] at hb
      subst hb
      have := emittedMembers_marshal_pass (marshalHeader (sideBitSequenceSize op returnType)) []
        (sideBitSequenceSize op returnType) (getSortedMembers (sideMembers op returnType)).1
        (getSortedMembers (sideMembers op returnType)).2 (by simp) ⟨rfl, rfl⟩
      rw [List.append_nil] at this
      rw [this]
      exact sorted_perm _
  | true =>
    have hy := (twoBranches_iff op returnType).mp ht
    obtain ⟨r1, ms, rest, _, _, _, h4⟩ := twoBranches_required op returnType ht
    refine ⟨_, writeMarshal_two op returnType (fun _ => hwf) ht r1 rest h4, Or.inl ⟨hy, ?_, ?_⟩, ?_⟩
    · simp
    · rw [marshal_passes_two]; rfl
    · intro b hb
      rw [marshal_passes_two] at hb
      simp only [List.mem_cons, List.mem_singleton, List.not_mem_nil, or_false] at hb
      rcases hb with hb | hb
      · subst hb
        have := emittedMembers_marshal_pass
          (marshalHeader (sideBitSequenceSize op returnType) ++ [Item.ifNotV1_1]) []
          (sideBitSequenceSize op returnType) (r1 :: rest)
          (getSortedMembers (sideMembers op returnType)).2
          (by simp [requiredPairs_append, taggedPairs_append]) ⟨rfl, rfl⟩
        rw [List.append_nil] at this
        rw [this, ← h4]
        exact sorted_perm _
      · subst hb
        have := emittedMembers_marshal_pass [] [Item.endBlock]
          (sideBitSequenceSize op returnType) (rest ++ [r1])
          (getSortedMembers (sideMembers op returnType)).2
          ⟨rfl, rfl⟩ (by simp)
        rw [List.nil_append] at this
        rw [this]
        exact rotated_sorted_perm _ r1 rest h4

/-- C5: when `writeMarshal` emits two branches, the return values start with an untagged
member `r1`, the required members are `r1 :: rest` in declaration order, the branch under
`if (ostr.Encoding != ZeroC.Ice.Encoding.V1_1)` emits the required members as `r1 :: rest`
and the `else` branch, taken for encoding 1.1, emits them as `rest ++ [r1]`. -/
theorem writeMarshal_legacy_return_last (op : Operation) (returnType : Bool) (out : List Item)
    (h : writeMarshal op returnType = .ok out) (hc : Item.ifNotV1_1 ∈ out) :
    ∃ r1 ms rest b1 b2, returnType = true ∧ op.returnValues = r1 :: ms ∧
      (getSortedMembers op.returnValues).1 = r1 :: rest ∧ rest ≠ [] ∧
      passes out = [b1, b2] ∧ Item.ifNotV1_1 ∈ b1 ∧
      (requiredPairs b1).map Prod.fst = r1 :: rest ∧
      (requiredPairs b2).map Prod.fst = rest ++ [r1] := by
  have ht := (marshal_check_iff op returnType out h).mp hc
  obtain ⟨hrt, _, r1, ms, rest, h1, _, h3, h4⟩ := twoBranches_spec op returnType ht
  subst hrt
  have h4' : (getSortedMembers (sideMembers op true)).1 = r1 :: rest := by
    simpa [sideMembers] using h4
  rw [writeMarshal_two op true (wellFormed_of_ok op true out h) ht r1 rest h4'] at h
  injection h with h
  subst h
  refine ⟨r1, ms, rest, _, _, rfl, h1, h4, h3, marshal_passes_two _ _ _ _, by simp, ?_, ?_⟩
  · simp [requiredPairs_append, withCursor_map_fst]
  · simp only [requiredPairs_append, requiredPairs_marshalBranch, requiredPairs_endBlock,
      List.append_nil, withCursor_map_fst]

/-- C6: when `writeMarshal` or `writeUnmarshal` emits two branches, both do; in each of the
two texts the two branches emit the same tagged members with the same tags in the same
order, the required members of one branch are a permutation of those of the other, and
each branch consumes exactly `bitSequenceSize` bit-sequence indices. -/
theorem branches_differ_in_required_order_only (op : Operation) (returnType : Bool)
    (w r : List Item) (hw : writeMarshal op returnType = .ok w)
    (hr : writeUnmarshal op returnType = .ok r)
    (hc : Item.ifNotV1_1 ∈ w ∨ Item.ifNotV1_1 ∈ r) :
    ∃ w1 w2 r1 r2, passes w = [w1, w2] ∧ passes r = [r1, r2] ∧
      taggedPairs w1 = taggedPairs w2 ∧ taggedPairs r1 = taggedPairs r2 ∧
      ((requiredPairs w1).map Prod.fst).Perm ((requiredPairs w2).map Prod.fst) ∧
      ((requiredPairs r1).map Prod.fst).Perm ((requiredPairs r2).map Prod.fst) ∧
      bitsConsumed w1 = sideBitSequenceSize op returnType ∧
      bitsConsumed w2 = sideBitSequenceSize op returnType ∧
      bitsConsumed r1 = sideBitSequenceSize op returnType ∧
      bitsConsumed r2 = sideBitSequenceSize op returnType := by
  have ht : twoBranches op returnType = true := by
    rcases hc with hc | hc
    · exact (marshal_check_iff op returnType w hw).mp hc
    · exact (unmarshal_check_iff op returnType r hr).mp hc
  obtain ⟨m1, ms, rest, _, _, _, h4⟩ := twoBranches_required op returnType ht
  have hsz := sideBitSequenceSize_eq op returnType
  rw [h4] at hsz
  have hsz2 : sideBitSequenceSize op returnType =
      (rest ++ [m1]).countP (fun m => m.type.isBitSequenceOptional) := by
    rw [rotateFront_countP]; exact hsz
  rw [writeMarshal_two op returnType (wellFormed_of_ok op returnType w hw) ht m1 rest h4] at hw
  rw [writeUnmarshal_two op returnType ht m1 rest h4] at hr
  injection hw with hw
  injection hr with hr
  subst hw hr
  refine ⟨_, _, _, _, marshal_passes_two _ _ _ _, unmarshal_passes_two _ _ _ _ _, ?_, ?_, ?_, ?_,
    ?_, ?_, ?_, ?_⟩
  · simp [taggedPairs_append]
  · simp [taggedPairs_append]
  · simp only [requiredPairs_append, requiredPairs_marshalHeader, requiredPairs_ifNot,
      requiredPairs_nil, requiredPairs_marshalBranch, requiredPairs_endBlock, List.append_nil,
      List.nil_append, withCursor_map_fst]
    exact (rotate_perm m1 rest).symm
  · simp only [requiredPairs_append, requiredPairs_unmarshalHeader, requiredPairs_ifNot,
      requiredPairs_nil, requiredPairs_unmarshalBranch, requiredPairs_endBlock, List.append_nil,
      List.nil_append, withCursor_map_fst]
    exact (rotate_perm m1 rest).symm
  · exact bitsConsumed_of _ _ (m1 :: rest) (by simp [requiredPairs_append]) hsz
  · exact bitsConsumed_of _ _ (rest ++ [m1]) (by simp [requiredPairs_append]) hsz2
  · exact bitsConsumed_of _ _ (m1 :: rest) (by simp [requiredPairs_append]) hsz
  · exact bitsConsumed_of _ _ (rest ++ [m1]) (by simp [requiredPairs_append]) hsz2

/-- C7: when `writeUnmarshal` emits two branches, each branch declares every return member
once and reads every return member once, each branch holds one `return` statement, placed
after its last read, and in both branches that statement is the tuple of all return
members in declaration order. -/
theorem writeUnmarshal_branches_same_return (op : Operation) (returnType : Bool) (r : List Item)
    (hr : writeUnmarshal op returnType = .ok r) (hc : Item.ifNotV1_1 ∈ r) :
    ∃ body1 body2, returnType = true ∧
      passes r = [body1 ++ [Item.returnTuple op.returnValues],
                  body2 ++ [Item.returnTuple op.returnValues, Item.endBlock]] ∧
      returnItems body1 = [] ∧ returnItems body2 = [] ∧
      (declaredMembers body1).Perm op.returnValues ∧
      (declaredMembers body2).Perm op.returnValues ∧
      (emittedMembers body1).Perm op.returnValues ∧
      (emittedMembers body2).Perm op.returnValues := by
  have ht := (unmarshal_check_iff op returnType r hr).mp hc
  obtain ⟨hrt, _, m1, ms, rest, h1, h2, h3, h4⟩ := twoBranches_spec op returnType ht
  subst hrt
  have h4' : (getSortedMembers (sideMembers op true)).1 = m1 :: rest := by
    simpa [sideMembers] using h4
  have hms : ms ≠ [] := by
    intro hnil
    rw [h1, hnil] at h4
    simp [getSortedMembers, h2] at h4
    exact h3 h4
  have hret : returnStatement op.returnValues = Item.returnTuple op.returnValues := by
    rw [h1]
    cases ms with
    | nil => exact absurd rfl hms
    | cons x xs => rfl
  have hp1 := sorted_perm op.returnValues
  have hp2 := rotated_sorted_perm op.returnValues m1 rest h4
  rw [h4] at hp1
  rw [writeUnmarshal_two op true ht m1 rest h4'] at hr
  injection hr with hr
  subst hr
  refine ⟨unmarshalHeader (sideBitSequenceSize op true) ++ [Item.ifNotV1_1] ++
      ((unmarshalRequired (m1 :: rest) (startCursor (sideBitSequenceSize op true))).1 ++
        unmarshalTagged (getSortedMembers op.returnValues).2),
    (unmarshalRequired (rest ++ [m1]) (startCursor (sideBitSequenceSize op true))).1 ++
        unmarshalTagged (getSortedMembers op.returnValues).2, rfl, ?_, ?_, ?_, ?_, ?_, ?_, ?_⟩
  · rw [unmarshal_passes_two]
    simp [unmarshalBranch, sideMembers, hret]
  · simp [returnItems_append]
  · simp [returnItems_append]
  · simpa [declaredMembers_append] using hp1
  · simpa [declaredMembers_append] using hp2
  · simpa [emittedMembers, requiredPairs_append, taggedPairs_append,
      requiredPairs_unmarshalRequired, withCursor_map_fst, withTag_map_fst] using hp1
  · simpa [emittedMembers, requiredPairs_append, taggedPairs_append,
      requiredPairs_unmarshalRequired, withCursor_map_fst, withTag_map_fst] using hp2

/-- C8 fails as stated: for `int? op(out int? r2)` the branch for encoding 1.1 emits `r2`
with bit index 0 and then the primary return value `r1` with bit index 1, although no
required member precedes `r1` in declaration order. -/
theorem legacy_branch_bits_not_in_declaration_order :
    writeMarshal legacyOp true =
      .ok [Item.writeBitSequence 2, Item.ifNotV1_1,
           Item.marshalCode legacyFirst 0, Item.marshalCode legacySecond 1,
           Item.elseBlock,
           Item.marshalCode legacySecond 0, Item.marshalCode legacyFirst 1,
           Item.endBlock] ∧
    passes [Item.writeBitSequence 2, Item.ifNotV1_1,
           Item.marshalCode legacyFirst 0, Item.marshalCode legacySecond 1,
           Item.elseBlock,
           Item.marshalCode legacySecond 0, Item.marshalCode legacyFirst 1,
           Item.endBlock] =
      [[Item.writeBitSequence 2, Item.ifNotV1_1,
           Item.marshalCode legacyFirst 0, Item.marshalCode legacySecond 1],
       [Item.marshalCode legacySecond 0, Item.marshalCode legacyFirst 1, Item.endBlock]] ∧
    ¬ BitsInDeclarationOrder [legacyFirst, legacySecond]
        [Item.marshalCode legacySecond 0, Item.marshalCode legacyFirst 1, Item.endBlock] := by
  refine ⟨rfl, rfl, ?_⟩
  intro h
  obtain ⟨k, hk, hi⟩ := h legacyFirst 1 (by simp [requiredPairs]) rfl
  match k, hk, hi with
  | 0, _, hi => simp at hi
  | 1, hk, _ =>
    simp only [List.getElem?_cons_succ, List.getElem?_cons_zero, Option.some.injEq] at hk
    exact absurd hk (by decide)
  | k + 2, hk, _ => simp at hk

/-- C8, amended: in every pass emitted by `writeMarshal` and `writeUnmarshal` the bit index
given to a required member whose type is an `Optional` encoded via bit sequence is the
number of such required members emitted before it in that pass.  The first (or only) pass
emits the required members in declaration order, so there the bit order follows declaration
order; the second pass, the branch for encoding 1.1, emits them rotated, first member
last, and its bit order follows that rotated order. -/
theorem bits_follow_emission_order (op : Operation) (returnType : Bool) (w r : List Item)
    (hw : writeMarshal op returnType = .ok w) (hr : writeUnmarshal op returnType = .ok r) :
    (∀ b ∈ passes w ++ passes r, BitsInEmissionOrder b) ∧
    (∀ b, ((passes w).head? = some b ∨ (passes r).head? = some b) →
      (requiredPairs b).map Prod.fst = (getSortedMembers (sideMembers op returnType)).1 ∧
      BitsInDeclarationOrder (getSortedMembers (sideMembers op returnType)).1 b) ∧
    (∀ b, ((passes w)[1]? = some b ∨ (passes r)[1]? = some b) →
      ∃ r1 rest, (getSortedMembers (sideMembers op returnType)).1 = r1 :: rest ∧
        (requiredPairs b).map Prod.fst = rest ++ [r1]) := by
  have hsz := sideBitSequenceSize_eq op returnType
  cases ht : twoBranches op returnType with
  | false =>
    rw [writeMarshal_one op returnType (wellFormed_of_ok op returnType w hw) ht] at hw
    rw [writeUnmarshal_one op returnType ht] at hr
    injection hw with hw
    injection hr with hr
    subst hw hr
    rw [passes_of_not_mem _ (marshal_out_one_control op returnType _ (Or.inl rfl)),
      passes_of_not_mem _ (unmarshal_out_one_control op returnType _ (Or.inl rfl))]
    have e1 : ∀ b, b = marshalHeader (sideBitSequenceSize op returnType) ++
          marshalBranch (sideBitSequenceSize op returnType)
            (getSortedMembers (sideMembers op returnType)).1
            (getSortedMembers (sideMembers op returnType)).2 ∨
        b = unmarshalHeader (sideBitSequenceSize op returnType) ++
          unmarshalBranch (sideBitSequenceSize op returnType) (sideMembers op returnType)
            (getSortedMembers (sideMembers op returnType)).1
            (getSortedMembers (sideMembers op returnType)).2 →
        requiredPairs b = withCursor (getSortedMembers (sideMembers op returnType)).1
          (startCursor (sideBitSequenceSize op returnType)) := by
      intro b hb
      rcases hb with hb | hb <;> subst hb <;> simp [requiredPairs_append]
    refine ⟨?_, ?_, ?_⟩
    · intro b hb
      simp only [List.mem_append, List.mem_singleton] at hb
      exact bitsInEmissionOrder_of b _ _ (e1 b hb) hsz
    · intro b hb
      simp only [List.head?_cons, Option.some.injEq] at hb
      have hb' := e1 b (hb.imp Eq.symm Eq.symm)
      have hm : (requiredPairs b).map Prod.fst = (getSortedMembers (sideMembers op returnType)).1 := by
        rw [hb', withCursor_map_fst]
      exact ⟨hm, declarationOrder_of_emissionOrder _ b (bitsInEmissionOrder_of b _ _ hb' hsz) hm⟩
    · intro b hb
      simp at hb
  | true =>
    obtain ⟨m1, ms, rest, _, _, _, h4⟩ := twoBranches_required op returnType ht
    rw [h4] at hsz
    have hsz2 : sideBitSequenceSize op returnType =
        (rest ++ [m1]).countP (fun m => m.type.isBitSequenceOptional) := by
      rw [rotateFront_countP]; exact hsz
    rw [writeMarshal_two op returnType (wellFormed_of_ok op returnType w hw) ht m1 rest h4] at hw
    rw [writeUnmarshal_two op returnType ht m1 rest h4] at hr
    injection hw with hw
    injection hr with hr
    subst hw hr
    rw [marshal_passes_two, unmarshal_passes_two, h4]
    have e1 : ∀ b, b = marshalHeader (sideBitSequenceSize op returnType) ++ [Item.ifNotV1_1] ++
          marshalBranch (sideBitSequenceSize op returnType) (m1 :: rest)
            (getSortedMembers (sideMembers op returnType)).2 ∨
        b = unmarshalHeader (sideBitSequenceSize op returnType) ++ [Item.ifNotV1_1] ++
          unmarshalBranch (sideBitSequenceSize op returnType) (sideMembers op returnType)
            (m1 :: rest) (getSortedMembers (sideMembers op returnType)).2 →
        requiredPairs b = withCursor (m1 :: rest)
          (startCursor (sideBitSequenceSize op returnType)) := by
      intro b hb
      rcases hb with hb | hb <;> subst hb <;> simp [requiredPairs_append]
    have e2 : ∀ b, b = marshalBranch (sideBitSequenceSize op returnType) (rest ++ [m1])
            (getSortedMembers (sideMembers op returnType)).2 ++ [Item.endBlock] ∨
        b = unmarshalBranch (sideBitSequenceSize op returnType) (sideMembers op returnType)
            (rest ++ [m1]) (getSortedMembers (sideMembers op returnType)).2 ++ [Item.endBlock] →
        requiredPairs b = withCursor (rest ++ [m1])
          (startCursor (sideBitSequenceSize op returnType)) := by
      intro b hb
      rcases hb with hb | hb <;> subst hb <;> simp [requiredPairs_append]
    refine ⟨?_, ?_, ?_⟩
    · intro b hb
      simp only [List.mem_append, List.mem_cons, List.mem_singleton, List.not_mem_nil,
        or_false] at hb
      rcases hb with (hb | hb) | (hb | hb)
      · exact bitsInEmissionOrder_of b _ _ (e1 b (Or.inl hb)) hsz
      · exact bitsInEmissionOrder_of b _ _ (e2 b (Or.inl hb)) hsz2
      · exact bitsInEmissionOrder_of b _ _ (e1 b (Or.inr hb)) hsz
      · exact bitsInEmissionOrder_of b _ _ (e2 b (Or.inr hb)) hsz2
    · intro b hb
      simp only [List.head?_cons, Option.some.injEq] at hb
      have hb' := e1 b (hb.imp Eq.symm Eq.symm)
      have hm : (requiredPairs b).map Prod.fst = m1 :: rest := by
        rw [hb', withCursor_map_fst]
      exact ⟨hm, declarationOrder_of_emissionOrder _ b (bitsInEmissionOrder_of b _ _ hb' hsz) hm⟩
    · intro b hb
      simp only [List.getElem?_cons_succ, List.getElem?_cons_zero, Option.some.injEq] at hb
      have hb' := e2 b (hb.imp Eq.symm Eq.symm)
      exact ⟨m1, rest, rfl, by rw [hb', withCursor_map_fst]⟩

/-- C9: for every member list whose tags are pairwise distinct, `writeMarshalDataMembers`
passes both debug checks and emits, after the bit-sequence declaration, every required
member in declaration order and then the tagged members, each with its own tag, in strictly
increasing tag order. -/
theorem writeMarshalDataMembers_order (p : List Member) (hd : TagsDistinct p) :
    ∃ requiredItems taggedItems,
      writeMarshalDataMembers p =
        .ok (marshalHeader (getBitSequenceSize p) ++ requiredItems ++ taggedItems) ∧
      (requiredPairs requiredItems).map Prod.fst = p.filter (fun m => !m.tagged) ∧
      taggedPairs requiredItems = [] ∧
      requiredPairs taggedItems = [] ∧
      ((taggedPairs taggedItems).map Prod.fst).Perm (p.filter (fun m => m.tagged)) ∧
      (taggedPairs taggedItems).Pairwise (fun a b => a.2 < b.2) ∧
      (∀ x ∈ taggedPairs taggedItems, x.2 = x.1.tagInt ∧ -1 < x.2) := by
  have hs := tagged_strict p hd
  have hlow : ∀ m ∈ (getSortedMembers p).2, (-1 : Int) < m.tagInt :=
    fun m hm => tagInt_nonneg m (tagged_mem p m hm).2
  refine ⟨(marshalRequired (getSortedMembers p).1 (startCursor (getBitSequenceSize p))).1,
    marshalTagged (getSortedMembers p).2,
    writeMarshalDataMembers_of_tags p (marshalTaggedChecked_ok _ _ hlow hs), ?_, ?_, ?_, ?_, ?_, ?_⟩
  · rw [requiredPairs_marshalRequired, withCursor_map_fst]; rfl
  · simp
  · simp
  · rw [taggedPairs_marshalTagged, withTag_map_fst]
    exact tagged_perm p
  · rw [taggedPairs_marshalTagged]
    exact withTag_pairwise _ hs
  · intro x hx
    rw [taggedPairs_marshalTagged] at hx
    simp only [withTag, List.mem_map] at hx
    obtain ⟨m, hm, rfl⟩ := hx
    exact ⟨rfl, hlow m hm⟩

/-! ## Lemmas on the slicing emitters -/

theorem sliceStarts_append (a b : List Event) :
    sliceStarts (a ++ b) = sliceStarts a ++ sliceStarts b := by
  induction a with
  | nil => rfl
  | cons x xs ih =>
    cases x with
    | call owner c => cases c <;> simp [sliceStarts, ih]
    | dataMembers owner ms => simp [sliceStarts, ih]
    | initCall owner => simp [sliceStarts, ih]

theorem sliceEnds_append (a b : List Event) :
    sliceEnds (a ++ b) = sliceEnds a ++ sliceEnds b := by
  induction a with
  | nil => rfl
  | cons x xs ih =>
    cases x with
    | call owner c => cases c <;> simp [sliceEnds, ih]
    | dataMembers owner ms => simp [sliceEnds, ih]
    | initCall owner => simp [sliceEnds, ih]

theorem sliceOwners_append (a b : List Event) :
    sliceOwners (a ++ b) = sliceOwners a ++ sliceOwners b := by
  induction a with
  | nil => rfl
  | cons x xs ih =>
    cases x with
    | call owner c => cases c <;> simp [sliceOwners, ih]
    | dataMembers owner ms => simp [sliceOwners, ih]
    | initCall owner => simp [sliceOwners, ih]

/-- Run of the generated `IceWrite` of a class, unfolded one level. -/
theorem run_classIceWrite (p : ClassDef) (firstSlice : Bool) :
    runMethod (classIceWrite p) firstSlice =
      Event.call p.info.name
          (if firstSlice then
            Call.writeStartFirstSlice (p.hasPreserveSlice || p.inheritsPreserveSlice)
              (if p.info.compactId ≥ 0 then some p.info.compactId else none) false
           else Call.writeStartNextSlice "IceTypeId") ::
        Event.dataMembers p.info.name p.info.dataMembers ::
        (match p.base with
         | some base =>
           Event.call p.info.name (Call.writeEndSlice false) :: runMethod (classIceWrite base) false
         | none => [Event.call p.info.name (Call.writeEndSlice true)]) := by
  cases p with
  | root info =>
    cases firstSlice <;>
      simp [classIceWrite, runMethod, writeMarshalingIceWrite, execBody, ClassDef.base,
        ClassDef.allBases, ClassDef.info]
  | derived info base =>
    cases firstSlice <;>
      simp [classIceWrite, runMethod, writeMarshalingIceWrite, execBody, ClassDef.base,
        ClassDef.allBases, ClassDef.info]

/-- Run of the generated `IceRead` of a class, unfolded one level. -/
theorem run_classIceRead (p : ClassDef) (firstSlice : Bool) :
    runMethod (classIceRead p) firstSlice =
      Event.call p.info.name
          (if firstSlice then
            Call.readStartFirstSlice (p.hasPreserveSlice || p.inheritsPreserveSlice)
           else Call.readStartNextSlice) ::
        Event.dataMembers p.info.name p.info.dataMembers ::
        Event.call p.info.name Call.readEndSlice ::
        ((match p.base with
          | some base => runMethod (classIceRead base) false
          | none => []) ++
         (if !hasDataMemberWithName p.allDataMembers "Initialize" then
            [Event.initCall p.info.name] else [])) := by
  cases p with
  | root info =>
    cases firstSlice <;>
      by_cases h : hasDataMemberWithName (ClassDef.root info).allDataMembers "Initialize" = true <;>
      simp [classIceRead, runMethod, writeMarshalingIceRead, execBody, ClassDef.base,
        ClassDef.allBases, ClassDef.info, h]
  | derived info base =>
    cases firstSlice <;>
      by_cases h : hasDataMemberWithName (ClassDef.derived info base).allDataMembers
        "Initialize" = true <;>
      simp [classIceRead, runMethod, writeMarshalingIceRead, execBody, ClassDef.base,
        ClassDef.allBases, ClassDef.info, h]

/-- Run of the generated `IceWrite` of an exception, unfolded one level. -/
theorem run_exceptionIceWrite (p : Exception) (firstSlice : Bool) :
    runMethod (exceptionIceWrite p) firstSlice =
      Event.call p.info.name
          (if firstSlice then Call.writeStartFirstSlice true none true
           else Call.writeStartNextSlice "_iceAllTypeIds[0]") ::
        Event.dataMembers p.info.name p.info.dataMembers ::
        (match p.base with
         | some base =>
           Event.call p.info.name (Call.writeEndSlice false) ::
             runMethod (exceptionIceWrite base) false
         | none => [Event.call p.info.name (Call.writeEndSlice true)]) := by
  cases p with
  | root info =>
    cases firstSlice <;>
      simp [exceptionIceWrite, runMethod, visitExceptionEndIceWrite, execBody, Exception.base,
        Exception.allBases, Exception.info]
  | derived info base =>
    cases firstSlice <;>
      simp [exceptionIceWrite, runMethod, visitExceptionEndIceWrite, execBody, Exception.base,
        Exception.allBases, Exception.info]

/-- Run of the generated `IceRead` of an exception, unfolded one level. -/
theorem run_exceptionIceRead (p : Exception) (firstSlice : Bool) :
    runMethod (exceptionIceRead p) firstSlice =
      (if firstSlice then
          [Event.call p.info.name (Call.readStartFirstSlice true),
           Event.call p.info.name Call.convertToUnhandled]
        else [Event.call p.info.name Call.readStartNextSlice]) ++
        Event.dataMembers p.info.name p.info.dataMembers ::
        Event.call p.info.name Call.readEndSlice ::
        (match p.base with
         | some base => runMethod (exceptionIceRead base) false
         | none => []) := by
  cases p with
  | root info =>
    cases firstSlice <;>
      simp [exceptionIceRead, runMethod, visitExceptionEndIceRead, execBody, Exception.base,
        Exception.allBases, Exception.info]
  | derived info base =>
    cases firstSlice <;>
      simp [exceptionIceRead, runMethod, visitExceptionEndIceRead, execBody, Exception.base,
        Exception.allBases, Exception.info]

theorem class_write_trace (p : ClassDef) (firstSlice : Bool) :
    sliceStarts (runMethod (classIceWrite p) firstSlice) =
        (p.info.name, classWriteStart p firstSlice) ::
          p.allBases.map (fun b => (b.info.name, Call.writeStartNextSlice "IceTypeId")) ∧
      sliceEnds (runMethod (classIceWrite p) firstSlice) =
        ((p :: p.allBases).map (fun c => c.info.name)).zip
          (List.replicate p.allBases.length (Call.writeEndSlice false) ++
            [Call.writeEndSlice true]) ∧
      sliceOwners (runMethod (classIceWrite p) firstSlice) =
        startEndOrder ((p :: p.allBases).map (fun c => c.info.name)) := by
  induction p generalizing firstSlice with
  | root info =>
    rw [run_classIceWrite]
    cases firstSlice <;>
      simp [sliceStarts, sliceEnds, sliceOwners, startEndOrder, ClassDef.base, ClassDef.allBases,
        classWriteStart]
  | derived info base ih =>
    obtain ⟨h1, h2, h3⟩ := ih false
    rw [run_classIceWrite]
    simp only [ClassDef.base]
    generalize runMethod (classIceWrite base) false = t at h1 h2 h3 ⊢
    cases firstSlice <;>
      simp [sliceStarts, sliceEnds, sliceOwners, startEndOrder, ClassDef.base, ClassDef.allBases,
        classWriteStart, h1, h2, h3, List.replicate_succ]

theorem class_read_trace (p : ClassDef) (firstSlice : Bool) :
    sliceStarts (runMethod (classIceRead p) firstSlice) =
        (p.info.name,
          if firstSlice then Call.readStartFirstSlice (p.hasPreserveSlice || p.inheritsPreserveSlice)
          else Call.readStartNextSlice) ::
          p.allBases.map (fun b => (b.info.name, Call.readStartNextSlice)) ∧
      sliceEnds (runMethod (classIceRead p) firstSlice) =
        (p :: p.allBases).map (fun c => (c.info.name, Call.readEndSlice)) ∧
      sliceOwners (runMethod (classIceRead p) firstSlice) =
        startEndOrder ((p :: p.allBases).map (fun c => c.info.name)) := by
  induction p generalizing firstSlice with
  | root info =>
    rw [run_classIceRead]
    cases firstSlice <;>
      by_cases h : hasDataMemberWithName (ClassDef.root info).allDataMembers "Initialize" = true <;>
      simp [sliceStarts, sliceEnds, sliceOwners, startEndOrder, ClassDef.base, ClassDef.allBases, h]
  | derived info base ih =>
    obtain ⟨h1, h2, h3⟩ := ih false
    rw [run_classIceRead]
    simp only [ClassDef.base]
    generalize runMethod (classIceRead base) false = t at h1 h2 h3 ⊢
    cases firstSlice <;>
      by_cases h : hasDataMemberWithName (ClassDef.derived info base).allDataMembers
        "Initialize" = true <;>
      simp [sliceStarts, sliceEnds, sliceOwners, startEndOrder, ClassDef.base, ClassDef.allBases, h,
        h1, h2, h3, sliceStarts_append, sliceEnds_append, sliceOwners_append]

theorem exception_write_trace (p : Exception) (firstSlice : Bool) :
    sliceStarts (runMethod (exceptionIceWrite p) firstSlice) =
        (p.info.name,
          if firstSlice then Call.writeStartFirstSlice true none true
          else Call.writeStartNextSlice "_iceAllTypeIds[0]") ::
          p.allBases.map (fun b => (b.info.name, Call.writeStartNextSlice "_iceAllTypeIds[0]")) ∧
      sliceEnds (runMethod (exceptionIceWrite p) firstSlice) =
        ((p :: p.allBases).map (fun c => c.info.name)).zip
          (List.replicate p.allBases.length (Call.writeEndSlice false) ++
            [Call.writeEndSlice true]) ∧
      sliceOwners (runMethod (exceptionIceWrite p) firstSlice) =
        startEndOrder ((p :: p.allBases).map (fun c => c.info.name)) := by
  induction p generalizing firstSlice with
  | root info =>
    rw [run_exceptionIceWrite]
    cases firstSlice <;>
      simp [sliceStarts, sliceEnds, sliceOwners, startEndOrder, Exception.base, Exception.allBases]
  | derived info base ih =>
    obtain ⟨h1, h2, h3⟩ := ih false
    rw [run_exceptionIceWrite]
    simp only [Exception.base]
    generalize runMethod (exceptionIceWrite base) false = t at h1 h2 h3 ⊢
    cases firstSlice <;>
      simp [sliceStarts, sliceEnds, sliceOwners, startEndOrder, Exception.base, Exception.allBases,
        h1, h2, h3, List.replicate_succ]

theorem exception_read_trace (p : Exception) (firstSlice : Bool) :
    sliceStarts (runMethod (exceptionIceRead p) firstSlice) =
        (p.info.name,
          if firstSlice then Call.readStartFirstSlice true else Call.readStartNextSlice) ::
          p.allBases.map (fun b => (b.info.name, Call.readStartNextSlice)) ∧
      sliceEnds (runMethod (exceptionIceRead p) firstSlice) =
        (p :: p.allBases).map (fun c => (c.info.name, Call.readEndSlice)) ∧
      sliceOwners (runMethod (exceptionIceRead p) firstSlice) =
        startEndOrder ((p :: p.allBases).map (fun c => c.info.name)) := by
  induction p generalizing firstSlice with
  | root info =>
    rw [run_exceptionIceRead]
    cases firstSlice <;>
      simp [sliceStarts, sliceEnds, sliceOwners, startEndOrder, Exception.base, Exception.allBases]
  | derived info base ih =>
    obtain ⟨h1, h2, h3⟩ := ih false
    rw [run_exceptionIceRead]
    simp only [Exception.base]
    generalize runMethod (exceptionIceRead base) false = t at h1 h2 h3 ⊢
    cases firstSlice <;>
      simp [sliceStarts, sliceEnds, sliceOwners, startEndOrder, Exception.base, Exception.allBases,
        h1, h2, h3]

/-! ## Claim on slice order -/

/-- C10: for every class `p` and every exception `e` with their base chains, running the
emitted `IceWrite` of the most-derived type with `firstSlice = true` starts one slice per
type of the chain, most-derived first, the first with `IceStartFirstSlice` (the only call
with a compact id, present when `compactId() >= 0`) and every other with
`IceStartNextSlice`; it ends them with `IceEndSlice(false)` for every type but the root and
`IceEndSlice(true)` for the root; each slice is ended before the next one starts.  Running
the emitted `IceRead` starts and ends the same slices in the same order.  For the chain
`Leaf`, `Mid`, `Root` the order is `Leaf`, `Mid`, `Root` and only the `Leaf` slice carries
a compact id. -/
theorem slices_most_derived_first (p : ClassDef) (e : Exception) :
    (sliceStarts (runMethod (classIceWrite p) true) =
        (p.info.name,
          Call.writeStartFirstSlice (p.hasPreserveSlice || p.inheritsPreserveSlice)
            (if p.info.compactId ≥ 0 then some p.info.compactId else none) false) ::
          p.allBases.map (fun b => (b.info.name, Call.writeStartNextSlice "IceTypeId")) ∧
      sliceEnds (runMethod (classIceWrite p) true) =
        ((p :: p.allBases).map (fun c => c.info.name)).zip
          (List.replicate p.allBases.length (Call.writeEndSlice false) ++
            [Call.writeEndSlice true]) ∧
      sliceOwners (runMethod (classIceWrite p) true) =
        startEndOrder ((p :: p.allBases).map (fun c => c.info.name)) ∧
      sliceStarts (runMethod (classIceRead p) true) =
        (p.info.name, Call.readStartFirstSlice (p.hasPreserveSlice || p.inheritsPreserveSlice)) ::
          p.allBases.map (fun b => (b.info.name, Call.readStartNextSlice)) ∧
      sliceEnds (runMethod (classIceRead p) true) =
        (p :: p.allBases).map (fun c => (c.info.name, Call.readEndSlice)) ∧
      sliceOwners (runMethod (classIceRead p) true) =
        startEndOrder ((p :: p.allBases).map (fun c => c.info.name))) ∧
    (sliceStarts (runMethod (exceptionIceWrite e) true) =
        (e.info.name, Call.writeStartFirstSlice true none true) ::
          e.allBases.map (fun b => (b.info.name, Call.writeStartNextSlice "_iceAllTypeIds[0]")) ∧
      sliceEnds (runMethod (exceptionIceWrite e) true) =
        ((e :: e.allBases).map (fun c => c.info.name)).zip
          (List.replicate e.allBases.length (Call.writeEndSlice false) ++
            [Call.writeEndSlice true]) ∧
      sliceOwners (runMethod (exceptionIceWrite e) true) =
        startEndOrder ((e :: e.allBases).map (fun c => c.info.name)) ∧
      sliceStarts (runMethod (exceptionIceRead e) true) =
        (e.info.name, Call.readStartFirstSlice true) ::
          e.allBases.map (fun b => (b.info.name, Call.readStartNextSlice)) ∧
      sliceEnds (runMethod (exceptionIceRead e) true) =
        (e :: e.allBases).map (fun c => (c.info.name, Call.readEndSlice)) ∧
      sliceOwners (runMethod (exceptionIceRead e) true) =
        startEndOrder ((e :: e.allBases).map (fun c => c.info.name))) ∧
    (sliceStarts (runMethod (classIceWrite leafMidRoot) true) =
        [("Leaf", Call.writeStartFirstSlice false (some 7) false),
         ("Mid", Call.writeStartNextSlice "IceTypeId"),
         ("Root", Call.writeStartNextSlice "IceTypeId")] ∧
      sliceEnds (runMethod (classIceWrite leafMidRoot) true) =
        [("Leaf", Call.writeEndSlice false), ("Mid", Call.writeEndSlice false),
         ("Root", Call.writeEndSlice true)] ∧
      sliceStarts (runMethod (classIceRead leafMidRoot) true) =
        [("Leaf", Call.readStartFirstSlice false), ("Mid", Call.readStartNextSlice),
         ("Root", Call.readStartNextSlice)] ∧
      sliceEnds (runMethod (classIceRead leafMidRoot) true) =
        [("Leaf", Call.readEndSlice), ("Mid", Call.readEndSlice), ("Root", Call.readEndSlice)]) := by
  obtain ⟨a1, a2, a3⟩ := class_write_trace p true
  obtain ⟨b1, b2, b3⟩ := class_read_trace p true
  obtain ⟨c1, c2, c3⟩ := exception_write_trace e true
  obtain ⟨d1, d2, d3⟩ := exception_read_trace e true
  refine ⟨⟨?_, a2, a3, ?_, b2, b3⟩, ⟨?_, c2, c3, ?_, d2, d3⟩, rfl, rfl, rfl, rfl⟩
  · simpa [classWriteStart] using a1
  · simpa using b1
  · simpa using c1
  · simpa using d1

/-! ## The theorems at concrete operations -/

/-- Witness of C2 on the return values of `sampleOp`. -/
theorem marshal_unmarshal_same_layout_witness :
    sampleOp.WellFormed ∧
    ∃ w r, writeMarshal sampleOp true = .ok w ∧ writeUnmarshal sampleOp true = .ok r ∧
      (Item.ifNotV1_1 ∈ w ↔ Item.ifNotV1_1 ∈ r) ∧
      List.Forall₂ (fun a b => requiredPairs a = requiredPairs b ∧ taggedPairs a = taggedPairs b)
        (passes w) (passes r) ∧
      wireLayout w = wireLayout r :=
  ⟨by decide, marshal_unmarshal_same_layout sampleOp true (by decide)⟩

/-- Witness of C4 on the return values of `legacyOp`. -/
theorem writeMarshal_two_passes_iff_witness :
    legacyOp.WellFormed ∧
    ∃ out, writeMarshal legacyOp true = .ok out ∧
      (((true = true ∧ legacyOp.hasReturnAndOut = true ∧
            (∃ front rest, legacyOp.returnValues = front :: rest ∧ front.tagged = false) ∧
            2 ≤ (legacyOp.returnValues.filter (fun m => !m.tagged)).length) ∧
          Item.ifNotV1_1 ∈ out ∧ (passes out).length = 2) ∨
        (¬ (true = true ∧ legacyOp.hasReturnAndOut = true ∧
            (∃ front rest, legacyOp.returnValues = front :: rest ∧ front.tagged = false) ∧
            2 ≤ (legacyOp.returnValues.filter (fun m => !m.tagged)).length) ∧
          Item.ifNotV1_1 ∉ out ∧ (passes out).length = 1)) ∧
      ∀ b ∈ passes out, (emittedMembers b).Perm (sideMembers legacyOp true) :=
  ⟨by decide, writeMarshal_two_passes_iff legacyOp true (by decide)⟩

/-- Witness of C5 on the return values of `legacyOp`. -/
theorem writeMarshal_legacy_return_last_witness :
    writeMarshal legacyOp true = .ok legacyMarshalText ∧ Item.ifNotV1_1 ∈ legacyMarshalText ∧
    ∃ r1 ms rest b1 b2, true = true ∧ legacyOp.returnValues = r1 :: ms ∧
      (getSortedMembers legacyOp.returnValues).1 = r1 :: rest ∧ rest ≠ [] ∧
      passes legacyMarshalText = [b1, b2] ∧ Item.ifNotV1_1 ∈ b1 ∧
      (requiredPairs b1).map Prod.fst = r1 :: rest ∧
      (requiredPairs b2).map Prod.fst = rest ++ [r1] :=
  ⟨rfl, by decide,
    writeMarshal_legacy_return_last legacyOp true legacyMarshalText rfl (by decide)⟩

/-- Witness of C6 on the return values of `sampleOp`. -/
theorem branches_differ_in_required_order_only_witness :
    writeMarshal sampleOp true = .ok sampleMarshalText ∧
    writeUnmarshal sampleOp true = .ok sampleUnmarshalText ∧
    (Item.ifNotV1_1 ∈ sampleMarshalText ∨ Item.ifNotV1_1 ∈ sampleUnmarshalText) ∧
    ∃ w1 w2 r1 r2, passes sampleMarshalText = [w1, w2] ∧ passes sampleUnmarshalText = [r1, r2] ∧
      taggedPairs w1 = taggedPairs w2 ∧ taggedPairs r1 = taggedPairs r2 ∧
      ((requiredPairs w1).map Prod.fst).Perm ((requiredPairs w2).map Prod.fst) ∧
      ((requiredPairs r1).map Prod.fst).Perm ((requiredPairs r2).map Prod.fst) ∧
      bitsConsumed w1 = sideBitSequenceSize sampleOp true ∧
      bitsConsumed w2 = sideBitSequenceSize sampleOp true ∧
      bitsConsumed r1 = sideBitSequenceSize sampleOp true ∧
      bitsConsumed r2 = sideBitSequenceSize sampleOp true :=
  ⟨rfl, rfl, Or.inl (by decide),
    branches_differ_in_required_order_only sampleOp true sampleMarshalText sampleUnmarshalText
      rfl rfl (Or.inl (by decide))⟩

/-- Witness of C7 on the return values of `sampleOp`. -/
theorem writeUnmarshal_branches_same_return_witness :
    writeUnmarshal sampleOp true = .ok sampleUnmarshalText ∧
    Item.ifNotV1_1 ∈ sampleUnmarshalText ∧
    ∃ body1 body2, true = true ∧
      passes sampleUnmarshalText = [body1 ++ [Item.returnTuple sampleOp.returnValues],
                  body2 ++ [Item.returnTuple sampleOp.returnValues, Item.endBlock]] ∧
      returnItems body1 = [] ∧ returnItems body2 = [] ∧
      (declaredMembers body1).Perm sampleOp.returnValues ∧
      (declaredMembers body2).Perm sampleOp.returnValues ∧
      (emittedMembers body1).Perm sampleOp.returnValues ∧
      (emittedMembers body2).Perm sampleOp.returnValues :=
  ⟨rfl, by decide,
    writeUnmarshal_branches_same_return sampleOp true sampleUnmarshalText rfl (by decide)⟩

/-- Witness of the amended C8 on the return values of `legacyOp`. -/
theorem bits_follow_emission_order_witness :
    writeMarshal legacyOp true = .ok legacyMarshalText ∧
    writeUnmarshal legacyOp true = .ok legacyUnmarshalText ∧
    (∀ b ∈ passes legacyMarshalText ++ passes legacyUnmarshalText, BitsInEmissionOrder b) ∧
    (∀ b, ((passes legacyMarshalText).head? = some b ∨
        (passes legacyUnmarshalText).head? = some b) →
      (requiredPairs b).map Prod.fst = (getSortedMembers (sideMembers legacyOp true)).1 ∧
      BitsInDeclarationOrder (getSortedMembers (sideMembers legacyOp true)).1 b) ∧
    (∀ b, ((passes legacyMarshalText)[1]? = some b ∨
        (passes legacyUnmarshalText)[1]? = some b) →
      ∃ r1 rest, (getSortedMembers (sideMembers legacyOp true)).1 = r1 :: rest ∧
        (requiredPairs b).map Prod.fst = rest ++ [r1]) :=
  ⟨rfl, rfl,
    bits_follow_emission_order legacyOp true legacyMarshalText legacyUnmarshalText rfl rfl⟩

/-- Witness of C9 on the return values of `sampleOp` taken as a data-member list. -/
theorem writeMarshalDataMembers_order_witness :
    TagsDistinct sampleOp.returnValues ∧
    ∃ requiredItems taggedItems,
      writeMarshalDataMembers sampleOp.returnValues =
        .ok (marshalHeader (getBitSequenceSize sampleOp.returnValues) ++ requiredItems ++
          taggedItems) ∧
      (requiredPairs requiredItems).map Prod.fst =
        sampleOp.returnValues.filter (fun m => !m.tagged) ∧
      taggedPairs requiredItems = [] ∧
      requiredPairs taggedItems = [] ∧
      ((taggedPairs taggedItems).map Prod.fst).Perm
        (sampleOp.returnValues.filter (fun m => m.tagged)) ∧
      (taggedPairs taggedItems).Pairwise (fun a b => a.2 < b.2) ∧
      (∀ x ∈ taggedPairs taggedItems, x.2 = x.1.tagInt ∧ -1 < x.2) :=
  ⟨by decide, writeMarshalDataMembers_order sampleOp.returnValues (by decide)⟩

/-! ## Claims on the slice framing -/

/-- C11: for every class and every exception the emitted `IceWrite` is the first-slice test,
then the slice's own data members, then exactly one `IceEndSlice` call: `IceEndSlice(false)`
immediately followed by `base.IceWrite(ostr, false)` when the type has a base, and
`IceEndSlice(true)` with no base call when it has none. -/
theorem iceWrite_ends_slice_once (p : ClassDef) (e : Exception) :
    ((p.base ≠ none ∧
        writeMarshalingIceWrite p =
          [Stmt.ifFirstSlice
              [Call.writeStartFirstSlice (p.hasPreserveSlice || p.inheritsPreserveSlice)
                (if p.info.compactId ≥ 0 then some p.info.compactId else none) false]
              [Call.writeStartNextSlice "IceTypeId"],
            Stmt.marshalDataMembers p.info.dataMembers,
            Stmt.call (Call.writeEndSlice false), Stmt.baseCall false]) ∨
      (p.base = none ∧
        writeMarshalingIceWrite p =
          [Stmt.ifFirstSlice
              [Call.writeStartFirstSlice (p.hasPreserveSlice || p.inheritsPreserveSlice)
                (if p.info.compactId ≥ 0 then some p.info.compactId else none) false]
              [Call.writeStartNextSlice "IceTypeId"],
            Stmt.marshalDataMembers p.info.dataMembers,
            Stmt.call (Call.writeEndSlice true)])) ∧
    ((e.base ≠ none ∧
        visitExceptionEndIceWrite e =
          [Stmt.ifFirstSlice [Call.writeStartFirstSlice true none true]
              [Call.writeStartNextSlice "_iceAllTypeIds[0]"],
            Stmt.marshalDataMembers e.info.dataMembers,
            Stmt.call (Call.writeEndSlice false), Stmt.baseCall false]) ∨
      (e.base = none ∧
        visitExceptionEndIceWrite e =
          [Stmt.ifFirstSlice [Call.writeStartFirstSlice true none true]
              [Call.writeStartNextSlice "_iceAllTypeIds[0]"],
            Stmt.marshalDataMembers e.info.dataMembers,
            Stmt.call (Call.writeEndSlice true)])) ∧
    (((writeMarshalingIceWrite p).map Stmt.calls).flatten.countP Call.isWriteEndSlice = 1 ∧
      ((visitExceptionEndIceWrite e).map Stmt.calls).flatten.countP Call.isWriteEndSlice = 1) := by
  refine ⟨?_, ?_, ?_, ?_⟩
  · cases p with
    | root info => exact Or.inr ⟨rfl, rfl⟩
    | derived info base => exact Or.inl ⟨by simp [ClassDef.base], rfl⟩
  · cases e with
    | root info => exact Or.inr ⟨rfl, rfl⟩
    | derived info base => exact Or.inl ⟨by simp [Exception.base], rfl⟩
  · cases p <;>
      simp [writeMarshalingIceWrite, ClassDef.base, Stmt.calls, Call.isWriteEndSlice]
  · cases e <;>
      simp [visitExceptionEndIceWrite, Exception.base, Stmt.calls, Call.isWriteEndSlice]

/-- C12: for every exception, whatever its metadata, the emitted `IceRead` opens with the
first-slice test whose first branch is `IceSlicedData = istr.IceStartFirstSlice();` (then
`ConvertToUnhandled = true;`) and whose other branch is `istr.IceStartNextSlice();`, and the
emitted `IceWrite` opens with the test whose first branch passes `IceSlicedData` and
`errorMessage: Message` to `ostr.IceStartFirstSlice` and whose other branch is
`ostr.IceStartNextSlice(_iceAllTypeIds[0]);`.  No other statement of either method starts a
first slice, and no call outside the first branches carries sliced data or a message. -/
theorem exception_first_slice_framing (e : Exception) :
    ∃ restRead restWrite,
      visitExceptionEndIceRead e =
        Stmt.ifFirstSlice [Call.readStartFirstSlice true, Call.convertToUnhandled]
          [Call.readStartNextSlice] :: restRead ∧
      visitExceptionEndIceWrite e =
        Stmt.ifFirstSlice [Call.writeStartFirstSlice true none true]
          [Call.writeStartNextSlice "_iceAllTypeIds[0]"] :: restWrite ∧
      (∀ c ∈ ((restRead ++ restWrite).map Stmt.calls).flatten,
        c.isStartFirstSlice = false ∧ c.carriesSlicedDataOrMessage = false) ∧
      (∀ c ∈ [Call.readStartNextSlice, Call.writeStartNextSlice "_iceAllTypeIds[0]"],
        c.carriesSlicedDataOrMessage = false) := by
  cases e with
  | root info =>
    refine ⟨_, _, rfl, rfl, ?_, ?_⟩
    · simp [Exception.base, Stmt.calls, Call.isStartFirstSlice, Call.carriesSlicedDataOrMessage]
    · simp [Call.carriesSlicedDataOrMessage]
  | derived info base =>
    refine ⟨_, _, rfl, rfl, ?_, ?_⟩
    · simp [Exception.base, Stmt.calls, Call.isStartFirstSlice, Call.carriesSlicedDataOrMessage]
    · simp [Call.carriesSlicedDataOrMessage]

/-- C13: for every class the first branch of the first-slice test of the emitted `IceRead`
keeps the result of `istr.IceStartFirstSlice()` in `IceSlicedData` exactly when the class
has or inherits the `preserve-slice` metadata, which is exactly when the first branch of
the emitted `IceWrite` passes `IceSlicedData` to `ostr.IceStartFirstSlice`; otherwise the
read drops the value (`_ = ...`) and the write passes no sliced data.  No other statement of
either method starts a first slice. -/
theorem class_sliced_data_iff_preserved (p : ClassDef) :
    ∃ keep restRead restWrite,
      (keep = true ↔
        (p.info.preserveSlice = true ∨ ∃ b ∈ p.allBases, b.info.preserveSlice = true)) ∧
      writeMarshalingIceRead p =
        Stmt.ifFirstSlice [Call.readStartFirstSlice keep] [Call.readStartNextSlice] :: restRead ∧
      writeMarshalingIceWrite p =
        Stmt.ifFirstSlice
          [Call.writeStartFirstSlice keep
            (if p.info.compactId ≥ 0 then some p.info.compactId else none) false]
          [Call.writeStartNextSlice "IceTypeId"] :: restWrite ∧
      (∀ c ∈ ((restRead ++ restWrite).map Stmt.calls).flatten,
        c.isStartFirstSlice = false ∧ c.carriesSlicedDataOrMessage = false) := by
  refine ⟨p.hasPreserveSlice || p.inheritsPreserveSlice,
    [Stmt.unmarshalDataMembers p.info.dataMembers, Stmt.call Call.readEndSlice] ++
      (match p.base with
       | some _ => [Stmt.baseCall false]
       | none => []) ++
      (if !hasDataMemberWithName p.allDataMembers "Initialize" then [Stmt.initCall] else []),
    [Stmt.marshalDataMembers p.info.dataMembers] ++
      (match p.base with
       | some _ => [Stmt.call (Call.writeEndSlice false), Stmt.baseCall false]
       | none => [Stmt.call (Call.writeEndSlice true)]), ?_, ?_, ?_, ?_⟩
  · simp [ClassDef.hasPreserveSlice, ClassDef.inheritsPreserveSlice]
  · rfl
  · rfl
  · cases hb : p.base <;>
      cases hi : hasDataMemberWithName p.allDataMembers "Initialize" <;>
      simp [Stmt.calls, Call.isStartFirstSlice, Call.carriesSlicedDataOrMessage]

/-! ## Lemmas on the proxy and dispatch emitters -/

theorem proxy_visit_oneway (od : OperationDecl)
    (h : (hasMetaData od.operation.metaData "oneway" &&
      decide (od.operation.returnValues.length > 0)) = true) :
    ProxyVisitor.visitOperation od =
      (ProxyVisitor.methods od,
        if od.unitFiles.contains od.file then
          DefinitionContext.error od.file od.line "only void operations can be marked oneway"
        else Ending.assertDefinitionContext) := by
  unfold ProxyVisitor.visitOperation
  simp only [h, if_true, ProxyVisitor.methods]
  split <;> rfl

theorem proxy_visit_no_error (od : OperationDecl)
    (h : (hasMetaData od.operation.metaData "oneway" &&
      decide (od.operation.returnValues.length > 0)) = false) (d : Diagnostic) :
    (ProxyVisitor.visitOperation od).2 ≠ Ending.error d := by
  unfold ProxyVisitor.visitOperation
  simp only [h]
  by_cases hp : od.operation.parameters.length > 0 <;>
    by_cases hr : od.operation.returnValues.length > 0 <;>
    cases hw : ProxyVisitor.writeOutgoingRequestWriter od.operation <;>
    cases hrd : ProxyVisitor.writeOutgoingRequestReader od.operation <;>
    simp [hp, hr, hw, hrd]

/-- In the branch without the `oneway` error the text goes on with the request descriptor. -/
theorem proxy_visit_descriptor (od : OperationDecl)
    (h : (hasMetaData od.operation.metaData "oneway" &&
      decide (od.operation.returnValues.length > 0)) = false) :
    ∃ rest, (ProxyVisitor.visitOperation od).1 =
      ProxyVisitor.methods od ++
        [ProxyItem.requestField (requestType od.operation.parameters od.operation.returnValues)
            ("_iceI_" ++ od.opName ++ "Request"),
         ProxyItem.requestPropertyOpen
            (requestType od.operation.parameters od.operation.returnValues)
            ("IceI_" ++ od.opName ++ "Request") ("_iceI_" ++ od.opName ++ "Request")
            od.operation.name (isIdempotent od.operation)] ++ rest := by
  unfold ProxyVisitor.visitOperation
  simp only [h]
  by_cases hp : od.operation.parameters.length > 0 <;>
    by_cases hr : od.operation.returnValues.length > 0 <;>
    cases hw : ProxyVisitor.writeOutgoingRequestWriter od.operation <;>
    cases hrd : ProxyVisitor.writeOutgoingRequestReader od.operation <;>
    simp [ProxyVisitor.methods, hp, hr, hw, hrd]

/-! ## Claims on the `oneway` check of `ProxyVisitor::visitOperation` -/

/-- C14: for every operation whose file has a definition context in its unit,
`ProxyVisitor::visitOperation` ends in an error reported against the operation's file and
line exactly when the operation carries the `oneway` metadata and has at least one return
value; in every other case it reports no error. -/
theorem proxy_oneway_error_iff (od : OperationDecl)
    (hdc : od.unitFiles.contains od.file = true) :
    ((hasMetaData od.operation.metaData "oneway" = true ∧ od.operation.returnValues.length > 0) ∧
        ∃ message, (ProxyVisitor.visitOperation od).2 = Ending.error ⟨od.file, od.line, message⟩) ∨
      (¬ (hasMetaData od.operation.metaData "oneway" = true ∧
          od.operation.returnValues.length > 0) ∧
        ∀ d, (ProxyVisitor.visitOperation od).2 ≠ Ending.error d) := by
  cases h : (hasMetaData od.operation.metaData "oneway" &&
      decide (od.operation.returnValues.length > 0)) with
  | true =>
    have hc : hasMetaData od.operation.metaData "oneway" = true ∧
        od.operation.returnValues.length > 0 := by simpa using h
    refine Or.inl ⟨hc, "only void operations can be marked oneway", ?_⟩
    rw [proxy_visit_oneway od h, if_pos hdc]
    rfl
  | false =>
    have hc : ¬ (hasMetaData od.operation.metaData "oneway" = true ∧
        od.operation.returnValues.length > 0) := by
      intro hx
      have : (hasMetaData od.operation.metaData "oneway" &&
          decide (od.operation.returnValues.length > 0)) = true := by simpa using hx
      rw [h] at this
      cases this
    exact Or.inr ⟨hc, proxy_visit_no_error od h⟩

/-- C15 fails as stated: for `["oneway"] int ping()` the diagnostic that ends generation reads
"only void operations can be marked oneway", not "oneway operations must not return a
value". -/
theorem oneway_diagnostic_text_differs :
    ProxyVisitor.visitOperation onewayDecl =
      ([ProxyItem.syncMethod "IceI_PingRequest" false "context" "cancel",
        ProxyItem.asyncMethod "IceI_PingRequest" false "context" "progress" "cancel"],
       Ending.error ⟨"Test.ice", 12, "only void operations can be marked oneway"⟩) ∧
    (ProxyVisitor.visitOperation onewayDecl).2 ≠
      Ending.error ⟨"Test.ice", 12, "oneway operations must not return a value"⟩ := by
  refine ⟨rfl, ?_⟩
  decide

/-- C15, amended: for every operation that carries the `oneway` metadata and has one declared
return value (and whose file has a definition context in its unit), generation of the proxy
operation ends in the error with the explicit text "only void operations can be marked
oneway", reported against the operation's file and line. -/
theorem oneway_diagnostic_text (od : OperationDecl)
    (hdc : od.unitFiles.contains od.file = true)
    (hone : hasMetaData od.operation.metaData "oneway" = true)
    (hret : od.operation.returnValues.length = 1) :
    (ProxyVisitor.visitOperation od).2 =
      Ending.error ⟨od.file, od.line, "only void operations can be marked oneway"⟩ := by
  have h : (hasMetaData od.operation.metaData "oneway" &&
      decide (od.operation.returnValues.length > 0)) = true := by simp [hone, hret]
  rw [proxy_visit_oneway od h, if_pos hdc]
  rfl

/-- C16: when `ProxyVisitor::visitOperation` ends in the error, the emitted text is what was
emitted before the check, the synchronous and the asynchronous method: nothing follows, and
no item of the request descriptor (the static field `_iceI_<op>Request`, the property
`IceI_<op>Request`) is among it. -/
theorem oneway_error_aborts (od : OperationDecl) (d : Diagnostic)
    (h : (ProxyVisitor.visitOperation od).2 = Ending.error d) :
    (ProxyVisitor.visitOperation od).1 =
      [ProxyItem.syncMethod ("IceI_" ++ od.opName ++ "Request")
          (decide (od.operation.parameters.length > 0))
          (getEscapedParamName od.operation "context") (getEscapedParamName od.operation "cancel"),
       ProxyItem.asyncMethod ("IceI_" ++ od.opName ++ "Request")
          (decide (od.operation.parameters.length > 0))
          (getEscapedParamName od.operation "context")
          (getEscapedParamName od.operation "progress")
          (getEscapedParamName od.operation "cancel")] ∧
    (∀ item ∈ (ProxyVisitor.visitOperation od).1, item.isDescriptor = false) ∧
    (hasMetaData od.operation.metaData "oneway" = true ∧ od.operation.returnValues.length > 0) := by
  cases hc : (hasMetaData od.operation.metaData "oneway" &&
      decide (od.operation.returnValues.length > 0)) with
  | false => exact absurd h (proxy_visit_no_error od hc d)
  | true =>
    rw [proxy_visit_oneway od hc]
    refine ⟨rfl, ?_, by simpa using hc⟩
    simp [ProxyVisitor.methods, ProxyItem.isDescriptor]

/-- Witness of C14 on `["oneway"] int ping()`. -/
theorem proxy_oneway_error_iff_witness :
    onewayDecl.unitFiles.contains onewayDecl.file = true ∧
    (((hasMetaData onewayDecl.operation.metaData "oneway" = true ∧
          onewayDecl.operation.returnValues.length > 0) ∧
        ∃ message, (ProxyVisitor.visitOperation onewayDecl).2 =
          Ending.error ⟨onewayDecl.file, onewayDecl.line, message⟩) ∨
      (¬ (hasMetaData onewayDecl.operation.metaData "oneway" = true ∧
          onewayDecl.operation.returnValues.length > 0) ∧
        ∀ d, (ProxyVisitor.visitOperation onewayDecl).2 ≠ Ending.error d)) :=
  ⟨by decide, proxy_oneway_error_iff onewayDecl (by decide)⟩

/-- Witness of the amended C15 on `["oneway"] int ping()`. -/
theorem oneway_diagnostic_text_witness :
    onewayDecl.unitFiles.contains onewayDecl.file = true ∧
    hasMetaData onewayDecl.operation.metaData "oneway" = true ∧
    onewayDecl.operation.returnValues.length = 1 ∧
    (ProxyVisitor.visitOperation onewayDecl).2 =
      Ending.error ⟨onewayDecl.file, onewayDecl.line, "only void operations can be marked oneway"⟩ :=
  ⟨by decide, by decide, by decide,
    oneway_diagnostic_text onewayDecl (by decide) (by decide) (by decide)⟩

/-- Witness of C16 on `["oneway"] int ping()`. -/
theorem oneway_error_aborts_witness :
    (ProxyVisitor.visitOperation onewayDecl).2 =
      Ending.error ⟨"Test.ice", 12, "only void operations can be marked oneway"⟩ ∧
    ((ProxyVisitor.visitOperation onewayDecl).1 =
      [ProxyItem.syncMethod ("IceI_" ++ onewayDecl.opName ++ "Request")
          (decide (onewayDecl.operation.parameters.length > 0))
          (getEscapedParamName onewayDecl.operation "context")
          (getEscapedParamName onewayDecl.operation "cancel"),
       ProxyItem.asyncMethod ("IceI_" ++ onewayDecl.opName ++ "Request")
          (decide (onewayDecl.operation.parameters.length > 0))
          (getEscapedParamName onewayDecl.operation "context")
          (getEscapedParamName onewayDecl.operation "progress")
          (getEscapedParamName onewayDecl.operation "cancel")] ∧
    (∀ item ∈ (ProxyVisitor.visitOperation onewayDecl).1, item.isDescriptor = false) ∧
    (hasMetaData onewayDecl.operation.metaData "oneway" = true ∧
      onewayDecl.operation.returnValues.length > 0)) :=
  ⟨rfl, oneway_error_aborts onewayDecl
    ⟨"Test.ice", 12, "only void operations can be marked oneway"⟩ rfl⟩

theorem defaultShape_iff (members : List Member) :
    (decide (members.length = 1) && decide (getBitSequenceSize members = 0) &&
        (match members with
         | front :: _ => !front.tagged
         | [] => false)) = true ↔
      ∃ p, members = [p] ∧ p.tagged = false ∧ p.type.isBitSequenceOptional = false := by
  cases members with
  | nil => simp
  | cons p rest =>
    cases rest with
    | nil =>
      cases ht : p.tagged <;> cases hb : p.type.isBitSequenceOptional <;>
        simp [getBitSequenceSize, ht, hb]
    | cons q rest => simp

theorem defaultShape_size (members : List Member) :
    (decide (members.length = 1) && decide (getBitSequenceSize members = 0) &&
        (match members with
         | front :: _ => !front.tagged
         | [] => false)) = true ↔
      ∃ p, members = [p] ∧ getBitSequenceSize members = 0 ∧ p.tagged = false := by
  cases members with
  | nil => simp
  | cons p rest =>
    cases rest with
    | nil => simp
    | cons q rest => simp

theorem proxy_defaultWriter_iff (op : Operation) :
    ProxyVisitor.defaultWriter op = true ↔
      ∃ p, op.parameters = [p] ∧ p.tagged = false ∧ p.type.isBitSequenceOptional = false :=
  defaultShape_iff op.parameters

theorem proxy_defaultReader_iff (op : Operation) :
    ProxyVisitor.defaultReader op = true ↔
      ∃ p, op.returnValues = [p] ∧ p.tagged = false ∧ p.type.isBitSequenceOptional = false :=
  defaultShape_iff op.returnValues

theorem proxy_writer_direct_iff (op : Operation) :
    (∃ t, ProxyVisitor.writeOutgoingRequestWriter op = .ok (RequestWriter.direct t)) ↔
      ProxyVisitor.defaultWriter op = true := by
  constructor
  · rintro ⟨t, ht⟩
    by_contra hd
    have hd' : ProxyVisitor.defaultWriter op = false := by simpa using hd
    unfold ProxyVisitor.writeOutgoingRequestWriter at ht
    simp only [hd', Bool.false_eq_true, if_false] at ht
    split at ht
    · split at ht <;> cases ht
    · split at ht
      · cases ht
      · split at ht <;> cases ht
  · intro hd
    obtain ⟨p, hp, _, _⟩ := (proxy_defaultWriter_iff op).mp hd
    exact ⟨p.type, by simp [ProxyVisitor.writeOutgoingRequestWriter, hd, hp]⟩

theorem proxy_reader_direct_iff (op : Operation) :
    (∃ t, ProxyVisitor.writeOutgoingRequestReader op = .ok (some (RequestReader.direct t))) ↔
      ProxyVisitor.defaultReader op = true := by
  constructor
  · rintro ⟨t, ht⟩
    by_contra hd
    have hd' : ProxyVisitor.defaultReader op = false := by simpa using hd
    unfold ProxyVisitor.writeOutgoingRequestReader at ht
    simp only [hd', Bool.false_eq_true, if_false] at ht
    split at ht
    · split at ht <;> cases ht
    · cases ht
  · intro hd
    obtain ⟨p, hp, _, _⟩ := (proxy_defaultReader_iff op).mp hd
    exact ⟨p.type, by simp [ProxyVisitor.writeOutgoingRequestReader, hd, hp]⟩

/-! ## Claims on the request and response shapes and on dispatch -/

/-- C17 fails as stated: for `void opStruct(Structure p1)`, one untagged parameter that is a
struct, `writeOutgoingRequestWriter` emits the direct writer `outputStreamWriter(type)` and
no lambda, although the parameter is a struct. -/
theorem single_struct_param_gets_direct_writer :
    ProxyVisitor.writeOutgoingRequestWriter structOp =
      .ok (RequestWriter.direct (.struct "Structure")) ∧
    requestType structOp.parameters structOp.returnValues = RequestType.withStructParam false ∧
    ¬ (∃ p, structOp.parameters = [p] ∧ p.tagged = false ∧
        p.type.isBitSequenceOptional = false ∧ p.type.isStruct = false) := by
  refine ⟨rfl, rfl, ?_⟩
  rintro ⟨p, hp, _, _, hs⟩
  simp only [structOp, List.cons.injEq, and_true] at hp
  subst hp
  simp [SliceType.isStruct] at hs

/-- C17, amended: for every operation the proxy emits the direct type-to-type writer for the
parameters, with no generated lambda, exactly when the operation has one parameter and that
parameter is untagged and is not an `Optional` encoded via bit sequence; the writer is then
the one of the parameter's type, struct or not.  The struct test only selects the request
class: for one parameter `requestType` names `OutgoingRequestWithStructParam` exactly when
the parameter is an untagged struct and `OutgoingRequestWithParam` otherwise; so the direct
writer together with `OutgoingRequestWithParam` is what goes with exactly one untagged
parameter that is neither an `Optional` encoded via bit sequence nor a struct. -/
theorem single_value_writer_iff (op : Operation) (p : Member) (returnValues : List Member)
    (t : SliceType) :
    (ProxyVisitor.writeOutgoingRequestWriter op = .ok (RequestWriter.direct t) ↔
      ∃ q, op.parameters = [q] ∧ t = q.type ∧ q.tagged = false ∧
        q.type.isBitSequenceOptional = false) ∧
    ((ProxyVisitor.writeOutgoingRequestWriter op = .ok (RequestWriter.direct t) ∧
        requestType op.parameters op.returnValues =
          RequestType.withParam (decide (op.returnValues.length > 0))) ↔
      ∃ q, op.parameters = [q] ∧ t = q.type ∧ q.tagged = false ∧
        q.type.isBitSequenceOptional = false ∧ q.type.isStruct = false) ∧
    (requestType [p] returnValues = RequestType.withStructParam (decide (returnValues.length > 0)) ↔
      (p.type.isStruct = true ∧ p.tagged = false)) ∧
    (requestType [p] returnValues = RequestType.withParam (decide (returnValues.length > 0)) ↔
      (p.type.isStruct = false ∨ p.tagged = true)) := by
  have hw : ProxyVisitor.writeOutgoingRequestWriter op = .ok (RequestWriter.direct t) ↔
      ∃ q, op.parameters = [q] ∧ t = q.type ∧ q.tagged = false ∧
        q.type.isBitSequenceOptional = false := by
    constructor
    · intro h
      have hd := (proxy_writer_direct_iff op).mp ⟨t, h⟩
      obtain ⟨q, hq, h1, h2⟩ := (proxy_defaultWriter_iff op).mp hd
      refine ⟨q, hq, ?_, h1, h2⟩
      simp [ProxyVisitor.writeOutgoingRequestWriter, hd, hq] at h
      exact h.symm
    · rintro ⟨q, hq, ht, h1, h2⟩
      have hd := (proxy_defaultWriter_iff op).mpr ⟨q, hq, h1, h2⟩
      simp [ProxyVisitor.writeOutgoingRequestWriter, hd, hq, ht]
  refine ⟨hw, ?_, ?_, ?_⟩
  · rw [hw]
    constructor
    · rintro ⟨⟨q, hq, ht, h1, h2⟩, hreq⟩
      refine ⟨q, hq, ht, h1, h2, ?_⟩
      cases hs : q.type.isStruct with
      | false => rfl
      | true => simp [requestType, hq, hs, h1] at hreq
    · rintro ⟨q, hq, ht, h1, h2, hs⟩
      exact ⟨⟨q, hq, ht, h1, h2⟩, by simp [requestType, hq, hs]⟩
  · cases hs : p.type.isStruct <;> cases ht : p.tagged <;> simp [requestType, hs, ht]
  · cases hs : p.type.isStruct <;> cases ht : p.tagged <;> simp [requestType, hs, ht]

/-- C18 fails as stated: for `["marshaled-result"] IntS opIntS()` the proxy reads the return
value with the direct reader `inputStreamReader(type)`, while the dispatch handler hands no
writer to the response at all (it returns `result.Response`) and the constructor of the
`MarshaledReturnValue` struct writes the return value with a generated lambda around the
text of `writeMarshal`. -/
theorem marshaled_result_has_no_direct_writer :
    ProxyVisitor.writeOutgoingRequestReader marshaledDecl.operation =
      .ok (some (RequestReader.direct (.sequence (.builtin 4)))) ∧
    DispatcherVisitor.visitOperation false marshaledDecl =
      ([DispatchItem.handlerOpen false "IceD_opIntSAsync", DispatchItem.checkNonIdempotent,
        DispatchItem.readEmptyParamList,
        DispatchItem.callMarshaled false "OpIntS" [Arg.current], DispatchItem.handlerClose],
       Ending.completed) ∧
    DispatcherVisitor.writeReturnValueStruct marshaledDecl =
      .ok (some ⟨false, "default", false,
        [Item.marshalCode ⟨"ReturnValue", .sequence (.builtin 4), none⟩ (-1)]⟩) ∧
    ¬ (∃ c f t w, DispatchItem.returnValue c f (WriterRef.direct t) w ∈
        (DispatcherVisitor.visitOperation false marshaledDecl).1) := by
  refine ⟨rfl, rfl, rfl, ?_⟩
  rintro ⟨c, f, t, w, h⟩
  have e : (DispatcherVisitor.visitOperation false marshaledDecl).1 =
      [DispatchItem.handlerOpen false "IceD_opIntSAsync", DispatchItem.checkNonIdempotent,
        DispatchItem.readEmptyParamList,
        DispatchItem.callMarshaled false "OpIntS" [Arg.current], DispatchItem.handlerClose] := rfl
  rw [e] at h
  simp at h

/-- C18, amended: for every operation the four conditions coincide: the proxy's
`defaultWriter` is the dispatcher's `defaultReader` and the dispatcher's `defaultWriter` is
the proxy's `defaultReader`, each being exactly one member, bit-sequence size 0 and the
member untagged.  The proxy writes the parameters with a direct writer exactly when the
handler reads them with a direct reader.  For an operation without a marshaled result the
handler writes the return values with a direct writer exactly when the proxy reads them
with a direct reader; for an operation with a marshaled result the handler hands no writer
to a response. -/
theorem caller_callee_same_shape (generateAllAsync : Bool) (od : OperationDecl) :
    ProxyVisitor.defaultWriter od.operation = DispatcherVisitor.defaultReader od.operation ∧
    DispatcherVisitor.defaultWriter od.operation = ProxyVisitor.defaultReader od.operation ∧
    (ProxyVisitor.defaultWriter od.operation = true ↔
      ∃ p, od.operation.parameters = [p] ∧ od.operation.paramsBitSequenceSize = 0 ∧
        p.tagged = false) ∧
    (ProxyVisitor.defaultReader od.operation = true ↔
      ∃ p, od.operation.returnValues = [p] ∧ od.operation.returnBitSequenceSize = 0 ∧
        p.tagged = false) ∧
    ((∃ t, ProxyVisitor.writeOutgoingRequestWriter od.operation = .ok (RequestWriter.direct t)) ↔
      ∃ p t, DispatchItem.readParam p (ReaderRef.direct t) ∈
        DispatcherVisitor.handler generateAllAsync od) ∧
    (od.hasMarshaledResult = true ∨
      ((∃ t, ProxyVisitor.writeOutgoingRequestReader od.operation =
          .ok (some (RequestReader.direct t))) ↔
        ∃ c f t w, DispatchItem.returnValue c f (WriterRef.direct t) w ∈
          DispatcherVisitor.handler generateAllAsync od)) ∧
    (od.hasMarshaledResult = false ∨
      ∀ c f wr w, DispatchItem.returnValue c f wr w ∉
        DispatcherVisitor.handler generateAllAsync od) := by
  refine ⟨rfl, rfl, defaultShape_size _, defaultShape_size _, ?_, ?_, ?_⟩
  · rw [proxy_writer_direct_iff]
    cases hd : ProxyVisitor.defaultWriter od.operation with
    | true =>
      obtain ⟨p, hp, _, _⟩ := (proxy_defaultWriter_iff od.operation).mp hd
      have hd' : DispatcherVisitor.defaultReader od.operation = true := hd
      simp only [true_iff]
      refine ⟨p, p.type, ?_⟩
      cases od.hasMarshaledResult <;>
        simp [DispatcherVisitor.handler, DispatcherVisitor.reader, hd', hp]
    | false =>
      have hd' : DispatcherVisitor.defaultReader od.operation = false := hd
      simp only [Bool.false_eq_true, false_iff, not_exists]
      intro p t hmem
      cases hparams : od.operation.parameters with
      | nil =>
        cases hm : od.hasMarshaledResult <;>
          (simp [DispatcherVisitor.handler, hparams, hm] at hmem
           all_goals (split at hmem <;> simp at hmem))
      | cons q rest =>
        cases rest with
        | nil =>
          cases hm : od.hasMarshaledResult <;>
            (simp [DispatcherVisitor.handler, DispatcherVisitor.reader, hd', hparams, hm] at hmem
             all_goals (split at hmem <;> simp at hmem))
        | cons q2 rest2 =>
          cases hm : od.hasMarshaledResult <;>
            (simp [DispatcherVisitor.handler, hparams, hm] at hmem
             all_goals (split at hmem <;> simp at hmem))
  · cases hm : od.hasMarshaledResult with
    | true => exact Or.inl rfl
    | false =>
      refine Or.inr ?_
      rw [proxy_reader_direct_iff]
      cases hd : ProxyVisitor.defaultReader od.operation with
      | true =>
        obtain ⟨p, hp, _, _⟩ := (proxy_defaultReader_iff od.operation).mp hd
        have hd' : DispatcherVisitor.defaultWriter od.operation = true := hd
        simp only [true_iff]
        refine ⟨od.compressReturn, opFormatTypeToString od.operation, p.type,
          !DispatcherVisitor.amd generateAllAsync od, ?_⟩
        simp [DispatcherVisitor.handler, DispatcherVisitor.writer, hd', hp, hm]
      | false =>
        have hd' : DispatcherVisitor.defaultWriter od.operation = false := hd
        simp only [Bool.false_eq_true, false_iff, not_exists]
        intro c f t w hmem
        simp only [DispatcherVisitor.handler, DispatcherVisitor.writer, hd', hm, Bool.false_eq_true,
          if_false, List.mem_append, List.mem_singleton, List.mem_cons] at hmem
        rcases hmem with ((hmem | hmem) | hmem) | hmem
        · rcases hmem with hmem | hmem
          · cases hmem
          · simp at hmem
        · split at hmem <;> simp at hmem
        · split at hmem <;> simp at hmem
        · rcases hmem with ((hmem | hmem) | hmem) | hmem
          · cases hmem
          · simp at hmem
          · split at hmem <;> simp at hmem
          · simp at hmem
  · cases hm : od.hasMarshaledResult with
    | false => exact Or.inl rfl
    | true =>
      refine Or.inr ?_
      intro c f wr w hmem
      simp only [DispatcherVisitor.handler, hm, if_true, List.mem_append, List.mem_singleton,
        List.mem_cons] at hmem
      rcases hmem with ((hmem | hmem) | hmem) | hmem
      · rcases hmem with hmem | hmem
        · cases hmem
        · simp at hmem
      · split at hmem <;> simp at hmem
      · split at hmem <;> simp at hmem
      · rcases hmem with hmem | hmem | hmem
        · cases hmem
        · cases hmem
        · simp at hmem

theorem select_named (names : List String) (rest : List SwitchArm) (operation : String)
    (f : String → String) :
    SwitchArm.select (names.map (fun n => SwitchArm.named n (f n)) ++ rest) operation =
      if operation ∈ names then some (f operation) else SwitchArm.select rest operation := by
  induction names with
  | nil => simp
  | cons n ns ih =>
    by_cases h : n = operation
    · subst h
      simp [SwitchArm.select]
    · have h' : ¬ operation = n := fun e => h e.symm
      simp [SwitchArm.select, h, h', ih]

/-- C19: for every operation with no parameters, no return values and no marshaled result
the text of `DispatcherVisitor::visitOperation` is the handler alone: its header, the
non-idempotent check when the mode is `Normal`, `request.ReadEmptyParamList();`, then the
servant call with `current` as its only argument (awaited when the dispatch is
asynchronous), then the return of `OutgoingResponseFrame.WithVoidReturnValue(current)` and
the closing brace.  No reader and no writer definition follows. -/
theorem empty_operation_dispatch (generateAllAsync : Bool) (od : OperationDecl)
    (hp : od.operation.parameters = []) (hr : od.operation.returnValues = [])
    (hm : od.hasMarshaledResult = false) :
    DispatcherVisitor.visitOperation generateAllAsync od =
      ([DispatchItem.handlerOpen (DispatcherVisitor.amd generateAllAsync od)
          ("IceD_" ++ od.operation.name ++ "Async")] ++
        (if od.operation.mode = Mode.Normal then [DispatchItem.checkNonIdempotent] else []) ++
        [DispatchItem.readEmptyParamList,
         DispatchItem.callServant false (DispatcherVisitor.amd generateAllAsync od)
           (od.opName ++ (if DispatcherVisitor.amd generateAllAsync od then "Async" else ""))
           [Arg.current],
         DispatchItem.returnVoid (!DispatcherVisitor.amd generateAllAsync od),
         DispatchItem.handlerClose],
       Ending.completed) := by
  have hw : DispatcherVisitor.writerDefs od = .ok [] := by
    simp [DispatcherVisitor.writerDefs, hr, hm]
  have hrd : DispatcherVisitor.readerDefs od = .ok [] := by
    simp [DispatcherVisitor.readerDefs, hp]
  cases hmode : od.operation.mode <;>
    simp [DispatcherVisitor.visitOperation, hw, hrd, DispatcherVisitor.handler, hp, hr, hm,
      isIdempotent, hmode, DispatcherVisitor.callArgs, DispatcherVisitor.internalName]

/-- Witness of C19 on `void shutdown()`. -/
theorem empty_operation_dispatch_witness :
    shutdownDecl.operation.parameters = [] ∧ shutdownDecl.operation.returnValues = [] ∧
    shutdownDecl.hasMarshaledResult = false ∧
    DispatcherVisitor.visitOperation false shutdownDecl =
      ([DispatchItem.handlerOpen (DispatcherVisitor.amd false shutdownDecl)
          ("IceD_" ++ shutdownDecl.operation.name ++ "Async")] ++
        (if shutdownDecl.operation.mode = Mode.Normal then [DispatchItem.checkNonIdempotent]
         else []) ++
        [DispatchItem.readEmptyParamList,
         DispatchItem.callServant false (DispatcherVisitor.amd false shutdownDecl)
           (shutdownDecl.opName ++
             (if DispatcherVisitor.amd false shutdownDecl then "Async" else ""))
           [Arg.current],
         DispatchItem.returnVoid (!DispatcherVisitor.amd false shutdownDecl),
         DispatchItem.handlerClose],
       Ending.completed) :=
  ⟨rfl, rfl, rfl, empty_operation_dispatch false shutdownDecl rfl rfl rfl⟩

/-- C20: for every interface the emitted dispatch switch has one arm per operation of
`allOperations()`, in that order, then the arms of `ice_id`, `ice_ids`, `ice_isA` and
`ice_ping`, then the default arm that throws `OperationNotExistException(current.Identity,
current.Facet, current.Operation)`.  The arm keyed by name `n` calls
`servant.IceD_<n>Async(request, current)`, and `IceD_<name>Async` is the name
`DispatcherVisitor::visitOperation` gives to the handler of an operation.  Evaluated on a
name, the switch calls that handler when the name is one of the keys and throws
otherwise. -/
theorem dispatch_switch_arms (p : InterfaceDef) (generateAllAsync : Bool) (od : OperationDecl)
    (operation : String) :
    DispatcherVisitor.dispatchSwitch p =
      p.allOperations.map
          (fun op => SwitchArm.named op.name ("IceD_" ++ op.name ++ "Async")) ++
        [SwitchArm.named "ice_id" "IceD_ice_idAsync",
         SwitchArm.named "ice_ids" "IceD_ice_idsAsync",
         SwitchArm.named "ice_isA" "IceD_ice_isAAsync",
         SwitchArm.named "ice_ping" "IceD_ice_pingAsync",
         SwitchArm.operationNotExist ["current.Identity", "current.Facet", "current.Operation"]] ∧
    (DispatcherVisitor.visitOperation generateAllAsync od).1.head? =
      some (DispatchItem.handlerOpen (DispatcherVisitor.amd generateAllAsync od)
        ("IceD_" ++ od.operation.name ++ "Async")) ∧
    SwitchArm.select (DispatcherVisitor.dispatchSwitch p) operation =
      (if operation ∈ p.allOperations.map (fun op => op.name) ++
          ["ice_id", "ice_ids", "ice_isA", "ice_ping"]
       then some ("IceD_" ++ operation ++ "Async") else none) := by
  refine ⟨?_, ?_, ?_⟩
  · simp [DispatcherVisitor.dispatchSwitch, DispatcherVisitor.allOpNames, List.map_append]
  · cases hw : DispatcherVisitor.writerDefs od <;>
      cases hrd : DispatcherVisitor.readerDefs od <;>
      simp [DispatcherVisitor.visitOperation, hw, hrd, DispatcherVisitor.handler,
        DispatcherVisitor.internalName]
  · unfold DispatcherVisitor.dispatchSwitch DispatcherVisitor.allOpNames
    rw [select_named]
    simp [SwitchArm.select]

/-! ## Lemmas on the `front()` accesses -/

theorem writeMarshal_ok (op : Operation) (returnType : Bool)
    (hwf : returnType = true → op.WellFormed) : ∃ out, writeMarshal op returnType = .ok out := by
  cases h : twoBranches op returnType with
  | false => exact ⟨_, writeMarshal_one op returnType hwf h⟩
  | true =>
    obtain ⟨r1, ms, rest, _, _, _, h4⟩ := twoBranches_required op returnType h
    exact ⟨_, writeMarshal_two op returnType hwf h r1 rest h4⟩

theorem writeUnmarshal_ok (op : Operation) (returnType : Bool) :
    ∃ out, writeUnmarshal op returnType = .ok out := by
  cases h : twoBranches op returnType with
  | false => exact ⟨_, writeUnmarshal_one op returnType h⟩
  | true =>
    obtain ⟨r1, ms, rest, _, _, _, h4⟩ := twoBranches_required op returnType h
    exact ⟨_, writeUnmarshal_two op returnType h r1 rest h4⟩

theorem proxy_writer_ok (op : Operation) (hp : op.parameters ≠ []) :
    ∃ w, ProxyVisitor.writeOutgoingRequestWriter op = .ok w := by
  obtain ⟨body, hb⟩ := writeMarshal_ok op false (fun h => by cases h)
  unfold ProxyVisitor.writeOutgoingRequestWriter
  cases hps : op.parameters with
  | nil => exact absurd hps hp
  | cons p ps =>
    simp only [hb]
    split
    · exact ⟨_, rfl⟩
    · split
      · exact ⟨_, rfl⟩
      · exact ⟨_, rfl⟩

theorem proxy_reader_ok (op : Operation) :
    ∃ r, ProxyVisitor.writeOutgoingRequestReader op = .ok r := by
  obtain ⟨body, hb⟩ := writeUnmarshal_ok op true
  unfold ProxyVisitor.writeOutgoingRequestReader
  cases hrs : op.returnValues with
  | nil => simp [ProxyVisitor.defaultReader, hrs]
  | cons r rs =>
    simp only [hb]
    split
    · exact ⟨_, rfl⟩
    · split
      · exact ⟨_, rfl⟩
      · exact ⟨_, rfl⟩

/-! ## Claims on the idempotence flag, the `front()` accesses and the escaped names -/

/-- C21: for every operation the handler emitted by `DispatcherVisitor::visitOperation`
contains `IceCheckNonIdempotent(current);` exactly when the operation's mode is `Normal`.  The
text of `ProxyVisitor::visitOperation` for the same operation either stops at the `oneway`
error before any request descriptor, or carries exactly one `idempotent: <b>` argument, and
`b` is `false` exactly when the mode is `Normal`, that is exactly when the handler carries the
check. -/
theorem check_non_idempotent_iff (generateAllAsync : Bool) (od : OperationDecl) :
    (DispatchItem.checkNonIdempotent ∈ DispatcherVisitor.handler generateAllAsync od ↔
      od.operation.mode = Mode.Normal) ∧
    (((hasMetaData od.operation.metaData "oneway" &&
          decide (od.operation.returnValues.length > 0)) = true ∧
        (ProxyVisitor.visitOperation od).1.filterMap ProxyItem.idempotentArg = []) ∨
      ∃ b, (ProxyVisitor.visitOperation od).1.filterMap ProxyItem.idempotentArg = [b] ∧
        (b = false ↔ od.operation.mode = Mode.Normal) ∧
        (b = false ↔
          DispatchItem.checkNonIdempotent ∈ DispatcherVisitor.handler generateAllAsync od)) := by
  have hcheck : DispatchItem.checkNonIdempotent ∈ DispatcherVisitor.handler generateAllAsync od ↔
      od.operation.mode = Mode.Normal := by
    unfold DispatcherVisitor.handler
    simp only [List.mem_append]
    cases hm : od.operation.mode <;> cases hmr : od.hasMarshaledResult <;>
      by_cases hr : od.operation.returnValues.length = 0 <;>
      simp [isIdempotent, hr, hm] <;> split <;> simp
  refine ⟨hcheck, ?_⟩
  cases h : (hasMetaData od.operation.metaData "oneway" &&
      decide (od.operation.returnValues.length > 0)) with
  | true =>
    left
    refine ⟨rfl, ?_⟩
    rw [proxy_visit_oneway od h]
    simp [ProxyVisitor.methods, ProxyItem.idempotentArg]
  | false =>
    right
    refine ⟨isIdempotent od.operation, ?_, ?_, ?_⟩
    · unfold ProxyVisitor.visitOperation
      simp only [h]
      by_cases hp : od.operation.parameters.length > 0 <;>
        by_cases hr : od.operation.returnValues.length > 0 <;>
        cases hw : ProxyVisitor.writeOutgoingRequestWriter od.operation <;>
        cases hrd : ProxyVisitor.writeOutgoingRequestReader od.operation <;>
        simp [hp, hr, hw, hrd, ProxyItem.idempotentArg, List.filterMap_append]
    · cases hm : od.operation.mode <;> simp [isIdempotent, hm]
    · rw [hcheck]
      cases hm : od.operation.mode <;> simp [isIdempotent, hm]

/-- C28: for every operation in which `hasReturnAndOut` implies at least two return values,
no `front()` of `writeMarshal`, `writeUnmarshal`, `writeOutgoingRequestWriter` (called for an
operation with parameters) or `writeOutgoingRequestReader` is taken on an empty list: each of
the four functions runs to its end and yields its text, and `ProxyVisitor::visitOperation`,
which calls the writer only for an operation with parameters, never stops in an emitter. -/
theorem front_on_non_empty_list (od : OperationDecl) (returnType : Bool)
    (h : od.operation.hasReturnAndOut = true → 2 ≤ od.operation.returnValues.length) :
    (∃ out, writeMarshal od.operation returnType = .ok out) ∧
    (∃ out, writeUnmarshal od.operation returnType = .ok out) ∧
    (od.operation.parameters = [] ∨
      ∃ w, ProxyVisitor.writeOutgoingRequestWriter od.operation = .ok w) ∧
    (∃ r, ProxyVisitor.writeOutgoingRequestReader od.operation = .ok r) ∧
    (∀ e, (ProxyVisitor.visitOperation od).2 ≠ Ending.generator e) := by
  have hwf : od.operation.WellFormed := by
    intro hro hnil
    have := h hro
    rw [hnil] at this
    simp at this
  refine ⟨writeMarshal_ok od.operation returnType (fun _ => hwf),
    writeUnmarshal_ok od.operation returnType, ?_, proxy_reader_ok od.operation, ?_⟩
  · by_cases hp : od.operation.parameters = []
    · exact Or.inl hp
    · exact Or.inr (proxy_writer_ok od.operation hp)
  · intro e
    obtain ⟨r, hrd⟩ := proxy_reader_ok od.operation
    cases hone : (hasMetaData od.operation.metaData "oneway" &&
        decide (od.operation.returnValues.length > 0)) with
    | true =>
      rw [proxy_visit_oneway od hone]
      split <;> simp [DefinitionContext.error]
    | false =>
      unfold ProxyVisitor.visitOperation
      simp only [hone]
      by_cases hp : od.operation.parameters.length > 0
      · have hne : od.operation.parameters ≠ [] := by
          intro hnil
          rw [hnil] at hp
          simp at hp
        obtain ⟨w, hw⟩ := proxy_writer_ok od.operation hne
        by_cases hr : od.operation.returnValues.length > 0 <;> simp [hp, hr, hw, hrd]
      · by_cases hr : od.operation.returnValues.length > 0 <;> simp [hp, hr, hrd]

theorem front_on_non_empty_list_witness :
    (sampleDecl.operation.hasReturnAndOut = true → 2 ≤ sampleDecl.operation.returnValues.length) ∧
    (∃ out, writeMarshal sampleDecl.operation true = .ok out) ∧
    (∃ out, writeUnmarshal sampleDecl.operation true = .ok out) ∧
    (sampleDecl.operation.parameters = [] ∨
      ∃ w, ProxyVisitor.writeOutgoingRequestWriter sampleDecl.operation = .ok w) ∧
    (∃ r, ProxyVisitor.writeOutgoingRequestReader sampleDecl.operation = .ok r) ∧
    (∀ e, (ProxyVisitor.visitOperation sampleDecl).2 ≠ Ending.generator e) :=
  ⟨by decide, front_on_non_empty_list sampleDecl true (by decide)⟩

theorem endsInUnderscore_escaped (name : String) : endsInUnderscore (name ++ "_") = true := by
  simp [endsInUnderscore, String.data_append]

/-- C30: for every operation whose parameter names are Slice identifiers, which do not end in
an underscore, and every name `n`, `getEscapedParamName(operation, n)` is `n` when no parameter
is named `n` and `n_` otherwise, and in both cases it is not the name of any parameter of the
operation. -/
theorem escaped_name_is_free (p : Operation)
    (h : ∀ param ∈ p.parameters, endsInUnderscore param.name = false) (name : String) :
    getEscapedParamName p name ∉ p.parameters.map (fun param => param.name) ∧
    getEscapedParamName p name =
      (if name ∈ p.parameters.map (fun param => param.name) then name ++ "_" else name) := by
  have hany : p.parameters.any (fun param => param.name == name) = true ↔
      name ∈ p.parameters.map (fun param => param.name) := by
    constructor
    · intro ha
      obtain ⟨x, hx, hxe⟩ := List.any_eq_true.1 ha
      exact List.mem_map.2 ⟨x, hx, by simpa using hxe⟩
    · intro hm
      obtain ⟨x, hx, hxe⟩ := List.mem_map.1 hm
      exact List.any_eq_true.2 ⟨x, hx, by simpa using hxe⟩
  unfold getEscapedParamName
  by_cases hmem : name ∈ p.parameters.map (fun param => param.name)
  · rw [if_pos (hany.2 hmem), if_pos hmem]
    refine ⟨?_, rfl⟩
    intro hin
    obtain ⟨param, hp, hname⟩ := List.mem_map.1 hin
    have h1 := h param hp
    have h2 := endsInUnderscore_escaped name
    have hname : param.name = name ++ "_" := hname
    rw [hname, h2] at h1
    exact Bool.noConfusion h1
  · have hfalse : ¬ p.parameters.any (fun param => param.name == name) = true :=
      fun ha => hmem (hany.1 ha)
    rw [if_neg hfalse, if_neg hmem]
    exact ⟨hmem, rfl⟩

theorem escaped_name_is_free_witness :
    (∀ param ∈ contextOp.parameters, endsInUnderscore param.name = false) ∧
    getEscapedParamName contextOp "context" ∉
      contextOp.parameters.map (fun param => param.name) ∧
    getEscapedParamName contextOp "context" =
      (if "context" ∈ contextOp.parameters.map (fun param => param.name) then "context" ++ "_"
       else "context") :=
  ⟨by decide, escaped_name_is_free contextOp (by decide) "context"⟩

/-! ## Lemmas on strings -/

theorem string_eq_empty_iff (s : String) : s = "" ↔ s.data = [] := by
  constructor
  · intro h
    rw [h]
  · intro h
    exact String.ext h

theorem generic_reason_ne_empty (type : String) :
    "This " ++ type ++ " has been deprecated." ≠ "" := by
  rw [Ne, string_eq_empty_iff]
  simp [String.data_append]

theorem substrFrom_ne_empty (s : String) (pos : Nat) (h : pos < s.length) :
    substrFrom s pos ≠ "" := by
  rw [Ne, string_eq_empty_iff]
  simp only [substrFrom, List.drop_eq_nil_iff, not_le]
  exact h

theorem specDeprecateReason_ne_empty (m type : String) : specDeprecateReason m type ≠ "" := by
  unfold specDeprecateReason
  split
  · rename_i h
    exact substrFrom_ne_empty m 10 h.2
  · exact generic_reason_ne_empty type

theorem getDeprecateReason_of_found (p1 : List String) (p2 : Option (List String))
    (type m : String) (h : deprecateMetadata p1 p2 = some m) :
    getDeprecateReason p1 p2 type = specDeprecateReason m type := by
  unfold getDeprecateReason specDeprecateReason
  rw [h]
  by_cases h1 : startsWith m "deprecate:" = true <;>
    by_cases h2 : "deprecate:".length < m.length <;> simp [h1, h2]
  · rfl

/-! ## Claims on deprecation reasons and dictionaries -/

/-- C23: `getDeprecateReason(p1, p2, type)` is the empty string exactly when neither `p1` nor
a non-null `p2` carries `deprecate` metadata.  When `p1` carries it, the reason is the one of
the specification for `p1`'s metadata whatever `p2` is; when only a non-null `p2` carries it,
the reason is the one for `p2`'s metadata: the text after `deprecate:` when the metadata starts
with that prefix and is longer than it, the sentence `This <type> has been deprecated.`
otherwise. -/
theorem getDeprecateReason_spec (p1 : List String) (p2 : Option (List String)) (type : String) :
    (getDeprecateReason p1 p2 type = "" ↔
      (findMetaData p1 "deprecate" = none ∧
        (p2 = none ∨ ∃ c, p2 = some c ∧ findMetaData c "deprecate" = none))) ∧
    getDeprecateReason p1 p2 type =
      (match findMetaData p1 "deprecate", p2 with
       | some m, _ => specDeprecateReason m type
       | none, none => ""
       | none, some c =>
         match findMetaData c "deprecate" with
         | some m => specDeprecateReason m type
         | none => "") := by
  cases h1 : findMetaData p1 "deprecate" with
  | some m =>
    have hfound : deprecateMetadata p1 p2 = some m := by simp [deprecateMetadata, h1]
    rw [getDeprecateReason_of_found p1 p2 type m hfound]
    simp [specDeprecateReason_ne_empty]
  | none =>
    cases p2 with
    | none => simp [getDeprecateReason, deprecateMetadata, h1]
    | some c =>
      cases h2 : findMetaData c "deprecate" with
      | some m =>
        have hfound : deprecateMetadata p1 (some c) = some m := by
          simp [deprecateMetadata, h1, h2]
        rw [getDeprecateReason_of_found p1 (some c) type m hfound]
        simp [specDeprecateReason_ne_empty, h2]
      | none => simp [getDeprecateReason, deprecateMetadata, h1, h2]

/-- C26: for every dictionary the call emitted in `Write` passes `withBitSequence: true`
exactly when the call emitted in `Read` does, which is exactly when the value type is an
optional encoded using a bit sequence whose underlying type is a reference type; and the call
in `Read` has no `minValueSize` argument exactly when the value type is an optional encoded
using a bit sequence. -/
theorem dictionary_bit_sequence_flags (isReferenceType : SliceType → Bool)
    (keyType valueType : SliceType) (generic : String) :
    (DictArg.withBitSequence ∈ (visitDictionary isReferenceType keyType valueType generic).writeArgs ↔
      DictArg.withBitSequence ∈
        (visitDictionary isReferenceType keyType valueType generic).readArgs) ∧
    (DictArg.withBitSequence ∈ (visitDictionary isReferenceType keyType valueType generic).writeArgs ↔
      ∃ underlying, valueType = SliceType.optional underlying true ∧
        isReferenceType underlying = true) ∧
    ((visitDictionary isReferenceType keyType valueType generic).readArgs.any
        DictArg.isMinValueSize = false ↔
      valueType.isBitSequenceOptional = true) := by
  have hkey : DictArg.withBitSequence ∉
      (if !keyType.isStruct then [DictArg.writer keyType] else []) := by
    split <;> simp
  cases valueType with
  | optional underlying b =>
    cases b <;> cases hr : isReferenceType underlying <;>
      cases hs : underlying.isStruct <;> cases hk : keyType.isStruct <;>
      simp [visitDictionary, SliceType.isBitSequenceOptional, DictArg.isMinValueSize, hr, hs, hk,
        SliceType.isStruct]
  | _ =>
    cases hk : keyType.isStruct <;>
      simp [visitDictionary, SliceType.isBitSequenceOptional, DictArg.isMinValueSize, hk,
        SliceType.isStruct]

/-! ## Lemmas on the validation of enumerations -/

theorem wrapInt64_span (lo hi : Int) (h : lo ≤ hi) (hspan : hi - lo + 1 < 2 ^ 63) :
    wrapInt64 (wrapInt64 (hi - lo) + 1) = hi - lo + 1 := by
  unfold wrapInt64
  omega

theorem exactBounds_le (p : Enum) (hb : p.ExactBounds) : p.minValue ≤ p.maxValue :=
  (hb.2.2 p.maxValue hb.2.1).1

theorem useSet_eq (p : Enum) (hb : p.ExactBounds) (hspan : p.maxValue - p.minValue + 1 < 2 ^ 63) :
    useSet p = (!p.isUnchecked &&
      decide ((p.enumerators.length : Int) < p.maxValue - p.minValue + 1)) := by
  unfold useSet
  rw [wrapInt64_span p.minValue p.maxValue (exactBounds_le p hb) hspan]

theorem values_fill (values : List Int) (lo hi : Int) (hnodup : values.Nodup)
    (hin : ∀ v ∈ values, lo ≤ v ∧ v ≤ hi) (hlen : hi - lo + 1 ≤ (values.length : Int)) (v : Int) :
    v ∈ values ↔ lo ≤ v ∧ v ≤ hi := by
  have hsub : values.toFinset ⊆ Finset.Icc lo hi := by
    intro x hx
    rw [List.mem_toFinset] at hx
    rw [Finset.mem_Icc]
    exact hin x hx
  have hcard : (Finset.Icc lo hi).card ≤ values.toFinset.card := by
    rw [List.toFinset_card_of_nodup hnodup, Int.card_Icc]
    omega
  have heq := Finset.eq_of_subset_of_card_le hsub hcard
  rw [← List.mem_toFinset, heq, Finset.mem_Icc]

theorem length_ge_of_range (values : List Int) (lo hi : Int) (hnodup : values.Nodup)
    (hle : lo ≤ hi) (hall : ∀ v, lo ≤ v → v ≤ hi → v ∈ values) :
    hi - lo + 1 ≤ (values.length : Int) := by
  have hsub : Finset.Icc lo hi ⊆ values.toFinset := by
    intro x hx
    rw [Finset.mem_Icc] at hx
    rw [List.mem_toFinset]
    exact hall x hx.1 hx.2
  have hcard := Finset.card_le_card hsub
  rw [List.toFinset_card_of_nodup hnodup, Int.card_Icc] at hcard
  omega

theorem values_length (p : Enum) : p.values.length = p.enumerators.length := by
  simp [Enum.values]

/-! ## Claims on the validation of enumerations -/

/-- C22: for every checked enumeration whose enumerator values are pairwise distinct, whose
`minValue` and `maxValue` are their minimum and maximum and whose span
`maxValue - minValue + 1` fits a signed 64-bit integer, the emitted `As<Enum>` returns `v` when
`v` is the value of an enumerator and otherwise throws `InvalidDataException` with `v` and the
scoped name of the enumeration.  The text is either the set of the enumerator values with the
test `EnumeratorValues.Contains(value)`, or the range test alone, and in that case the range
from `minValue` to `maxValue` holds exactly the enumerator values. -/
theorem enum_validation_exact (p : Enum) (hchecked : p.isUnchecked = false)
    (hnodup : p.values.Nodup) (hb : p.ExactBounds)
    (hspan : p.maxValue - p.minValue + 1 < 2 ^ 63) :
    (∀ v, (visitEnum p).asValue v =
      if v ∈ p.values then .ok v else .error ⟨v, p.scopedName⟩) ∧
    (((visitEnum p).enumeratorValues = some p.values ∧
        (visitEnum p).asBody = AsBody.checked EnumTest.contains p.scopedName) ∨
      ((visitEnum p).enumeratorValues = none ∧
        (visitEnum p).asBody =
          AsBody.checked (EnumTest.range p.minValue p.maxValue) p.scopedName ∧
        ∀ v, (p.minValue ≤ v ∧ v ≤ p.maxValue) ↔ v ∈ p.values)) := by
  have hu := useSet_eq p hb hspan
  cases hs : useSet p with
  | true =>
    refine ⟨?_, Or.inl ?_⟩
    · intro v
      simp [visitEnum, EnumHelper.asValue, hs, hchecked, Enum.values]
    · simp [visitEnum, hs, hchecked, Enum.values]
  | false =>
    rw [hs, hchecked] at hu
    have hlen : p.maxValue - p.minValue + 1 ≤ (p.values.length : Int) := by
      rw [values_length]
      simpa using hu.symm
    have hfill := values_fill p.values p.minValue p.maxValue hnodup hb.2.2 hlen
    refine ⟨?_, Or.inr ⟨?_, ?_, fun v => (hfill v).symm⟩⟩
    · intro v
      by_cases hv : v ∈ p.values
      · have := (hfill v).1 hv
        simp [visitEnum, EnumHelper.asValue, hs, hchecked, hv, this]
      · have : ¬ (p.minValue ≤ v ∧ v ≤ p.maxValue) := fun h => hv ((hfill v).2 h)
        simp only [visitEnum, EnumHelper.asValue, hs, hchecked, hv]
        simp only [not_and, not_le] at this
        simpa using this
    · simp [visitEnum, hs]
    · simp [visitEnum, hs, hchecked]

theorem enum_validation_exact_witness :
    sparseEnum.isUnchecked = false ∧ sparseEnum.values.Nodup ∧ sparseEnum.ExactBounds ∧
    sparseEnum.maxValue - sparseEnum.minValue + 1 < 2 ^ 63 ∧
    (∀ v, (visitEnum sparseEnum).asValue v =
      if v ∈ sparseEnum.values then .ok v else .error ⟨v, sparseEnum.scopedName⟩) ∧
    (((visitEnum sparseEnum).enumeratorValues = some sparseEnum.values ∧
        (visitEnum sparseEnum).asBody = AsBody.checked EnumTest.contains sparseEnum.scopedName) ∨
      ((visitEnum sparseEnum).enumeratorValues = none ∧
        (visitEnum sparseEnum).asBody =
          AsBody.checked (EnumTest.range sparseEnum.minValue sparseEnum.maxValue)
            sparseEnum.scopedName ∧
        ∀ v, (sparseEnum.minValue ≤ v ∧ v ≤ sparseEnum.maxValue) ↔ v ∈ sparseEnum.values)) :=
  ⟨rfl, by decide, by decide, by decide,
    enum_validation_exact sparseEnum rfl (by decide) (by decide) (by decide)⟩

/-- C25: for every enumeration whose enumerator values are pairwise distinct, whose `minValue`
and `maxValue` are their minimum and maximum and whose span fits a signed 64-bit integer,
`visitEnum` emits the set `EnumeratorValues` exactly when `useSet` holds, that is when the
enumeration is checked and has fewer enumerators than `maxValue - minValue + 1`, that is when
it is checked and its values are not those of a contiguous integer range.  The enumeration is
unchecked exactly when the text has neither the set nor a test, and
`enum E { A = 3, B = 2, C = 1 }` gets the range test from 1 to 3 and no set. -/
theorem useSet_iff_not_contiguous (p : Enum) (hnodup : p.values.Nodup) (hb : p.ExactBounds)
    (hspan : p.maxValue - p.minValue + 1 < 2 ^ 63) :
    ((visitEnum p).enumeratorValues.isSome = useSet p) ∧
    (useSet p = true ↔
      (p.isUnchecked = false ∧ (p.enumerators.length : Int) < p.maxValue - p.minValue + 1)) ∧
    (useSet p = true ↔ (p.isUnchecked = false ∧ ¬ Contiguous p.values)) ∧
    (p.isUnchecked = true ↔
      ((visitEnum p).enumeratorValues = none ∧ (visitEnum p).asBody = AsBody.cast)) ∧
    visitEnum reversedEnum = ⟨none, AsBody.checked (EnumTest.range 1 3) "E"⟩ := by
  have hu := useSet_eq p hb hspan
  have hiff : useSet p = true ↔
      (p.isUnchecked = false ∧ (p.enumerators.length : Int) < p.maxValue - p.minValue + 1) := by
    rw [hu]
    simp
  refine ⟨?_, hiff, ?_, ?_, by decide⟩
  · cases hs : useSet p <;> simp [visitEnum, hs]
  · rw [hiff]
    refine and_congr_right (fun _ => ?_)
    constructor
    · rintro hlt ⟨a, b, hab⟩
      have ha := ((hab p.minValue).1 hb.1).1
      have hbb := ((hab p.maxValue).1 hb.2.1).2
      have := length_ge_of_range p.values p.minValue p.maxValue hnodup (exactBounds_le p hb)
        (fun v h1 h2 => (hab v).2 ⟨by omega, by omega⟩)
      rw [values_length] at this
      omega
    · intro hnc
      by_contra hge
      apply hnc
      have hlen : p.maxValue - p.minValue + 1 ≤ (p.values.length : Int) := by
        rw [values_length]
        omega
      exact ⟨p.minValue, p.maxValue, values_fill p.values p.minValue p.maxValue hnodup hb.2.2 hlen⟩
  · cases hc : p.isUnchecked with
    | true => simp [visitEnum, useSet, hc]
    | false => simp [visitEnum, hc]

theorem useSet_iff_not_contiguous_witness :
    reversedEnum.values.Nodup ∧ reversedEnum.ExactBounds ∧
    reversedEnum.maxValue - reversedEnum.minValue + 1 < 2 ^ 63 ∧
    ((visitEnum reversedEnum).enumeratorValues.isSome = useSet reversedEnum) ∧
    (useSet reversedEnum = true ↔
      (reversedEnum.isUnchecked = false ∧
        (reversedEnum.enumerators.length : Int) <
          reversedEnum.maxValue - reversedEnum.minValue + 1)) ∧
    (useSet reversedEnum = true ↔
      (reversedEnum.isUnchecked = false ∧ ¬ Contiguous reversedEnum.values)) ∧
    (reversedEnum.isUnchecked = true ↔
      ((visitEnum reversedEnum).enumeratorValues = none ∧
        (visitEnum reversedEnum).asBody = AsBody.cast)) ∧
    visitEnum reversedEnum = ⟨none, AsBody.checked (EnumTest.range 1 3) "E"⟩ :=
  ⟨by decide, by decide, by decide,
    useSet_iff_not_contiguous reversedEnum (by decide) (by decide) (by decide)⟩

/-! ## Lemmas on the markup loops and the namespace stack -/

theorem replaceSees_unclosed (csharpIdentifier : List Char → List Char) (fuel : Nat) :
    replaceSees csharpIdentifier fuel "\x7b@see Foo".data (some 0) = none := by
  induction fuel with
  | zero => rfl
  | succ n ih =>
    have h1 : stdFind "\x7b@see Foo".data ['\x7d'] 0 = none := by decide
    have h2 : stdFind "\x7b@see Foo".data "\x7b@see ".data 0 = some 0 := by decide
    unfold replaceSees
    simp only [h1, h2]
    exact ih

theorem run_open (p : Module) (pre : String) (calls : List NamespaceCall) (v : CsVisitor) :
    CsVisitor.run (NamespaceCall.openNamespace p pre :: calls) v =
      CsVisitor.run calls (v.openNamespace p pre) := rfl

theorem run_close (calls : List NamespaceCall) (top : String) (stack : List String)
    (out : List NamespaceItem) :
    CsVisitor.run (NamespaceCall.closeNamespace :: calls) ⟨top :: stack, out⟩ =
      CsVisitor.run calls ⟨stack, if top = "" then out ++ [NamespaceItem.closing] else out⟩ := rfl

theorem run_append (a b : List NamespaceCall) (v : CsVisitor) :
    CsVisitor.run (a ++ b) v =
      match CsVisitor.run a v with
      | none => none
      | some next => CsVisitor.run b next := by
  induction a generalizing v with
  | nil => rfl
  | cons c cs ih =>
    cases c with
    | openNamespace p pre => exact ih (v.openNamespace p pre)
    | closeNamespace =>
      simp only [List.cons_append, CsVisitor.run]
      cases v.closeNamespace with
      | none => rfl
      | some next => exact ih next

theorem append_ne_empty (a b : String) (h : b ≠ "") : a ++ b ≠ "" := by
  rw [Ne, string_eq_empty_iff] at h ⊢
  simp [String.data_append, h]

theorem openNamespace_silent (v : CsVisitor) (p : Module) (pre : String)
    (hs : p.hasOnlySubModules = true) (hn : p.name ≠ "") :
    ∃ entry, entry ≠ "" ∧ v.openNamespace p pre = ⟨entry :: v.namespaceStack, v.out⟩ := by
  refine ⟨v.namespacePrefix p pre ++ p.name, append_ne_empty _ _ hn, ?_⟩
  simp [CsVisitor.openNamespace, hs]

theorem openNamespace_braces (v : CsVisitor) (p : Module) (pre : String)
    (hs : p.hasOnlySubModules = false) :
    v.openNamespace p pre =
      ⟨"" :: v.namespaceStack,
        v.out ++ [NamespaceItem.opening (v.namespacePrefix p pre ++ p.name)]⟩ := by
  simp [CsVisitor.openNamespace, hs]

theorem balanced_append (a b : List NamespaceItem) (ha : Balanced a) (hb : Balanced b) :
    Balanced (a ++ b) := by
  induction ha with
  | nil => exact hb
  | block name inner rest _ _ _ ih2 =>
    have := Balanced.block name inner (rest ++ b) (by assumption) ih2
    simpa using this

theorem run_nested (calls : List NamespaceCall) (hn : ProperlyNested calls) :
    calls.all NamespaceCall.named = true → ∀ v : CsVisitor,
      ∃ text, CsVisitor.run calls v = some ⟨v.namespaceStack, v.out ++ text⟩ ∧
        PairedText calls text ∧ Balanced text ∧
        (text.filter NamespaceItem.isOpening).length =
          (text.filter (fun i => !i.isOpening)).length := by
  induction hn with
  | nil =>
    intro _ v
    exact ⟨[], by simp [CsVisitor.run], PairedText.nil, Balanced.nil, rfl⟩
  | block p pre inner rest hinner hrest ih1 ih2 =>
    intro hnamed v
    simp only [List.all_cons, List.all_append, Bool.and_eq_true, NamespaceCall.named,
      decide_eq_true_eq] at hnamed
    obtain ⟨⟨hname, hin⟩, -, hre⟩ := hnamed
    cases hs : p.hasOnlySubModules with
    | true =>
      obtain ⟨entry, hentry, hopen⟩ := openNamespace_silent v p pre hs hname
      obtain ⟨ti, hrun1, hp1, hb1, hc1⟩ := ih1 hin ⟨entry :: v.namespaceStack, v.out⟩
      obtain ⟨tr, hrun2, hp2, hb2, hc2⟩ := ih2 hre ⟨v.namespaceStack, v.out ++ ti⟩
      refine ⟨ti ++ tr, ?_, PairedText.silent p pre inner rest ti tr hs hp1 hp2,
        balanced_append ti tr hb1 hb2, ?_⟩
      · have hrun1 : CsVisitor.run inner ⟨entry :: v.namespaceStack, v.out⟩ =
            some ⟨entry :: v.namespaceStack, v.out ++ ti⟩ := hrun1
        have hrun2 : CsVisitor.run rest ⟨v.namespaceStack, v.out ++ ti⟩ =
            some ⟨v.namespaceStack, v.out ++ ti ++ tr⟩ := hrun2
        rw [List.cons_append, run_open, hopen, run_append, hrun1]
        simp only [run_close, hentry, if_false, hrun2, List.append_assoc]
      · simp only [List.filter_append, List.length_append, hc1, hc2]
    | false =>
      have hopen := openNamespace_braces v p pre hs
      obtain ⟨ti, hrun1, hp1, hb1, hc1⟩ := ih1 hin
        ⟨"" :: v.namespaceStack,
          v.out ++ [NamespaceItem.opening (v.namespacePrefix p pre ++ p.name)]⟩
      obtain ⟨tr, hrun2, hp2, hb2, hc2⟩ := ih2 hre
        ⟨v.namespaceStack,
          v.out ++ [NamespaceItem.opening (v.namespacePrefix p pre ++ p.name)] ++ ti ++
            [NamespaceItem.closing]⟩
      refine ⟨NamespaceItem.opening (v.namespacePrefix p pre ++ p.name) :: ti ++
          NamespaceItem.closing :: tr, ?_,
        PairedText.braces p pre _ inner rest ti tr hs hp1 hp2,
        Balanced.block _ ti tr hb1 hb2, ?_⟩
      · have hrun1 : CsVisitor.run inner ⟨"" :: v.namespaceStack,
              v.out ++ [NamespaceItem.opening (v.namespacePrefix p pre ++ p.name)]⟩ =
            some ⟨"" :: v.namespaceStack,
              v.out ++ [NamespaceItem.opening (v.namespacePrefix p pre ++ p.name)] ++ ti⟩ := hrun1
        have hrun2 : CsVisitor.run rest ⟨v.namespaceStack,
              v.out ++ [NamespaceItem.opening (v.namespacePrefix p pre ++ p.name)] ++ ti ++
                [NamespaceItem.closing]⟩ =
            some ⟨v.namespaceStack,
              v.out ++ [NamespaceItem.opening (v.namespacePrefix p pre ++ p.name)] ++ ti ++
                [NamespaceItem.closing] ++ tr⟩ := hrun2
        rw [List.cons_append, run_open, hopen, run_append, hrun1]
        simp only [run_close, if_true, hrun2]
        simp
      · simp [List.filter_append, List.filter_cons, NamespaceItem.isOpening, hc1, hc2]
        omega

/-! ## Claims on the markup loops and the namespace stack -/

/-- C27: on the comment `{@see Foo`, which has no closing brace, the third loop of
`processComment` finds the tag at index 0, changes nothing and searches again from index 0: it
is still running after any number of iterations, so `processComment` does not return.  The
sibling loops do end: on `{@link Foo` the tag is erased before the search for the closing
brace, and on `a < b` the first loop leaves at its `break`. -/
theorem processComment_unclosed_see (csharpIdentifier : List Char → List Char) (fuel : Nat) :
    processComment csharpIdentifier fuel "\x7b@see Foo" = none ∧
    processComment csharpIdentifier 1 "\x7b@link Foo" = some "Foo" ∧
    processComment csharpIdentifier 1 "a < b" = some "a < b" := by
  refine ⟨?_, rfl, rfl⟩
  have h1 : stdFind "\x7b@see Foo".data ['<'] 0 = none := by decide
  have h2 : stdFind "\x7b@see Foo".data "\x7b@link ".data 0 = none := by decide
  have h3 : stdFind "\x7b@see Foo".data "\x7b@see ".data 0 = some 0 := by decide
  have h4 : stripTags fuel "\x7b@see Foo".data none = some "\x7b@see Foo".data := by
    cases fuel <;> rfl
  have h5 : replaceLinks csharpIdentifier fuel "\x7b@see Foo".data none =
      some "\x7b@see Foo".data := by
    cases fuel <;> rfl
  have h6 := replaceSees_unclosed csharpIdentifier fuel
  unfold processComment
  rw [h1, h4]
  dsimp only
  rw [h2, h5]
  dsimp only
  rw [h3, h6]

/-- C29: for every properly nested sequence of `openNamespace` and `closeNamespace` calls on
modules that have a name, each `openNamespace` pushes one entry, and the entry is the empty
string exactly when the call emitted a namespace opening (otherwise it emitted nothing).  Run from
an empty stack, the sequence ends with an empty stack; each pair of matching calls emitted
either an opening and its closing brace or nothing, so the text is properly nested and has as
many openings as closing braces. -/
theorem namespace_blocks_balanced (calls : List NamespaceCall) (hn : ProperlyNested calls)
    (hnamed : calls.all NamespaceCall.named = true) (out : List NamespaceItem) :
    (∀ p pre, NamespaceCall.openNamespace p pre ∈ calls → ∀ w : CsVisitor,
      ∃ entry, (w.openNamespace p pre).namespaceStack = entry :: w.namespaceStack ∧
        (entry = "" ↔ ∃ name, (w.openNamespace p pre).out = w.out ++ [NamespaceItem.opening name]) ∧
        (entry = "" ∨ (w.openNamespace p pre).out = w.out)) ∧
    (∀ (top : String) (stack : List String) (text : List NamespaceItem),
      CsVisitor.closeNamespace ⟨top :: stack, text⟩ =
        some ⟨stack, if top = "" then text ++ [NamespaceItem.closing] else text⟩) ∧
    ∃ text, CsVisitor.run calls ⟨[], out⟩ = some ⟨[], out ++ text⟩ ∧
      PairedText calls text ∧ Balanced text ∧
      (text.filter NamespaceItem.isOpening).length =
        (text.filter (fun i => !i.isOpening)).length := by
  refine ⟨?_, fun _ _ _ => rfl, run_nested calls hn hnamed ⟨[], out⟩⟩
  intro p pre hmem w
  have hname : p.name ≠ "" := by
    have := List.all_eq_true.1 hnamed _ hmem
    simpa [NamespaceCall.named] using this
  cases hs : p.hasOnlySubModules with
  | true =>
    obtain ⟨entry, hentry, hopen⟩ := openNamespace_silent w p pre hs hname
    refine ⟨entry, by rw [hopen], ?_, Or.inr (by rw [hopen])⟩
    rw [hopen]
    simp [hentry]
  | false =>
    have hopen := openNamespace_braces w p pre hs
    refine ⟨"", by rw [hopen], ?_, Or.inl rfl⟩
    rw [hopen]
    simp

theorem namespace_blocks_balanced_witness :
    ProperlyNested
      [NamespaceCall.openNamespace outerModule "", NamespaceCall.openNamespace innerModule "",
       NamespaceCall.closeNamespace, NamespaceCall.closeNamespace] ∧
    CsVisitor.run
      [NamespaceCall.openNamespace outerModule "", NamespaceCall.openNamespace innerModule "",
       NamespaceCall.closeNamespace, NamespaceCall.closeNamespace] ⟨[], []⟩ =
      some ⟨[], [NamespaceItem.opening "Outer.Inner", NamespaceItem.closing]⟩ ∧
    ∃ text,
      CsVisitor.run
        [NamespaceCall.openNamespace outerModule "", NamespaceCall.openNamespace innerModule "",
         NamespaceCall.closeNamespace, NamespaceCall.closeNamespace] ⟨[], []⟩ =
        some ⟨[], [] ++ text⟩ ∧
      Balanced text :=
  have hn : ProperlyNested
      [NamespaceCall.openNamespace outerModule "", NamespaceCall.openNamespace innerModule "",
       NamespaceCall.closeNamespace, NamespaceCall.closeNamespace] :=
    ProperlyNested.block outerModule ""
      [NamespaceCall.openNamespace innerModule "", NamespaceCall.closeNamespace] []
      (ProperlyNested.block innerModule "" [] [] ProperlyNested.nil ProperlyNested.nil)
      ProperlyNested.nil
  ⟨hn, by decide,
    ((namespace_blocks_balanced _ hn (by decide) []).2.2).imp (fun _ h => ⟨h.1, h.2.2.1⟩)⟩

end Slice
